import Mathlib

/-!
# Hyperdrive: pose-keyed mesh cache and evaluation gate

A shallow embedding of the cache engine and its registry (`HdMeshCache.cpp`),
the pose hash (`HdPose.h`), the custom evaluator (`HdEvaluator.cpp`), the two
compute nodes (`HdPoseNode.cpp`, `HdCacheNode.cpp`) and the commands
(`HdCommands.cpp`), followed by the properties proved about them.

Conventions of the embedding
* C++ objects that are mutated in place become values that are passed in and
  returned; an `MStatus&` out-parameter becomes an input (the value the caller
  holds) and an output.
* `double` sizes are exact rationals; sizes are only added, divided, compared
  with zero and converted to `int`, and rounding is not modelled.
* Host (Maya) objects appear through the observations the code makes of them.
-/

set_option autoImplicit false

namespace Hyperdrive

/-! ## Status codes -/

/-- Status codes of the host API that the sources use. -/
inductive MStatus where
  | kSuccess
  | kFailure
  | kInvalidParameter
  | kUnknownParameter
  | kNotFound
  | kEndOfFile
  deriving DecidableEq, Repr

/-! ## Mesh data (`HdMeshCache.h`) -/

/-- A point of an `MFloatPointArray`. -/
structure MFloatPoint where
  x : ℚ
  y : ℚ
  z : ℚ
  w : ℚ
  deriving DecidableEq, Repr

/-- Mesh geometry held by the host behind an `MObject` handle of a mesh plug.
`null` is the handle for which `isNull()` holds. -/
inductive MObject where
  | null
  | mesh (numVertices numPolygons : Int) (points : List MFloatPoint)
      (polyVertCounts polyVertConnections : List Int)
  deriving DecidableEq, Repr

/-- The test `MObject::isNull`. -/
def MObject.isNull : MObject → Bool
  | .null => true
  | .mesh _ _ _ _ _ => false

/-- The struct `HdMeshUVSetData`. -/
structure HdMeshUVSetData where
  name : String
  polyUVCounts : List Int
  polyUVIds : List Int
  uData : List ℚ
  vData : List ℚ
  deriving DecidableEq, Repr

/-- The struct `HdMeshData`; a null `shared_ptr` is `none`. -/
structure HdMeshData where
  totalVertCount : Int
  totalPolyCount : Int
  polyVertCounts : List Int
  polyVertConnections : List Int
  points : List MFloatPoint
  normals : Option (List MFloatPoint)
  uvSets : List HdMeshUVSetData
  mayaObject : Option MObject
  deriving DecidableEq, Repr

/-- The class `HdMeshSet`, a vector of `HdMeshData`. -/
abbrev HdMeshSet := List HdMeshData

/-- Size of `int` and of `float` in bytes. -/
def sizeofWord : ℚ := 4

/-- The method `HdMeshUVSetData::memSize`, in kilobytes. The vector capacities
are taken to be the vector lengths. The source accumulates `result` and ends
without a return statement, so it does not fix the value of a call; the
embedding yields the accumulated value, the one the function is written to
compute. -/
def HdMeshUVSetData.memSize (u : HdMeshUVSetData) : ℚ :=
  let result : ℚ := 0
  let result := result + u.uData.length * sizeofWord
  let result := result + u.vData.length * sizeofWord
  let result := result + u.polyUVCounts.length * sizeofWord
  let result := result + u.polyUVIds.length * sizeofWord
  result / 1024

/-- The method `HdMeshData::memSize`, in kilobytes. As for the UV set, the
source ends without a return statement and the embedding yields `result`;
`HdMeshSet.memSizeOf` below leaves the value of the call open. -/
def HdMeshData.memSize (m : HdMeshData) : ℚ :=
  let result : ℚ := 0
  let result := result + m.polyVertCounts.length * sizeofWord
  let result := result + m.polyVertConnections.length * sizeofWord
  let result := result + m.points.length * sizeofWord
  let result := match m.normals with
    | some ns => result + ns.length * sizeofWord
    | none => result
  let result := m.uvSets.foldl (fun r u => r + u.memSize) result
  result * 2 / 1024

/-- The method `HdMeshSet::memSize`: the sum over the frames. -/
def HdMeshSet.memSize (s : HdMeshSet) : ℚ :=
  s.foldl (fun result m => result + m.memSize) 0

/-! ## The LRU container -/

/-- Modelled from the spec: the container `lru11::Cache<std::string, HdMeshSet>`
of `LRUCache11.hpp`, which `HdMeshCache` wraps and whose header is not among
the sources. The entries are kept most recently used first; `maxSize_ = 0`
means that no bound is configured; `elasticity_` is the second constructor
argument, the number of entries the container may exceed the bound by before
it prunes (the cache passes 0). -/
structure LruCache where
  keys_ : List (String × HdMeshSet)
  maxSize_ : Nat
  elasticity_ : Nat
  deriving DecidableEq, Repr

namespace LruCache

/-- Modelled from the spec: construction of an empty container. -/
def new (maxSize elasticity : Nat) : LruCache :=
  { keys_ := [], maxSize_ := maxSize, elasticity_ := elasticity }

/-- Modelled from the spec: number of entries. -/
def size (c : LruCache) : Nat := c.keys_.length

/-- Modelled from the spec: the configured bound. -/
def getMaxSize (c : LruCache) : Nat := c.maxSize_

/-- Modelled from the spec: membership check, recency untouched. -/
def contains (c : LruCache) (k : String) : Bool :=
  c.keys_.any (fun e => e.1 == k)

/-- Modelled from the spec: eviction of the least recently used entries down
to the bound, once the bound (plus elasticity) is reached. -/
def prune (c : LruCache) : LruCache :=
  if c.maxSize_ = 0 ∨ c.size < c.maxSize_ + c.elasticity_ then c
  else { c with keys_ := c.keys_.take c.maxSize_ }

/-- Modelled from the spec: insert or overwrite; the entry becomes the most
recently used one, and an insert that exceeds the bound evicts the least
recently used entry. -/
def insert (c : LruCache) (k : String) (v : HdMeshSet) : LruCache :=
  if c.contains k then
    { c with keys_ := (k, v) :: c.keys_.filter (fun e => !(e.1 == k)) }
  else
    prune { c with keys_ := (k, v) :: c.keys_ }

/-- Modelled from the spec: lookup that marks the entry most recently used;
`none` when the key is absent. -/
def get (c : LruCache) (k : String) : Option (HdMeshSet × LruCache) :=
  match c.keys_.find? (fun e => e.1 == k) with
  | some e => some (e.2, { c with keys_ := e :: c.keys_.filter (fun e => !(e.1 == k)) })
  | none => none

/-- Modelled from the spec: lookup returning an independent copy; values are
immutable here, so it agrees with `get`. -/
def getCopy (c : LruCache) (k : String) : Option (HdMeshSet × LruCache) := c.get k

/-- Modelled from the spec: evict all entries. -/
def clear (c : LruCache) : LruCache := { c with keys_ := [] }

/-- Modelled from the spec: reconfigure the bound; shrinking below the current
occupancy evicts least recently used entries down to the new bound. -/
def setMaxSize (c : LruCache) (n : Nat) : LruCache :=
  prune { c with maxSize_ := n }

end LruCache

/-! ## `HdMeshCache` -/

/-- Smallest value of the C++ type `int`. -/
def INT_MIN : Int := -2147483648

/-- Largest value of the C++ type `int`. -/
def INT_MAX : Int := 2147483647

/-- The conversion `(int) x` of a `double`: truncation toward zero. A value
outside the range of `int` has no defined result in C++; the embedding takes
the value the x86-64 conversion instruction produces, `INT_MIN`, and is exact
only for values inside the range. -/
def doubleToInt (x : ℚ) : Int :=
  let t := Int.tdiv x.num x.den
  if INT_MIN ≤ t ∧ t ≤ INT_MAX then t else INT_MIN

/-- The implicit conversion of an `int` argument to `size_t` (64 bit). -/
def intToSizeT (i : Int) : Nat := (i % 2 ^ 64).toNat

/-- The class `HdMeshCache` with a live container `meshCache_`. -/
structure HdMeshCache where
  meshCache_ : LruCache
  cacheId_ : String
  itemMemSize_ : ℚ
  maxMemSize_ : ℚ
  deriving DecidableEq, Repr

namespace HdMeshCache

/-- The constructor `HdMeshCache(cacheId, maxCacheSize)`, which runs
`initCache(maxCacheSize)`; the member initialisers give `itemMemSize_ = 0.0`
and `maxMemSize_ = 500 * 1024.0`. -/
def new (cacheId : String) (maxCacheSize : Nat) : HdMeshCache :=
  { meshCache_ := LruCache.new maxCacheSize 0
    cacheId_ := cacheId
    itemMemSize_ := 0
    maxMemSize_ := 500 * 1024 }

/-- The accessor `cacheId()`. -/
def cacheId (c : HdMeshCache) : String := c.cacheId_

/-- The accessor `size()`. -/
def size (c : HdMeshCache) : Nat := c.meshCache_.size

/-- The accessor `itemMemSize()`. -/
def itemMemSize (c : HdMeshCache) : ℚ := c.itemMemSize_

/-- The accessor `memSize()`. -/
def memSize (c : HdMeshCache) : ℚ := c.itemMemSize * c.meshCache_.size

/-- The accessor `maxMemSize()`. -/
def maxMemSize (c : HdMeshCache) : ℚ := c.maxMemSize_

/-- The accessor `maxSize()`. -/
def maxSize (c : HdMeshCache) : Nat := c.meshCache_.getMaxSize

/-- The method `HdMeshCache::exists`. -/
def «exists» (c : HdMeshCache) (poseId : String) : Bool :=
  c.meshCache_.contains poseId

/-- The method `HdMeshCache::setMaxSize`. -/
def setMaxSize (c : HdMeshCache) (maxSize : Nat) : HdMeshCache :=
  { c with meshCache_ := c.meshCache_.setMaxSize maxSize }

/-- The method `HdMeshCache::applyMaxMemSize`. -/
def applyMaxMemSize (c : HdMeshCache) (poseDataMemSize : ℚ) : HdMeshCache :=
  if poseDataMemSize = 0 then c
  else
    let poseCount : Int := doubleToInt (c.maxMemSize / poseDataMemSize)
    { c with meshCache_ := c.meshCache_.setMaxSize (intToSizeT poseCount) }

/-- The method `HdMeshCache::put`; it returns the status and the cache
afterwards. -/
def put (c : HdMeshCache) (poseId : String) (meshSet : HdMeshSet) : MStatus × HdMeshCache :=
  let c1 := if c.maxSize = 0 then c.applyMaxMemSize (HdMeshSet.memSize meshSet) else c
  let c2 := { c1 with itemMemSize_ := HdMeshSet.memSize meshSet }
  (MStatus.kSuccess, { c2 with meshCache_ := c2.meshCache_.insert poseId meshSet })

/-- Result of `HdMeshCache::get`: the mesh set handed back (`none` when the
function hands back no set), the value of the `status` out-parameter after the
call, and the cache afterwards. -/
structure GetResult where
  meshSet : Option HdMeshSet
  status : MStatus
  cache : HdMeshCache
  deriving DecidableEq, Repr

/-- The method `HdMeshCache::get`. `status` is the value the caller's status
variable holds on entry. When the container does not contain the pose id the
source assigns nothing to `status` and reaches the end of the function without
a return statement: the status is the caller's, and no mesh set is reported. -/
def get (c : HdMeshCache) (poseId : String) (status : MStatus) (copyData : Bool) : GetResult :=
  if c.meshCache_.contains poseId then
    if copyData then
      match c.meshCache_.getCopy poseId with
      | some (v, l) => { meshSet := some v, status := MStatus.kSuccess, cache := { c with meshCache_ := l } }
      | none => { meshSet := none, status := MStatus.kSuccess, cache := c }
    else
      match c.meshCache_.get poseId with
      | some (v, l) => { meshSet := some v, status := MStatus.kSuccess, cache := { c with meshCache_ := l } }
      | none => { meshSet := none, status := MStatus.kSuccess, cache := c }
  else
    { meshSet := none, status := status, cache := c }

/-- The method `HdMeshCache::clear`. -/
def clear (c : HdMeshCache) : MStatus × HdMeshCache :=
  (MStatus.kSuccess, { c with meshCache_ := c.meshCache_.clear })

/-- The inline method `HdMeshCache::setMaxMemSize` of the header: it assigns
the member `maxMemSize_` and does nothing else. The method is declared with
result type `double` and has no return statement; the embedding gives the
cache afterwards. -/
def setMaxMemSize (c : HdMeshCache) (maxMemSize : ℚ) : HdMeshCache :=
  { c with maxMemSize_ := maxMemSize }

/-- The method `HdMeshCache::destroyCache`, on an object that is `some c` while
its container pointer `meshCache_` is not null and `none` once the pointer is
null. The method runs `clear()`, which calls `meshCache_->clear()`, then deletes
the container and sets the pointer to null. The result is `none` where
`clear()` goes through the null pointer; otherwise it is the status, the cache
as it is when the container is deleted, and the object afterwards. -/
def destroyCache : Option HdMeshCache → Option (MStatus × HdMeshCache × Option HdMeshCache)
  | none => none
  | some c => some (MStatus.kSuccess, (c.clear).2, none)

/-- The destructor of `HdMeshCache`, which runs `destroyCache()`; `none` where
that call has no defined behaviour. -/
def destructor (object : Option HdMeshCache) : Option Unit :=
  (destroyCache object).map (fun _ => ())

end HdMeshCache

/-! ## Clients of the cache used in the statements -/

/-- A client that puts the given (pose id, mesh set) pairs in order. -/
def HdMeshCache.putAll (c : HdMeshCache) (ps : List (String × HdMeshSet)) : HdMeshCache :=
  ps.foldl (fun c p => (c.put p.1 p.2).2) c

/-- One call made by a client of a cache. -/
inductive CacheOp where
  | put (poseId : String) (meshSet : HdMeshSet)
  | get (poseId : String) (status : MStatus) (copyData : Bool)
  | «exists» (poseId : String)
  deriving DecidableEq, Repr

/-- Whether the call is a put or a get of the pose id `k`. -/
def CacheOp.touches : CacheOp → String → Bool
  | .put poseId _, k => poseId == k
  | .get poseId _ _, k => poseId == k
  | .«exists» _, _ => false

/-- The cache after one client call. -/
def HdMeshCache.step (c : HdMeshCache) : CacheOp → HdMeshCache
  | .put poseId meshSet => (c.put poseId meshSet).2
  | .get poseId status copyData => (c.get poseId status copyData).cache
  | .«exists» _ => c

/-- The cache after a sequence of client calls. -/
def HdMeshCache.run (c : HdMeshCache) (ops : List CacheOp) : HdMeshCache :=
  ops.foldl HdMeshCache.step c

/-- Position (counted from 1) of the last put or get of pose id `k` in the
call sequence `ops`; 0 when there is none. -/
def lastTouch (ops : List CacheOp) (k : String) : Nat :=
  (ops.foldl (fun (acc : Nat × Nat) op =>
    (acc.1 + 1, if op.touches k then acc.1 + 1 else acc.2)) (0, 0)).2

/-! ## Host objects seen by the evaluator -/

/-- A dependency-graph node as the evaluator observes it through the host API.
`objectHashCode` is `MObjectHandle::objectHashCode`, an `unsigned int` hash
code of the object, by which the evaluator tells nodes apart; `typeId` is `MFnDependencyNode::typeId`; `hasFnMesh` is
`hasFn(MFn::kMesh)`; `depFnOk` tells whether attaching an `MFnDependencyNode`
to the object succeeds. -/
structure MNode where
  objectHashCode : Nat
  typeId : Nat
  hasFnMesh : Bool
  depFnOk : Bool
  name : String
  deriving DecidableEq, Repr

/-- A plug found on the far side of a connection: `plug.node(&status)`. -/
structure ConnectedPlug where
  nodeOk : Bool
  node : MNode
  deriving DecidableEq, Repr

/-- An element of an array plug: whether `elementByLogicalIndex` and
`connectedTo` succeed, and the plugs connected to it as sources of the element
(`asDst`) and as destinations of the element (`asSrc`). -/
structure ElementPlug where
  elementOk : Bool
  connectedOk : Bool
  asDstPlugs : List ConnectedPlug
  asSrcPlugs : List ConnectedPlug
  deriving DecidableEq, Repr

/-- An array plug of a node. -/
structure ArrayPlug where
  isArray : Bool
  elements : List ElementPlug
  deriving DecidableEq, Repr

/-- A plugin node met by `MItDependencyNodes(MFn::kPluginDependNode)`, with the
plugs the collectors look up (`none` when `findPlug` fails). -/
structure SceneNode where
  node : MNode
  outMeshes : Option ArrayPlug
  inWhitelist : Option ArrayPlug
  deriving DecidableEq, Repr

/-- What `preEvaluate` reads from one pose node in the current pass: whether
the two output plugs are found, and the values `getValue` yields (`none` when
`getValue` fails). -/
structure PosePlugs where
  outPoseIdFound : Bool
  outFreezeRigFound : Bool
  freezeRig : Option Int
  poseId : Option String
  deriving DecidableEq, Repr

/-- The state of `MAnimControl` that the sources query. -/
structure MAnimControl where
  isPlaying : Bool
  isScrubbing : Bool
  deriving DecidableEq, Repr

/-- A cluster handed to `clusterEvaluate`: whether constructing the
`MGraphNodeIterator` over it succeeds, and its nodes in iteration order. -/
structure MCustomEvaluatorClusterNode where
  iteratorOk : Bool
  nodes : List MNode
  deriving DecidableEq, Repr

/-- The function `HdUtils::playbackActive`. -/
def HdUtils.playbackActive (anim : MAnimControl) : Bool :=
  let animPlay := anim.isPlaying
  let animScrub := anim.isScrubbing
  animPlay && !animScrub

/-- The type id `HdPoseNode::id`. -/
def HdPoseNode.id : Nat := 0x00171215

/-- The type id `HdCacheNode::id`. -/
def HdCacheNode.id : Nat := 0x00151216

/-- Insertion into a `std::set<unsigned int>`; the order of the elements is
not observed by the sources. -/
def setInsert (s : List Nat) (x : Nat) : List Nat :=
  if x ∈ s then s else x :: s

/-! ## `HdEvaluator` -/

/-- The data members of `HdEvaluator` that the methods read or write. -/
structure HdEvaluator where
  cachedPoses : List Nat
  outputMeshes : List Nat
  whitelistNodes : List Nat
  poseNodes : List MNode
  hdAvailable : Bool
  fullyCached : Bool
  evaluatorInitialized : Bool
  deriving DecidableEq, Repr

namespace HdEvaluator

/-- The evaluator as constructed: empty containers and the member
initialisers of the header. -/
def new : HdEvaluator :=
  { cachedPoses := [], outputMeshes := [], whitelistNodes := [], poseNodes := [],
    hdAvailable := false, fullyCached := false, evaluatorInitialized := false }

/-- The method `HdEvaluator::evaluatorReset`. -/
def evaluatorReset (e : HdEvaluator) : HdEvaluator :=
  { e with
    hdAvailable := false
    evaluatorInitialized := false
    poseNodes := []
    outputMeshes := []
    whitelistNodes := []
    cachedPoses := [] }

/-- The method `HdEvaluator::getNodesFromArrayPlug`: the nodes appended to
`nodes` and the status returned, which is the status of the last host call. -/
def getNodesFromArrayPlug (arrayPlug : ArrayPlug) (nodes : List MNode) (asDst asSrc : Bool) :
    MStatus × List MNode :=
  if !arrayPlug.isArray then (MStatus.kInvalidParameter, nodes)
  else
    arrayPlug.elements.foldl (fun (acc : MStatus × List MNode) elementPlug =>
      if !elementPlug.elementOk then (MStatus.kFailure, acc.2)
      else if !elementPlug.connectedOk then (MStatus.kFailure, acc.2)
      else
        let connectedPlugs :=
          (if asDst then elementPlug.asDstPlugs else []) ++
          (if asSrc then elementPlug.asSrcPlugs else [])
        connectedPlugs.foldl (fun (acc : MStatus × List MNode) plug =>
          if !plug.nodeOk then (MStatus.kFailure, acc.2)
          else (MStatus.kSuccess, acc.2 ++ [plug.node])) (MStatus.kSuccess, acc.2))
      (MStatus.kSuccess, nodes)

/-- The method `HdEvaluator::isHyperdriveNode`. -/
def isHyperdriveNode (oNode : MNode) : Bool :=
  if !oNode.depFnOk then false
  else if oNode.typeId = HdCacheNode.id ∨ oNode.typeId = HdPoseNode.id then true
  else false

/-- The method `HdEvaluator::collectHdPoseNodes` over the plugin nodes of the
scene. -/
def collectHdPoseNodes (e : HdEvaluator) (scene : List SceneNode) : HdEvaluator :=
  scene.foldl (fun e n =>
    if !n.node.depFnOk then e
    else if n.node.typeId ≠ HdPoseNode.id then e
    else { e with poseNodes := e.poseNodes ++ [n.node] }) e

/-- The hash codes of the nodes that pass the `MFnDependencyNode` check, added
to a set: the inner loop of the two collectors below. -/
def insertNodeHashes (s : List Nat) (nodes : List MNode) : List Nat :=
  nodes.foldl (fun s oNode => if !oNode.depFnOk then s else setInsert s oNode.objectHashCode) s

/-- The method `HdEvaluator::collectOutputMeshes`. -/
def collectOutputMeshes (e : HdEvaluator) (scene : List SceneNode) : HdEvaluator :=
  scene.foldl (fun e n =>
    if !n.node.depFnOk then e
    else if n.node.typeId ≠ HdCacheNode.id then e
    else match n.outMeshes with
      | none => e
      | some outMeshesPlug =>
        let r := getNodesFromArrayPlug outMeshesPlug [] false true
        if r.1 ≠ MStatus.kSuccess then e
        else { e with outputMeshes := insertNodeHashes e.outputMeshes r.2 }) e

/-- The method `HdEvaluator::collectWhitelistNodes`. -/
def collectWhitelistNodes (e : HdEvaluator) (scene : List SceneNode) : HdEvaluator :=
  scene.foldl (fun e n =>
    if !n.node.depFnOk then e
    else if n.node.typeId ≠ HdPoseNode.id then e
    else match n.inWhitelist with
      | none => e
      | some whitelistPlug =>
        let r := getNodesFromArrayPlug whitelistPlug [] true false
        if r.1 ≠ MStatus.kSuccess then e
        else { e with whitelistNodes := insertNodeHashes e.whitelistNodes r.2 }) e

/-- The method `HdEvaluator::evaluatorInit`. -/
def evaluatorInit (e : HdEvaluator) (scene : List SceneNode) : HdEvaluator :=
  let e := e.collectHdPoseNodes scene
  if e.poseNodes.length = 0 then
    { e with hdAvailable := false, evaluatorInitialized := true }
  else
    let e := { e with hdAvailable := true }
    let e := e.collectOutputMeshes scene
    let e := e.collectWhitelistNodes scene
    { e with evaluatorInitialized := true }

/-- The method `HdEvaluator::markIfSupported`: the evaluator afterwards and the
value returned. The statements after `return true` are never reached. -/
def markIfSupported (e : HdEvaluator) (scene : List SceneNode) : HdEvaluator × Bool :=
  let e := if !e.evaluatorInitialized then e.evaluatorInit scene else e
  (e, true)

/-- One turn of the loop of `preEvaluate` over a pose node: the set
`cachedPoses` afterwards. Every failed host call skips the node. -/
def preEvaluateNode (cachedPoses : List Nat) (oNode : MNode) (plugs : PosePlugs) : List Nat :=
  if !oNode.depFnOk then cachedPoses
  else if !plugs.outPoseIdFound then cachedPoses
  else if !plugs.outFreezeRigFound then cachedPoses
  else match plugs.freezeRig with
    | none => cachedPoses
    | some freezeRig =>
      match plugs.poseId with
      | none => cachedPoses
      | some _ =>
        let poseNodeHash := oNode.objectHashCode
        if freezeRig ≠ 0 then setInsert cachedPoses poseNodeHash else cachedPoses

/-- The method `HdEvaluator::preEvaluate`; `read` gives what the host returns
for the plugs of each pose node in this pass. -/
def preEvaluate (e : HdEvaluator) (anim : MAnimControl) (read : MNode → PosePlugs) :
    HdEvaluator :=
  let e := { e with cachedPoses := [], fullyCached := false }
  if !e.hdAvailable then e
  else if !HdUtils.playbackActive anim then e
  else
    let e := { e with
      cachedPoses := e.poseNodes.foldl (fun s oNode => preEvaluateNode s oNode (read oNode)) e.cachedPoses }
    if e.cachedPoses.length = e.poseNodes.length then { e with fullyCached := true } else e

/-- The method `HdEvaluator::postEvaluate`. -/
def postEvaluate (e : HdEvaluator) : HdEvaluator := e

/-- The method `HdEvaluator::clusterInitialize`. -/
def clusterInitialize (_e : HdEvaluator) (_cluster : MCustomEvaluatorClusterNode) : Bool := true

/-- The body of the loop of `clusterEvaluate` for the node under the cursor:
whether `cluster->evaluateNode` is called for it. -/
def evaluatesNode (e : HdEvaluator) (oNode : MNode) : Bool :=
  if !oNode.depFnOk then false
  else
    let nodeHash := oNode.objectHashCode
    let isWhitelisted := decide (nodeHash ∈ e.whitelistNodes)
    if isWhitelisted then true
    else if !isHyperdriveNode oNode then
      if oNode.hasFnMesh then
        let isOutputMesh := decide (nodeHash ∈ e.outputMeshes)
        if !isOutputMesh then false else true
      else false
    else true

/-- The loop of `clusterEvaluate`. The argument is the part of the cluster
from the iterator's cursor on: a new `MGraphNodeIterator` stands on the first
node, `isDone` holds when the cursor has passed the last node, and `next`
moves the cursor by one node. Each turn of the source loop calls `next` first
and then reads `currentEvaluationNode`; behind the last node that read fails
and the turn is skipped. The result lists the nodes handed to
`cluster->evaluateNode`, in order. -/
def clusterEvaluateLoop (e : HdEvaluator) : List MNode → List MNode
  | [] => []
  | _ :: rest =>
    (match rest with
      | [] => []
      | oNode :: _ => if e.evaluatesNode oNode then [oNode] else [])
    ++ clusterEvaluateLoop e rest

/-- The method `HdEvaluator::clusterEvaluate`: the nodes of the cluster that
are executed, in order. `cluster->evaluate()` executes every node. -/
def clusterEvaluate (e : HdEvaluator) (cluster : MCustomEvaluatorClusterNode) : List MNode :=
  if e.hdAvailable && e.fullyCached then
    if cluster.iteratorOk then clusterEvaluateLoop e cluster.nodes
    else cluster.nodes
  else cluster.nodes

/-- The method `HdEvaluator::clusterTerminate`. -/
def clusterTerminate (e : HdEvaluator) : HdEvaluator :=
  if e.evaluatorInitialized then e.evaluatorReset else e

end HdEvaluator

/-- A call the host scheduler makes on the evaluator. -/
inductive HostCall where
  | markIfSupported (scene : List SceneNode)
  | preEvaluate (anim : MAnimControl) (read : MNode → PosePlugs)
  | postEvaluate
  | clusterInitialize (cluster : MCustomEvaluatorClusterNode)
  | clusterEvaluate (cluster : MCustomEvaluatorClusterNode)
  | clusterTerminate
  | evaluatorReset

/-- Whether the call resets the evaluator. -/
def HostCall.isReset : HostCall → Bool
  | .clusterTerminate => true
  | .evaluatorReset => true
  | _ => false

/-- The evaluator after a host call. -/
def HdEvaluator.call (e : HdEvaluator) : HostCall → HdEvaluator
  | .markIfSupported scene => (e.markIfSupported scene).1
  | .preEvaluate anim read => e.preEvaluate anim read
  | .postEvaluate => e.postEvaluate
  | .clusterInitialize _ => e
  | .clusterEvaluate _ => e
  | .clusterTerminate => e.clusterTerminate
  | .evaluatorReset => e.evaluatorReset

/-- For a sequence of host calls, the executed nodes of each `clusterEvaluate`
call in it, in order. -/
def HdEvaluator.executions (e : HdEvaluator) : List HostCall → List (List MNode)
  | [] => []
  | HostCall.clusterEvaluate cluster :: calls =>
    e.clusterEvaluate cluster :: HdEvaluator.executions e calls
  | c :: calls => HdEvaluator.executions (e.call c) calls

/-- For a sequence of host calls, the nodes of the clusters of the
`clusterEvaluate` calls in it, in order. -/
def clustersOf : List HostCall → List (List MNode)
  | [] => []
  | HostCall.clusterEvaluate cluster :: calls => cluster.nodes :: clustersOf calls
  | _ :: calls => clustersOf calls

/-- The condition under which `preEvaluate` adds a pose node to `cachedPoses`:
every host call on the node succeeds and the rig-frozen plug reads true. -/
def readsFrozen (oNode : MNode) (plugs : PosePlugs) : Bool :=
  oNode.depFnOk && plugs.outPoseIdFound && plugs.outFreezeRigFound &&
    plugs.poseId.isSome &&
    (match plugs.freezeRig with
      | some freezeRig => decide (freezeRig ≠ 0)
      | none => false)

/-! ## `HdCacheMap` -/

/-- The static member `HdCacheMap::cacheMap`, a `std::map` from cache id to a
shared cache object, as the list of its entries in ascending key order. A
shared pointer to a registered cache is represented by its key: a change made
through the pointer is a change of the entry. -/
abbrev HdCacheMap := List (String × HdMeshCache)

namespace HdCacheMap

/-- The lookup `cacheMap.find(cacheId)`. -/
def find (m : HdCacheMap) (cacheId : String) : Option HdMeshCache :=
  (List.find? (fun e => e.1 == cacheId) m).map Prod.snd

/-- The assignment `cacheMap[cacheId] = meshCache`: replace the entry of an
existing key, or insert a new entry at its place in key order. -/
def assign : HdCacheMap → String → HdMeshCache → HdCacheMap
  | [], cacheId, meshCache => [(cacheId, meshCache)]
  | e :: m, cacheId, meshCache =>
    if e.1 = cacheId then (cacheId, meshCache) :: m
    else if cacheId < e.1 then (cacheId, meshCache) :: e :: m
    else e :: assign m cacheId meshCache

/-- The method `HdCacheMap::exists`. -/
def «exists» (m : HdCacheMap) (cacheId : String) : Bool :=
  if m.isEmpty then false
  else if (m.filter (fun e => e.1 == cacheId)).length > 0 then true
  else false

/-- The method `HdCacheMap::createCache`: the new cache, the status and the
registry afterwards. -/
def createCache (m : HdCacheMap) (cacheId : String) (maxSize : Nat) :
    HdMeshCache × MStatus × HdCacheMap :=
  let meshCache := HdMeshCache.new cacheId maxSize
  (meshCache, MStatus.kSuccess, assign m cacheId meshCache)

/-- The method `HdCacheMap::get`: the cache handed back (`none` for the null
pointer), the status and the registry afterwards. -/
def get (m : HdCacheMap) (cacheId : String) : Option HdMeshCache × MStatus × HdCacheMap :=
  if cacheId = "" then (none, MStatus.kInvalidParameter, m)
  else
    match find m cacheId with
    | some meshCache => (some meshCache, MStatus.kSuccess, m)
    | none =>
      let r := createCache m cacheId 0
      (some r.1, r.2.1, r.2.2)

/-- The call `cacheMap.erase(cacheId)`. -/
def erase (m : HdCacheMap) (cacheId : String) : HdCacheMap :=
  m.filter (fun e => !(e.1 == cacheId))

/-- The method `HdCacheMap::removeCache`: the registry afterwards, `none` where
the source has no defined behaviour. `sharedElsewhere` tells whether a shared
pointer to the cache is held outside the registry and this call; if none is,
the cache object is destroyed when the local pointer `meshCache` goes out of
scope, after the entry has been erased. A null pointer handed back by `get`
makes the call `meshCache->destroyCache()` undefined as well. The source
function is declared with result type `MStatus` and has no return statement,
so no status is given. -/
def removeCache (m : HdCacheMap) (cacheId : String) (sharedElsewhere : Bool) :
    Option HdCacheMap :=
  if HdCacheMap.«exists» m cacheId then
    let g := HdCacheMap.get m cacheId
    match HdMeshCache.destroyCache g.1 with
    | none => none
    | some r =>
      let m := erase g.2.2 cacheId
      if sharedElsewhere then some m
      else (HdMeshCache.destructor r.2.2).map (fun _ => m)
  else some m

/-- The method `HdCacheMap::clearCaches`: the registry afterwards. The source
function is declared with result type `MStatus` and has no return statement, so
no status is given. -/
def clearCaches (m : HdCacheMap) : HdCacheMap :=
  m.map (fun e => (e.1, (e.2.clear).2))

end HdCacheMap

/-! ## Clients of the registry used in the statements -/

/-- One call made by a client of the registry: a `HdCacheMap::get`, a put
through the pointer that `HdCacheMap::get` hands back for the cache id, or a
`HdCacheMap::clearCaches`. -/
inductive RegistryOp where
  | get (cacheId : String)
  | put (cacheId poseId : String) (meshSet : HdMeshSet)
  | clearCaches
  deriving DecidableEq, Repr

/-- The registry after one client call. -/
def HdCacheMap.perform (m : HdCacheMap) : RegistryOp → HdCacheMap
  | .get cacheId => (HdCacheMap.get m cacheId).2.2
  | .put cacheId poseId meshSet =>
    let g := HdCacheMap.get m cacheId
    match g.1 with
    | some meshCache => HdCacheMap.assign g.2.2 cacheId (meshCache.put poseId meshSet).2
    | none => g.2.2
  | .clearCaches => HdCacheMap.clearCaches m

/-- The registry after a sequence of client calls. -/
def HdCacheMap.performAll (m : HdCacheMap) (ops : List RegistryOp) : HdCacheMap :=
  ops.foldl HdCacheMap.perform m

/-! ## `HdPose` -/

/-- The class `HdPose`: a vector of control values with a rig tag. -/
structure HdPose where
  m_rigTag : String
  values : List ℚ
  deriving DecidableEq, Repr

/-- The constant `FLOATING_POINT_HASH_FIX_SCALE`. -/
def FLOATING_POINT_HASH_FIX_SCALE : ℚ := 4096

/-- The constant `HdUtils::HASH_SEED`. -/
def HdUtils.HASH_SEED : Nat := 0x9e3779b9

/-- The template `HdUtils::hash_combine` on a 64-bit `size_t`; `hasher` stands
for `std::hash<T>`, which belongs to the C++ library. -/
def HdUtils.hash_combine {T : Type} (hasher : T → Nat) (seed : Nat) (v : T) : Nat :=
  seed ^^^ ((hasher v + HdUtils.HASH_SEED + (seed <<< 6) % 2 ^ 64 + (seed >>> 2)) % 2 ^ 64)

/-- The specialisation `std::hash<HdPose>::operator()`; `hashString` and
`hashDouble` stand for `std::hash<std::string>` and `std::hash<double>`. -/
def HdPose.hashValue (hashString : String → Nat) (hashDouble : ℚ → Nat) (pose : HdPose) : Nat :=
  pose.values.foldl
    (fun hash_key v => HdUtils.hash_combine hashDouble hash_key (v * FLOATING_POINT_HASH_FIX_SCALE))
    (hashString pose.m_rigTag)

/-- The method `HdPose::hash`: the decimal text of the hash value. -/
def HdPose.hash (hashString : String → Nat) (hashDouble : ℚ → Nat) (pose : HdPose) : String :=
  toString (pose.hashValue hashString hashDouble)

/-- A client that hashes the given poses one after the other: the pose ids in
call order. -/
def HdPose.hashAll (hashString : String → Nat) (hashDouble : ℚ → Nat) (poses : List HdPose) :
    List String :=
  poses.map (fun pose => pose.hash hashString hashDouble)

/-! ## `HdPoseNode` -/

/-- The data block of a pose node together with the connection state of the
elements of the `outCacheIds` plug. Accesses to the attributes of the node
itself through the data block succeed; the element counts are those of the
lists. -/
structure PoseDataBlock where
  state : Int
  inRigTag : String
  inCtrlVals : List ℚ
  outPoseId : String
  outCacheIds : List String
  outFreezeRig : Bool
  outCacheIdsConnected : List Bool
  deriving DecidableEq, Repr

/-- The data members of `HdPoseNode` that `compute` reads. -/
structure HdPoseNode where
  needsEvaluation : Bool
  deriving DecidableEq, Repr

namespace HdPoseNode

/-- The method `HdPoseNode::preEvaluation`. -/
def preEvaluation (_node : HdPoseNode) (anim : MAnimControl) : MStatus × HdPoseNode :=
  (MStatus.kSuccess, { needsEvaluation := !HdUtils.playbackActive anim })

/-- The loop of `setCacheIds` from element `i` on; `uuid i` is the text of the
identifier the host generates for element `i`. -/
def setCacheIdsLoop (uuid : Nat → String) : Nat → List String → List String
  | _, [] => []
  | i, cacheId :: rest =>
    (if cacheId.length < 1 then uuid i else cacheId) :: setCacheIdsLoop uuid (i + 1) rest

/-- The method `HdPoseNode::setCacheIds`. -/
def setCacheIds (data : PoseDataBlock) (uuid : Nat → String) : MStatus × PoseDataBlock :=
  let outCacheIdsCount := data.outCacheIds.length
  if outCacheIdsCount < 1 then (MStatus.kInvalidParameter, data)
  else (MStatus.kSuccess, { data with outCacheIds := setCacheIdsLoop uuid 0 data.outCacheIds })

/-- The loop of `cachesContainPoseId` from plug index `i` on, with the count
of connected plugs met so far: the value returned and the status. A cache
pointer is dereferenced only for an id that `HdCacheMap::exists` reports; the
registry hands back a null pointer for the empty id alone, and the embedding
answers false in that case. -/
def cachesContainPoseIdLoop (m : HdCacheMap) (data : PoseDataBlock) (poseIdHash : String) :
    List Bool → Nat → Nat → Bool × MStatus
  | [], _, connectedPlugs =>
    if connectedPlugs > 0 then (true, MStatus.kSuccess)
    else (false, MStatus.kInvalidParameter)
  | isConnected :: plugs, i, connectedPlugs =>
    if isConnected then
      if i ≥ data.outCacheIds.length then (false, MStatus.kInvalidParameter)
      else
        let cacheId := data.outCacheIds.getD i ""
        if !HdCacheMap.«exists» m cacheId then (false, MStatus.kSuccess)
        else
          match (HdCacheMap.get m cacheId).1 with
          | none => (false, MStatus.kFailure)
          | some meshCache =>
            if !meshCache.«exists» poseIdHash then (false, MStatus.kSuccess)
            else cachesContainPoseIdLoop m data poseIdHash plugs (i + 1) (connectedPlugs + 1)
    else cachesContainPoseIdLoop m data poseIdHash plugs (i + 1) connectedPlugs

/-- The method `HdPoseNode::cachesContainPoseId`. -/
def cachesContainPoseId (m : HdCacheMap) (data : PoseDataBlock) (poseIdHash : String) :
    Bool × MStatus :=
  let plugCount := data.outCacheIdsConnected.length
  if plugCount < 1 then (false, MStatus.kSuccess)
  else cachesContainPoseIdLoop m data poseIdHash data.outCacheIdsConnected 0 0

/-- The method `HdPoseNode::createPose`. -/
def createPose (data : PoseDataBlock) : HdPose :=
  { m_rigTag := data.inRigTag, values := data.inCtrlVals }

/-- The method `HdPoseNode::setRigFrozen`. -/
def setRigFrozen (data : PoseDataBlock) (frozen : Bool) : MStatus × PoseDataBlock :=
  (MStatus.kSuccess, { data with outFreezeRig := frozen })

/-- The method `HdPoseNode::setPoseId`, given the text of the pose hash. -/
def setPoseId (data : PoseDataBlock) (poseHash : String) : MStatus × PoseDataBlock :=
  (MStatus.kSuccess, { data with outPoseId := poseHash })

/-- The method `HdPoseNode::compute`. `plugIsOutPoseId` tells whether the plug
asked for is `aOutPoseId`; `m` is the cache registry, which the method only
reads; `hashString` and `hashDouble` are the library hashes used by
`HdPose::hash`. -/
def compute (node : HdPoseNode) (m : HdCacheMap) (uuid : Nat → String)
    (hashString : String → Nat) (hashDouble : ℚ → Nat)
    (plugIsOutPoseId : Bool) (data : PoseDataBlock) : MStatus × PoseDataBlock :=
  if !plugIsOutPoseId then (MStatus.kUnknownParameter, data)
  else
    let r := setCacheIds data uuid
    if r.1 ≠ MStatus.kSuccess then (r.1, r.2)
    else
      let data := r.2
      if data.state = 1 then
        let data := (setRigFrozen data false).2
        (MStatus.kSuccess, { data with outPoseId := "" })
      else if node.needsEvaluation then
        setRigFrozen data false
      else
        let data := (setRigFrozen data false).2
        let pose := createPose data
        let poseHash := pose.hash hashString hashDouble
        let c := cachesContainPoseId m data poseHash
        if c.2 ≠ MStatus.kSuccess then (c.2, data)
        else
          let data := if !c.1 then (setRigFrozen data false).2 else (setRigFrozen data true).2
          let data := (setPoseId data poseHash).2
          (MStatus.kSuccess, data)

end HdPoseNode

/-! ## `HdCacheNode` -/

/-- The data block of a cache node together with the connection state of its
two id inputs. Accesses to the attributes of the node itself through the data
block succeed; the element counts are those of the lists. -/
structure CacheDataBlock where
  state : Int
  inCacheId : String
  inPoseId : String
  inMeshes : List MObject
  outMeshes : List MObject
  inCacheIdConnected : Bool
  inPoseIdConnected : Bool
  deriving DecidableEq, Repr

/-- The data members of `HdCacheNode` that the methods read or write. -/
structure HdCacheNode where
  lastPoseId : String
  currentPoseValid : Bool
  needsEvaluation : Bool
  hdDisabled : Bool
  deriving DecidableEq, Repr

namespace HdCacheNode

/-- The constructor `HdCacheNode()` with the member initialisers of the
header; `needsEvaluation` has no initialiser and is written by `preEvaluation`
before `compute` reads it. -/
def new (needsEvaluation : Bool) : HdCacheNode :=
  { lastPoseId := "", currentPoseValid := false, needsEvaluation := needsEvaluation,
    hdDisabled := false }

/-- The method `HdCacheNode::getMeshCache`. -/
def getMeshCache (m : HdCacheMap) (cacheId : String) : Option HdMeshCache × MStatus × HdCacheMap :=
  HdCacheMap.get m cacheId

/-- The method `HdCacheNode::getCacheId`: the id and the status. On its two
error paths the source returns `nullptr` as a `std::string`, which is undefined
behaviour; the result is `none` there. -/
def getCacheId (data : CacheDataBlock) : Option (String × MStatus) :=
  if !data.inCacheIdConnected then none
  else
    let cacheId := data.inCacheId
    if cacheId.length < 1 then none
    else some (cacheId, MStatus.kSuccess)

/-- The mesh that `setOutMeshData` writes for a cached frame: the cached
`MObject` when there is one and it is not null, otherwise the mesh that
`loadMeshDataFromCache` creates from the cached arrays. -/
def cachedMesh (meshData : HdMeshData) : MObject :=
  match meshData.mayaObject with
  | some obj =>
    if !obj.isNull then obj
    else MObject.mesh meshData.totalVertCount meshData.totalPolyCount meshData.points
      meshData.polyVertCounts meshData.polyVertConnections
  | none =>
    MObject.mesh meshData.totalVertCount meshData.totalPolyCount meshData.points
      meshData.polyVertCounts meshData.polyVertConnections

/-- The method `HdCacheNode::setOutMeshData`: the status, the data block and
the cache afterwards. The result is `none` where the source dereferences a
null pointer. -/
def setOutMeshData (data : CacheDataBlock) (meshCache : Option HdMeshCache) (poseId : String)
    (meshElementIndex : Nat) (noEffect : Bool) :
    Option (MStatus × CacheDataBlock × Option HdMeshCache) :=
  let outMeshCount := data.outMeshes.length
  if meshElementIndex ≥ outMeshCount then some (MStatus.kFailure, data, meshCache)
  else if noEffect then
    let inMeshCount := data.inMeshes.length
    if inMeshCount ≤ 0 ∨ meshElementIndex ≥ inMeshCount then
      some (MStatus.kNotFound, data, meshCache)
    else
      let oInMesh := data.inMeshes.getD meshElementIndex MObject.null
      some (MStatus.kSuccess,
        { data with outMeshes := data.outMeshes.set meshElementIndex oInMesh }, meshCache)
  else
    match meshCache with
    | none => none
    | some cache =>
      if !cache.«exists» poseId then some (MStatus.kNotFound, data, meshCache)
      else
        let r := cache.get poseId MStatus.kSuccess false
        if r.status ≠ MStatus.kSuccess then some (r.status, data, some r.cache)
        else
          match r.meshSet with
          | none => none
          | some meshSet =>
            if meshElementIndex ≥ meshSet.length then some (MStatus.kEndOfFile, data, some r.cache)
            else
              match meshSet[meshElementIndex]? with
              | none => none
              | some meshData =>
                some (r.status,
                  { data with outMeshes := data.outMeshes.set meshElementIndex (cachedMesh meshData) },
                  some r.cache)

/-- The loop of `setOutMeshes` over the remaining input indices. -/
def setOutMeshesLoop (poseId : String) (noEffect : Bool) :
    List Nat → MStatus → CacheDataBlock → Option HdMeshCache →
    Option (MStatus × CacheDataBlock × Option HdMeshCache)
  | [], status, data, meshCache => some (status, data, meshCache)
  | i :: rest, status, data, meshCache =>
    if i ≥ data.outMeshes.length then some (status, data, meshCache)
    else
      match setOutMeshData data meshCache poseId i noEffect with
      | none => none
      | some r => setOutMeshesLoop poseId noEffect rest r.1 r.2.1 r.2.2

/-- The method `HdCacheNode::setOutMeshes`. -/
def setOutMeshes (data : CacheDataBlock) (meshCache : Option HdMeshCache) (poseId : String)
    (noEffect : Bool) : Option (MStatus × CacheDataBlock × Option HdMeshCache) :=
  let inMeshCount := data.inMeshes.length
  if inMeshCount > 0 then
    setOutMeshesLoop poseId noEffect (List.range inMeshCount) MStatus.kSuccess data meshCache
  else some (MStatus.kSuccess, data, meshCache)

/-- The method `HdCacheNode::skipCompute`. -/
def skipCompute (data : CacheDataBlock) : Option (MStatus × CacheDataBlock) :=
  (setOutMeshes data none "" true).map (fun r => (r.1, r.2.1))

/-- The loop of `createCacheMeshData`: `none` as soon as an input mesh is
null. -/
def createCacheMeshDataLoop : List MObject → HdMeshSet → Option HdMeshSet
  | [], meshSet => some meshSet
  | MObject.null :: _, _ => none
  | MObject.mesh numVertices numPolygons points polyVertCounts polyVertConnections :: rest,
      meshSet =>
    let meshData : HdMeshData :=
      { totalVertCount := numVertices
        totalPolyCount := numPolygons
        polyVertCounts := polyVertCounts
        polyVertConnections := polyVertConnections
        points := points
        normals := none
        uvSets := []
        mayaObject := some
          (MObject.mesh numVertices numPolygons points polyVertCounts polyVertConnections) }
    createCacheMeshDataLoop rest (meshSet ++ [meshData])

/-- The method `HdCacheNode::createCacheMeshData`: `none` for the null
pointer. -/
def createCacheMeshData (data : CacheDataBlock) : Option HdMeshSet :=
  let meshesCount := data.inMeshes.length
  if meshesCount > 0 then createCacheMeshDataLoop data.inMeshes []
  else none

/-- The method `HdCacheNode::compute`: the status, the data block and the
registry afterwards; `none` where the source has no defined behaviour.
`plugIsOutMeshes` tells whether the plug asked for is `aOutMeshes`, and
`plugIsElement` whether it is an element plug. -/
def compute (node : HdCacheNode) (m : HdCacheMap) (plugIsOutMeshes plugIsElement : Bool)
    (data : CacheDataBlock) : Option (MStatus × CacheDataBlock × HdCacheMap) :=
  if node.currentPoseValid && !node.needsEvaluation then some (MStatus.kSuccess, data, m)
  else if !plugIsOutMeshes || plugIsElement then some (MStatus.kUnknownParameter, data, m)
  else
    match getCacheId data with
    | none => none
    | some (cacheId, _) =>
      let g := getMeshCache m cacheId
      let meshCache := g.1
      let status := g.2.1
      let m := g.2.2
      if data.state = 1 ∨ meshCache = none ∨ node.needsEvaluation = true ∨
          node.hdDisabled = true ∨ status ≠ MStatus.kSuccess then
        (skipCompute data).map (fun r => (r.1, r.2, m))
      else if !data.inCacheIdConnected || !data.inPoseIdConnected then
        (skipCompute data).map (fun r => (r.1, r.2, m))
      else
        let poseId := data.inPoseId
        match meshCache with
        | none => none
        | some cache =>
          if !cache.«exists» poseId then
            let meshSetPtr := createCacheMeshData data
            match setOutMeshes data (some cache) poseId true with
            | none => none
            | some r =>
              let cache := r.2.2.getD cache
              match meshSetPtr with
              | some meshSet =>
                some (MStatus.kSuccess, r.2.1,
                  HdCacheMap.assign m cacheId (cache.put poseId meshSet).2)
              | none => some (MStatus.kSuccess, r.2.1, HdCacheMap.assign m cacheId cache)
          else
            match setOutMeshes data (some cache) poseId false with
            | none => none
            | some r =>
              some (MStatus.kSuccess, r.2.1, HdCacheMap.assign m cacheId (r.2.2.getD cache))

end HdCacheNode

/-! ## Pre-evaluation of the cache node -/

/-- The method `HdCacheNode::preEvaluation`: the status returned and the node
afterwards. `contextIsNormal` is `context.isNormal()`, `dirtyPlugExists` is the
value of `evaluationNode.dirtyPlugExists(aInPoseId, &status) && status`, and
`dirtyPlug` is the string held by `evaluationNode.dirtyPlug(aInPoseId, &status)`,
`none` when that call fails. -/
def HdCacheNode.preEvaluation (node : HdCacheNode) (contextIsNormal dirtyPlugExists : Bool)
    (dirtyPlug : Option String) (anim : MAnimControl) : MStatus × HdCacheNode :=
  let node := { node with currentPoseValid := false, hdDisabled := false }
  if contextIsNormal then
    if dirtyPlugExists then
      match dirtyPlug with
      | none => (MStatus.kFailure, node)
      | some newPoseId =>
        let node := { node with
          currentPoseValid := (node.lastPoseId == newPoseId) && (newPoseId != "")
          hdDisabled := (newPoseId == "") }
        (MStatus.kSuccess, { node with needsEvaluation := !HdUtils.playbackActive anim })
    else
      let node := { node with currentPoseValid := true }
      (MStatus.kSuccess, { node with needsEvaluation := !HdUtils.playbackActive anim })
  else
    (MStatus.kSuccess, { node with needsEvaluation := !HdUtils.playbackActive anim })

/-- What the host presents to one `preEvaluation` call of a cache node. -/
structure CachePreEvaluation where
  contextIsNormal : Bool
  dirtyPlugExists : Bool
  dirtyPlug : Option String
  anim : MAnimControl
  deriving DecidableEq, Repr

/-- The cache node after a sequence of `preEvaluation` calls. -/
def HdCacheNode.preEvaluateAll (node : HdCacheNode) (passes : List CachePreEvaluation) :
    HdCacheNode :=
  passes.foldl (fun node p =>
    (node.preEvaluation p.contextIsNormal p.dirtyPlugExists p.dirtyPlug p.anim).2) node

/-! ## Statistics of the registry -/

/-- One object of the text of `HdCacheMap::getStatsJson`, without the
separator; `to_string` stands for `std::to_string(double)`, which belongs to the
C++ library, and `std::to_string(size_t)` is the decimal text. -/
def HdCacheMap.statsSubstring (to_string : ℚ → String) (meshCache : HdMeshCache) : String :=
  "\x7b\"id\": \"" ++ meshCache.cacheId ++ "\", " ++
  "\"size\": " ++ toString meshCache.size ++ ", " ++
  "\"max_size\": " ++ toString meshCache.maxSize ++ ", " ++
  "\"item_mem_size\": " ++ to_string meshCache.itemMemSize ++ ", " ++
  "\"current_mem_size\": " ++ to_string meshCache.memSize ++ ", " ++
  "\"max_mem_size\": " ++ to_string meshCache.maxMemSize ++ "\x7d"

/-- The loop of `HdCacheMap::getStatsJson` over the entries from the iterator
on; `atBegin` tells whether the iterator is `cacheMap.begin()`. -/
def HdCacheMap.getStatsJsonLoop (to_string : ℚ → String) :
    List (String × HdMeshCache) → Bool → String → String
  | [], _, result => result
  | e :: rest, atBegin, result =>
    let substring := (if !atBegin then ", " else "") ++ statsSubstring to_string e.2
    getStatsJsonLoop to_string rest false (result ++ substring)

/-- The method `HdCacheMap::getStatsJson`. -/
def HdCacheMap.getStatsJson (to_string : ℚ → String) (m : HdCacheMap) : String :=
  HdCacheMap.getStatsJsonLoop to_string m true "[" ++ "]"

/-! ## The commands `hdCache`, `hdStats` and `hdLog` -/

/-- An argument of an `MArgList` as the commands read it: what `asString`,
`asDouble` and `asInt` yield at its index, `none` when the call fails. -/
structure MArg where
  asString : Option String
  asDouble : Option ℚ
  asInt : Option Int
  deriving DecidableEq, Repr

/-- The levels of the logging library that `HdUtils::setLogLevel` sets. -/
inductive LogLevel where
  | off
  | warn
  | info
  | debug
  deriving DecidableEq, Repr

/-- The function `HdUtils::setLogLevel`: the level of the logging library
afterwards. A level outside 0 to 3 displays an error and changes nothing. -/
def HdUtils.setLogLevel (current : LogLevel) (level : Int) : LogLevel :=
  if level = 0 then LogLevel.off
  else if level = 1 then LogLevel.warn
  else if level = 2 then LogLevel.info
  else if level = 3 then LogLevel.debug
  else current

/-- The loop of `HdCmdCache::doIt` over the arguments from index `i` on: the
status returned and the cache afterwards. A `-setMaxMemSize` whose number
cannot be read (also when it is missing) is passed over. -/
def HdCmdCache.doItLoop (meshCache : HdMeshCache) : List MArg → MStatus × HdMeshCache
  | [] => (MStatus.kSuccess, meshCache)
  | a :: rest =>
    if a.asString = some "-clear" then doItLoop (meshCache.clear).2 rest
    else if a.asString = some "-setMaxMemSize" then
      match rest with
      | [] => (MStatus.kSuccess, meshCache)
      | b :: rest' =>
        match b.asDouble with
        | some size => doItLoop (meshCache.setMaxMemSize size) rest'
        | none => doItLoop meshCache rest'
    else (MStatus.kFailure, meshCache)

/-- The method `HdCmdCache::doIt`: the status returned and the registry
afterwards. The cache is reached through the shared pointer that the registry
hands back, so what the loop does to it is done to the registered cache. -/
def HdCmdCache.doIt (m : HdCacheMap) (args : List MArg) : MStatus × HdCacheMap :=
  if args.length < 2 then (MStatus.kFailure, m)
  else
    match args with
    | [] => (MStatus.kFailure, m)
    | a :: rest =>
      match a.asString with
      | none => (MStatus.kFailure, m)
      | some cacheId =>
        if !HdCacheMap.«exists» m cacheId then (MStatus.kFailure, m)
        else
          let g := HdCacheMap.get m cacheId
          if g.2.1 ≠ MStatus.kSuccess then (g.2.1, g.2.2)
          else
            match g.1 with
            | none => (g.2.1, g.2.2)
            | some meshCache =>
              let r := HdCmdCache.doItLoop meshCache rest
              (r.1, HdCacheMap.assign g.2.2 cacheId r.2)

/-- The loop of `HdCmdStats::doIt`: the status returned and the result set by
the command, if any. -/
def HdCmdStats.doItLoop (to_string : ℚ → String) (m : HdCacheMap) :
    List MArg → Option String → MStatus × Option String
  | [], result => (MStatus.kSuccess, result)
  | a :: rest, result =>
    if a.asString = some "-json" then
      doItLoop to_string m rest (some (HdCacheMap.getStatsJson to_string m))
    else (MStatus.kFailure, result)

/-- The method `HdCmdStats::doIt`. -/
def HdCmdStats.doIt (to_string : ℚ → String) (m : HdCacheMap) (args : List MArg) :
    MStatus × Option String :=
  HdCmdStats.doItLoop to_string m args none

/-- The method `HdCmdLog::doIt`: the status returned and the log level
afterwards. -/
def HdCmdLog.doIt (current : LogLevel) (args : List MArg) : MStatus × LogLevel :=
  match args with
  | [a, b] =>
    if a.asString = some "-verbosity" then
      match b.asInt with
      | none => (MStatus.kFailure, current)
      | some level => (MStatus.kSuccess, HdUtils.setLogLevel current level)
    else (MStatus.kSuccess, current)
  | _ => (MStatus.kSuccess, current)

/-! ## Further clients used in the statements -/

/-- One call made by a client of a cache, `clear` included. -/
inductive MeshCacheOp where
  | put (poseId : String) (meshSet : HdMeshSet)
  | get (poseId : String) (status : MStatus) (copyData : Bool)
  | «exists» (poseId : String)
  | clear
  deriving DecidableEq, Repr

/-- The cache after one such call. -/
def HdMeshCache.apply (c : HdMeshCache) : MeshCacheOp → HdMeshCache
  | .put poseId meshSet => (c.put poseId meshSet).2
  | .get poseId status copyData => (c.get poseId status copyData).cache
  | .«exists» _ => c
  | .clear => (c.clear).2

/-- The cache after a sequence of such calls. -/
def HdMeshCache.applyAll (c : HdMeshCache) (ops : List MeshCacheOp) : HdMeshCache :=
  ops.foldl HdMeshCache.apply c

/-- The evaluator after a sequence of host calls. -/
def HdEvaluator.callAll (e : HdEvaluator) (calls : List HostCall) : HdEvaluator :=
  calls.foldl HdEvaluator.call e

/-- Whether the call is a `markIfSupported`. -/
def HostCall.isMark : HostCall → Bool
  | .markIfSupported _ => true
  | _ => false

/-- Whether the call is a `preEvaluate`. -/
def HostCall.isPreEvaluate : HostCall → Bool
  | .preEvaluate _ _ => true
  | _ => false

/-! ## `std::hash` of the GNU C++ library

The sources call `std::hash<std::string>` and `std::hash<double>`, which belong
to the C++ library and not to the repository. The general statements keep them
as the parameters `hashString` and `hashDouble`. The concrete statements use
the functions below: the implementation of the GNU C++ library (libstdc++) for
a 64-bit `size_t`, where both hashes run the function `_Hash_bytes` (a Murmur
hash) over the bytes of the value with the seed `0xc70f6907`. -/

/-- Number of binary digits of `n`, for `fuel` at least that number. -/
def bitLength : Nat → Nat → Nat
  | 0, _ => 0
  | fuel + 1, n => if n = 0 then 0 else bitLength fuel (n / 2) + 1

/-- The object representation of a `double` as a 64-bit number (IEEE 754
binary64: sign, 11 bits of exponent, 52 bits of fraction). For a rational that
is a `double` this is its bit pattern; any other rational is cut to the 53
leading binary digits. -/
def doubleBits (x : ℚ) : Nat :=
  if x.num = 0 then 0
  else
    let n := x.num.natAbs
    let d := x.den
    let sign := if x.num < 0 then 2 ^ 63 else 0
    let e0 : Int := (bitLength n n : Int) - (bitLength d d : Int)
    let e : Int := if d * 2 ^ e0.toNat ≤ n * 2 ^ (-e0).toNat then e0 else e0 - 1
    if e + 1023 ≥ 2047 then sign + 2047 * 2 ^ 52
    else if e + 1023 ≤ 0 then sign + n * 2 ^ 1074 / d
    else
      let m := n * 2 ^ (52 - e).toNat / (d * 2 ^ (e - 52).toNat)
      sign + (e + 1023).toNat * 2 ^ 52 + (m - 2 ^ 52)

/-- The helper `shift_mix` of `_Hash_bytes`. -/
def shift_mix (v : Nat) : Nat := v ^^^ (v >>> 47)

/-- The constant `mul` of `_Hash_bytes`. -/
def hashBytesMul : Nat := 0xc6a4a793 <<< 32 + 0x5bd1e995

/-- The number that the given bytes form, lowest byte first (`unaligned_load`
and `load_bytes` of `_Hash_bytes` on a little-endian machine). -/
def loadBytes (bytes : List Nat) : Nat := bytes.foldr (fun b acc => b + 256 * acc) 0

/-- The function `std::_Hash_bytes(ptr, len, seed)` of the GNU C++ library for
a 64-bit `size_t`, on the `len` bytes at `ptr`. -/
def hashBytes (bytes : List Nat) (seed : Nat) : Nat :=
  let len := bytes.length
  let len_aligned := len / 8 * 8
  let hash := seed ^^^ (len * hashBytesMul % 2 ^ 64)
  let hash := (List.range (len / 8)).foldl (fun hash p =>
    let data := (shift_mix (loadBytes ((bytes.drop (8 * p)).take 8) * hashBytesMul % 2 ^ 64)
      * hashBytesMul) % 2 ^ 64
    (hash ^^^ data) * hashBytesMul % 2 ^ 64) hash
  let hash :=
    if len % 8 ≠ 0 then (hash ^^^ loadBytes (bytes.drop len_aligned)) * hashBytesMul % 2 ^ 64
    else hash
  let hash := shift_mix hash * hashBytesMul % 2 ^ 64
  shift_mix hash

/-- The seed that `std::hash` of the GNU C++ library passes to `_Hash_bytes`. -/
def gnuHashSeed : Nat := 0xc70f6907

/-- The function `std::hash<double>` of the GNU C++ library: zero for the value
zero, else `_Hash_bytes` over the eight bytes of the value. -/
def gnuHashDouble (x : ℚ) : Nat :=
  if x.num = 0 then 0
  else hashBytes ((List.range 8).map (fun i => doubleBits x >>> (8 * i) % 256)) gnuHashSeed

/-- The function `std::hash<std::string>` of the GNU C++ library: `_Hash_bytes`
over the bytes of the text. -/
def gnuHashString (s : String) : Nat :=
  hashBytes ((s.data.flatMap String.utf8EncodeChar).map UInt8.toNat) gnuHashSeed

/-! ## The size of a mesh set as the calls yield it -/

/-- The method `HdMeshSet::memSize` when the call `it->memSize()` on a frame
yields `frameSize` of the frame. `HdMeshData::memSize` ends without a return
statement, so the source does not fix the value of that call;
`HdMeshSet.memSize` is the case in which the call yields the accumulated
`result`. -/
def HdMeshSet.memSizeOf (frameSize : HdMeshData → ℚ) (s : HdMeshSet) : ℚ :=
  s.foldl (fun result m => result + frameSize m) 0

/-- The method `HdMeshCache::put` when the call `it->memSize()` on a frame
yields `frameSize` of the frame. -/
def HdMeshCache.putOf (frameSize : HdMeshData → ℚ) (c : HdMeshCache) (poseId : String)
    (meshSet : HdMeshSet) : MStatus × HdMeshCache :=
  let c1 :=
    if c.maxSize = 0 then c.applyMaxMemSize (HdMeshSet.memSizeOf frameSize meshSet) else c
  let c2 := { c1 with itemMemSize_ := HdMeshSet.memSizeOf frameSize meshSet }
  (MStatus.kSuccess, { c2 with meshCache_ := c2.meshCache_.insert poseId meshSet })

/-! ## Auxiliary notions used in the statements -/

/-- The cache after a get that found the entry `e` under `poseId`. -/
def HdMeshCache.touched (c : HdMeshCache) (e : String × HdMeshSet) (poseId : String) :
    HdMeshCache :=
  { c with meshCache_ := { c.meshCache_ with
      keys_ := e :: c.meshCache_.keys_.filter (fun x => !(x.1 == poseId)) } }

/-- Recency invariant: distinct keys, listed from the most recently touched. -/
def RecencyOrdered (ops : List CacheOp) (L : List (String × HdMeshSet)) : Prop :=
  (L.map Prod.fst).Nodup ∧ L.Pairwise (fun e e' => lastTouch ops e'.1 < lastTouch ops e.1)

/-- Value of a string of decimal digits read from the left, starting from `v`. -/
def decimalValue (v : Nat) (cs : List Char) : Nat :=
  cs.foldl (fun v c => v * 10 + (c.toNat - 48)) v

/-- Invariant of the container: no elasticity, and at most as many entries as
the bound when there is a bound. -/
def LruCache.Bounded (c : LruCache) : Prop :=
  c.elasticity_ = 0 ∧ (c.maxSize_ ≠ 0 → c.keys_.length ≤ c.maxSize_)

/-- The set of cached poses after the loop of `preEvaluate`. -/
def cachedAfter (read : MNode → PosePlugs) (s : List Nat) (nodes : List MNode) : List Nat :=
  nodes.foldl (fun s oNode => HdEvaluator.preEvaluateNode s oNode (read oNode)) s

/-! ## Example objects used in the concrete statements -/

def exWhitelisted : MNode :=
  { objectHashCode := 11, typeId := 100, hasFnMesh := false, depFnOk := true, name := "ctrl" }
def exOutputMesh : MNode :=
  { objectHashCode := 12, typeId := 101, hasFnMesh := true, depFnOk := true, name := "bodyShape" }
def exIntermediate : MNode :=
  { objectHashCode := 13, typeId := 102, hasFnMesh := false, depFnOk := true, name := "skinCluster" }
def exPoseA : MNode :=
  { objectHashCode := 1, typeId := HdPoseNode.id, hasFnMesh := false, depFnOk := true, name := "poseA" }
def exPoseB : MNode :=
  { objectHashCode := 2, typeId := HdPoseNode.id, hasFnMesh := false, depFnOk := true, name := "poseB" }
def exCache : MNode :=
  { objectHashCode := 3, typeId := HdCacheNode.id, hasFnMesh := false, depFnOk := true, name := "cache" }

def exScene : List SceneNode :=
  [ { node := exPoseA, outMeshes := none,
      inWhitelist := some { isArray := true, elements :=
        [{ elementOk := true, connectedOk := true,
           asDstPlugs := [{ nodeOk := true, node := exWhitelisted }], asSrcPlugs := [] }] } },
    { node := exPoseB, outMeshes := none,
      inWhitelist := some { isArray := true, elements := [] } },
    { node := exCache, inWhitelist := none,
      outMeshes := some { isArray := true, elements :=
        [{ elementOk := true, connectedOk := true, asDstPlugs := [],
           asSrcPlugs := [{ nodeOk := true, node := exOutputMesh }] }] } } ]

def exPlayback : MAnimControl := { isPlaying := true, isScrubbing := false }

def exFrozen : PosePlugs :=
  { outPoseIdFound := true, outFreezeRigFound := true, freezeRig := some 1, poseId := some "42" }
def exUnfrozen : PosePlugs :=
  { outPoseIdFound := true, outFreezeRigFound := true, freezeRig := some 0, poseId := some "43" }

def exCluster : MCustomEvaluatorClusterNode :=
  { iteratorOk := true, nodes := [exWhitelisted, exOutputMesh, exIntermediate] }


/-- An input mesh: one triangle. -/
def exTriangle : MObject :=
  MObject.mesh 3 1 [⟨0, 0, 0, 1⟩, ⟨1, 0, 0, 1⟩, ⟨0, 1, 0, 1⟩] [3] [0, 1, 2]

/-- The frame that `createCacheMeshData` builds from `exTriangle`. -/
def exTriangleFrame : HdMeshData :=
  { totalVertCount := 3, totalPolyCount := 1, polyVertCounts := [3],
    polyVertConnections := [0, 1, 2], points := [⟨0, 0, 0, 1⟩, ⟨1, 0, 0, 1⟩, ⟨0, 1, 0, 1⟩],
    normals := none, uvSets := [], mayaObject := some exTriangle }

/-- A mesh set without frames. -/
def exEmptySet : HdMeshSet := []

/-- A mesh set with no geometry and one UV set that holds a single count. -/
def tinyMeshSet : HdMeshSet :=
  [{ totalVertCount := 0, totalPolyCount := 0, polyVertCounts := [], polyVertConnections := [],
     points := [], normals := none,
     uvSets := [{ name := "map1", polyUVCounts := [0], polyUVIds := [], uData := [], vData := [] }],
     mayaObject := none }]

/-- The data block of a connected, enabled cache node with the given meshes. -/
def exCacheData (inMeshes outMeshes : List MObject) : CacheDataBlock :=
  { state := 0, inCacheId := "rig", inPoseId := "17", inMeshes := inMeshes,
    outMeshes := outMeshes, inCacheIdConnected := true, inPoseIdConnected := true }

/-- A registry whose cache `rig` holds the pose id `17`. -/
def exRegistry : HdCacheMap :=
  [("rig", ((HdMeshCache.new "rig" 0).put "17" [exTriangleFrame]).2)]

/-- Stand-in for `std::hash<std::string>` in the concrete statements. -/
def exHashString : String → Nat := fun s => s.length

/-- Stand-in for `std::hash<double>` in the concrete statements. -/
def exHashDouble : ℚ → Nat := fun q => q.num.natAbs

/-- Stand-in for the identifiers the host generates. -/
def exUuid : Nat → String := fun i => "uuid-" ++ toString i

/-- A pose node during playback. -/
def exPoseNode : HdPoseNode := { needsEvaluation := false }

/-- The data block of an enabled pose node with one connected cache id. -/
def exPoseData : PoseDataBlock :=
  { state := 0, inRigTag := "rig", inCtrlVals := [1 / 2], outPoseId := "",
    outCacheIds := ["rig"], outFreezeRig := false, outCacheIdsConnected := [true] }

/-- The pose id of `exPoseData`. -/
def exPoseId : String := (HdPoseNode.createPose exPoseData).hash exHashString exHashDouble

/-- A registry whose cache `rig` holds the pose id of `exPoseData`. -/
def exPoseRegistry : HdCacheMap :=
  [("rig", ((HdMeshCache.new "rig" 0).put exPoseId [exTriangleFrame]).2)]

/-- A cache node in playback whose pose id has changed. -/
def exCacheNode : HdCacheNode := HdCacheNode.new false

/-- Stand-in for `std::to_string(double)` in the concrete statements: the
numerator and denominator of the value. -/
def exToString : ℚ → String := fun q => toString q.num ++ "/" ++ toString q.den

/-- An argument of a command that is the given text and cannot be read as a
number. -/
def exArg (s : String) : MArg := { asString := some s, asDouble := none, asInt := none }

/-- A pose node that is another object than `exPoseA` and has the same object
hash code. -/
def exPoseTwin : MNode :=
  { objectHashCode := 1, typeId := HdPoseNode.id, hasFnMesh := false, depFnOk := true,
    name := "poseTwin" }

/-- A scene with the two pose nodes `exPoseA` and `exPoseTwin`. -/
def exTwinScene : List SceneNode :=
  [ { node := exPoseA, outMeshes := none, inWhitelist := none },
    { node := exPoseTwin, outMeshes := none, inWhitelist := none } ]

/-- The data block of an enabled pose node without cache-id elements whose
rig-frozen output holds true. -/
def exStalePoseData : PoseDataBlock :=
  { state := 0, inRigTag := "rig", inCtrlVals := [1 / 2], outPoseId := "",
    outCacheIds := [], outFreezeRig := true, outCacheIdsConnected := [] }

/-! ## Properties of the LRU container and of `HdMeshCache` -/

theorem LruCache.insert_keys (c : LruCache) (k : String) (v : HdMeshSet) :
    ∃ rest, (c.insert k v).keys_ = (k, v) :: rest := by
  unfold LruCache.insert
  split
  · exact ⟨_, rfl⟩
  · unfold LruCache.prune
    split
    · exact ⟨_, rfl⟩
    · rename_i h
      have hm : c.maxSize_ ≠ 0 := fun h0 => h (Or.inl h0)
      obtain ⟨m, hm⟩ := Nat.exists_eq_succ_of_ne_zero hm
      refine ⟨c.keys_.take m, ?_⟩
      simp [hm]

theorem LruCache.contains_of_head (c : LruCache) (k : String) (v : HdMeshSet) (rest)
    (h : c.keys_ = (k, v) :: rest) : c.contains k = true := by
  simp [LruCache.contains, h]

theorem LruCache.get_of_head (c : LruCache) (k : String) (v : HdMeshSet) (rest)
    (h : c.keys_ = (k, v) :: rest) : ∃ l, c.get k = some (v, l) := by
  simp [LruCache.get, h]

theorem HdMeshCache.put_keys_head (c : HdMeshCache) (k : String) (v : HdMeshSet) :
    ∃ rest, (c.put k v).2.meshCache_.keys_ = (k, v) :: rest := by
  simp only [HdMeshCache.put]
  exact LruCache.insert_keys _ k v

/-- C1: for every cache, pose id and mesh set `S`, `put(poseId, S)` returns
success, and a `get(poseId)` that follows it at once, with `copyData` true or
false and whatever status the caller held, returns success and a mesh set
equal to `S`. -/
theorem put_get_round_trip (c : HdMeshCache) (poseId : String) (S : HdMeshSet)
    (status : MStatus) (copyData : Bool) :
    (c.put poseId S).1 = MStatus.kSuccess ∧
    ((c.put poseId S).2.get poseId status copyData).status = MStatus.kSuccess ∧
    ((c.put poseId S).2.get poseId status copyData).meshSet = some S := by
  obtain ⟨rest, h⟩ := HdMeshCache.put_keys_head c poseId S
  have hc := LruCache.contains_of_head _ _ _ _ h
  obtain ⟨l, hg⟩ := LruCache.get_of_head _ _ _ _ h
  refine ⟨rfl, ?_, ?_⟩ <;> cases copyData <;> simp [HdMeshCache.get, hc, hg, LruCache.getCopy]

theorem LruCache.prune_maxSize (c : LruCache) : c.prune.maxSize_ = c.maxSize_ := by
  unfold LruCache.prune; split <;> rfl

theorem LruCache.prune_elasticity (c : LruCache) : c.prune.elasticity_ = c.elasticity_ := by
  unfold LruCache.prune; split <;> rfl

theorem LruCache.prune_keys_of_bounded (c : LruCache) (hmax : c.maxSize_ ≠ 0)
    (hel : c.elasticity_ = 0) : c.prune.keys_ = c.keys_.take c.maxSize_ := by
  unfold LruCache.prune
  split
  · rename_i h
    rcases h with h | h
    · exact absurd h hmax
    · simp only [LruCache.size, hel] at h
      exact (List.take_of_length_le (by omega)).symm
  · rfl

theorem LruCache.contains_eq_false_iff (c : LruCache) (k : String) :
    c.contains k = false ↔ k ∉ c.keys_.map Prod.fst := by
  simp only [LruCache.contains, List.any_eq_false, beq_iff_eq, List.mem_map, not_exists, not_and]

theorem LruCache.insert_of_not_contains (c : LruCache) (k : String) (v : HdMeshSet)
    (hk : c.contains k = false) :
    c.insert k v = LruCache.prune { c with keys_ := (k, v) :: c.keys_ } := by
  simp [LruCache.insert, hk]

theorem HdMeshCache.put_of_maxSize_ne_zero (c : HdMeshCache) (k : String) (v : HdMeshSet)
    (hmax : c.meshCache_.maxSize_ ≠ 0) :
    (c.put k v).2.meshCache_ = c.meshCache_.insert k v := by
  simp [HdMeshCache.put, HdMeshCache.maxSize, LruCache.getMaxSize, hmax]

theorem HdMeshCache.put_keys_of_bounded (c : HdMeshCache) (k : String) (v : HdMeshSet)
    (hmax : c.meshCache_.maxSize_ ≠ 0) (hel : c.meshCache_.elasticity_ = 0)
    (hk : c.meshCache_.contains k = false) :
    (c.put k v).2.meshCache_.keys_ = ((k, v) :: c.meshCache_.keys_).take c.meshCache_.maxSize_ ∧
    (c.put k v).2.meshCache_.maxSize_ = c.meshCache_.maxSize_ ∧
    (c.put k v).2.meshCache_.elasticity_ = 0 := by
  rw [HdMeshCache.put_of_maxSize_ne_zero c k v hmax, LruCache.insert_of_not_contains _ _ _ hk]
  refine ⟨?_, ?_, ?_⟩
  · exact LruCache.prune_keys_of_bounded { c.meshCache_ with keys_ := (k, v) :: c.meshCache_.keys_ } hmax hel
  · exact LruCache.prune_maxSize _
  · exact (LruCache.prune_elasticity _).trans hel

theorem take_append_take {α : Type} (m : Nat) (A B : List α) :
    (A ++ B.take m).take m = (A ++ B).take m := by
  rw [List.take_append_eq_append_take, List.take_append_eq_append_take, List.take_take]
  congr 1
  rw [Nat.min_eq_left (Nat.sub_le _ _)]

theorem HdMeshCache.putAll_keys (ps : List (String × HdMeshSet)) :
    ∀ (c : HdMeshCache), c.meshCache_.maxSize_ ≠ 0 → c.meshCache_.elasticity_ = 0 →
      (ps.map Prod.fst).Nodup → (∀ p ∈ ps, p.1 ∉ c.meshCache_.keys_.map Prod.fst) →
      c.meshCache_.keys_.length ≤ c.meshCache_.maxSize_ →
      (c.putAll ps).meshCache_.keys_ = (ps.reverse ++ c.meshCache_.keys_).take c.meshCache_.maxSize_ := by
  induction ps with
  | nil =>
    intro c _ _ _ _ hlen
    simp [HdMeshCache.putAll, List.take_of_length_le hlen]
  | cons p ps ih =>
    intro c hmax hel hnd hnew hlen
    have hk : c.meshCache_.contains p.1 = false :=
      (LruCache.contains_eq_false_iff _ _).2 (hnew p (List.mem_cons_self _ _))
    obtain ⟨h1, h2, h3⟩ := HdMeshCache.put_keys_of_bounded c p.1 p.2 hmax hel hk
    rw [List.map_cons, List.nodup_cons] at hnd
    have step : c.putAll (p :: ps) = (c.put p.1 p.2).2.putAll ps := rfl
    rw [step, ih (c.put p.1 p.2).2 (by rw [h2]; exact hmax) h3 hnd.2 ?_ ?_, h1, h2]
    · rw [take_append_take, List.reverse_cons, List.append_assoc, List.singleton_append]
    · intro q hq hmem
      rw [h1, List.mem_map] at hmem
      obtain ⟨e, he, heq⟩ := hmem
      rcases List.mem_cons.1 (List.mem_of_mem_take he) with h | h
      · apply hnd.1
        have hpq : p.1 = q.1 := by rw [← heq, h]
        rw [hpq]
        exact List.mem_map_of_mem _ hq
      · exact hnew q (List.mem_cons_of_mem _ hq) (heq ▸ List.mem_map_of_mem _ h)
    · rw [h1, h2]; exact List.length_take_le _ _

theorem LruCache.get_of_nodup (c : LruCache) (k : String) (v : HdMeshSet)
    (hnd : (c.keys_.map Prod.fst).Nodup) (hmem : (k, v) ∈ c.keys_) :
    ∃ l, c.get k = some (v, l) := by
  have : c.keys_.find? (fun e => e.1 == k) = some (k, v) := by
    generalize c.keys_ = L at hnd hmem
    induction L with
    | nil => simp at hmem
    | cons e L ih =>
      rw [List.map_cons, List.nodup_cons] at hnd
      rcases List.mem_cons.1 hmem with h | h
      · subst h; simp
      · have hne : e.1 ≠ k := by
          intro h'
          apply hnd.1
          rw [h']
          exact List.mem_map_of_mem Prod.fst h
        rw [List.find?_cons_of_neg _ (by simpa using hne)]
        exact ih hnd.2 h
  simp [LruCache.get, this]

theorem HdMeshCache.get_of_mem (c : HdMeshCache) (k : String) (v : HdMeshSet) (status : MStatus)
    (copyData : Bool) (hnd : (c.meshCache_.keys_.map Prod.fst).Nodup)
    (hmem : (k, v) ∈ c.meshCache_.keys_) :
    (c.get k status copyData).status = MStatus.kSuccess ∧
    (c.get k status copyData).meshSet = some v := by
  obtain ⟨l, hl⟩ := LruCache.get_of_nodup _ k v hnd hmem
  have hc : c.meshCache_.contains k = true := by
    simp only [LruCache.contains, List.any_eq_true]
    exact ⟨(k, v), hmem, by simp⟩
  cases copyData <;> simp [HdMeshCache.get, hc, hl, LruCache.getCopy]

/-- C2: for every capacity `n > 0` and every `n + 1` pairwise distinct pose ids
put in order into a cache created with capacity `n`, with no get in between,
the first id is absent afterwards and each of the other `n` ids is present and
a get of it returns success and the mesh set that was put. -/
theorem lru_eviction_of_first_put (n : Nat) (hn : 0 < n) (cacheId : String)
    (first : String × HdMeshSet) (others : List (String × HdMeshSet))
    (hlen : others.length = n) (hnd : ((first :: others).map Prod.fst).Nodup)
    (status : MStatus) (copyData : Bool) :
    ((HdMeshCache.new cacheId n).putAll (first :: others)).«exists» first.1 = false ∧
    ∀ p ∈ others,
      ((HdMeshCache.new cacheId n).putAll (first :: others)).«exists» p.1 = true ∧
      (((HdMeshCache.new cacheId n).putAll (first :: others)).get p.1 status copyData).status
        = MStatus.kSuccess ∧
      (((HdMeshCache.new cacheId n).putAll (first :: others)).get p.1 status copyData).meshSet
        = some p.2 := by
  have hkeys : ((HdMeshCache.new cacheId n).putAll (first :: others)).meshCache_.keys_
      = others.reverse := by
    rw [HdMeshCache.putAll_keys (first :: others) (HdMeshCache.new cacheId n)
      (by simp [HdMeshCache.new, LruCache.new]; omega) rfl hnd (by simp [HdMeshCache.new, LruCache.new])
      (by simp [HdMeshCache.new, LruCache.new])]
    simp only [HdMeshCache.new, LruCache.new, List.append_nil, List.reverse_cons]
    rw [List.take_append_of_le_length (by simp [hlen]), List.take_of_length_le (by simp [hlen])]
  rw [List.map_cons, List.nodup_cons] at hnd
  constructor
  · simp only [HdMeshCache.«exists»]
    rw [LruCache.contains_eq_false_iff, hkeys, List.map_reverse, List.mem_reverse]
    exact hnd.1
  · intro p hp
    have hmem : (p.1, p.2) ∈ ((HdMeshCache.new cacheId n).putAll (first :: others)).meshCache_.keys_ := by
      rw [hkeys]; simpa using hp
    have hnd' : (((HdMeshCache.new cacheId n).putAll (first :: others)).meshCache_.keys_.map Prod.fst).Nodup := by
      rw [hkeys, List.map_reverse, List.nodup_reverse]; exact hnd.2
    refine ⟨?_, HdMeshCache.get_of_mem _ p.1 p.2 status copyData hnd' hmem⟩
    simp only [HdMeshCache.«exists», LruCache.contains, List.any_eq_true]
    exact ⟨(p.1, p.2), hmem, by simp⟩

theorem lastTouch_fold_fst (k : String) (ops : List CacheOp) (acc : Nat × Nat) :
    (ops.foldl (fun (acc : Nat × Nat) op =>
      (acc.1 + 1, if op.touches k then acc.1 + 1 else acc.2)) acc).1 = acc.1 + ops.length := by
  induction ops generalizing acc with
  | nil => rfl
  | cons op ops ih => rw [List.foldl_cons, ih]; simp only [List.length_cons]; omega

theorem lastTouch_snoc (ops : List CacheOp) (op : CacheOp) (k : String) :
    lastTouch (ops ++ [op]) k = if op.touches k then ops.length + 1 else lastTouch ops k := by
  unfold lastTouch
  rw [List.foldl_append, List.foldl_cons, List.foldl_nil, lastTouch_fold_fst]
  simp

theorem lastTouch_le (ops : List CacheOp) (k : String) : lastTouch ops k ≤ ops.length := by
  induction ops using List.reverseRecOn with
  | nil => simp [lastTouch]
  | append_singleton ops op ih =>
    rw [lastTouch_snoc]
    split
    · simp
    · simp only [List.length_append, List.length_singleton]; omega

theorem LruCache.prune_keys_take (c : LruCache) : ∃ j, c.prune.keys_ = c.keys_.take j := by
  unfold LruCache.prune
  split
  · exact ⟨c.keys_.length, (List.take_length _).symm⟩
  · exact ⟨c.maxSize_, rfl⟩

theorem filter_ne_of_not_mem (L : List (String × HdMeshSet)) (k : String)
    (h : k ∉ L.map Prod.fst) : L.filter (fun e => !(e.1 == k)) = L := by
  rw [List.filter_eq_self]
  intro e he
  simp only [Bool.not_eq_true', beq_eq_false_iff_ne, ne_eq]
  intro hk
  exact h (hk ▸ List.mem_map_of_mem Prod.fst he)

theorem LruCache.insert_keys_shape (c : LruCache) (k : String) (v : HdMeshSet) :
    ∃ j, (c.insert k v).keys_ = (k, v) :: (c.keys_.take j).filter (fun e => !(e.1 == k)) := by
  by_cases hk : c.contains k = true
  · refine ⟨c.keys_.length, ?_⟩
    simp [LruCache.insert, hk]
  · have hk' : c.contains k = false := by simpa using hk
    have hnot := (LruCache.contains_eq_false_iff c k).1 hk'
    rw [LruCache.insert_of_not_contains c k v hk']
    have hsub : ∀ j, (c.keys_.take j).filter (fun e => !(e.1 == k)) = c.keys_.take j := by
      intro j
      apply filter_ne_of_not_mem
      intro hmem
      obtain ⟨e, he, heq⟩ := List.mem_map.1 hmem
      exact hnot (heq ▸ List.mem_map_of_mem Prod.fst (List.mem_of_mem_take he))
    unfold LruCache.prune
    split
    · refine ⟨c.keys_.length, ?_⟩
      rw [hsub, List.take_length]
    · rename_i h
      have hm : c.maxSize_ ≠ 0 := fun h0 => h (Or.inl h0)
      obtain ⟨m, hm⟩ := Nat.exists_eq_succ_of_ne_zero hm
      refine ⟨m, ?_⟩
      rw [hsub]
      simp [hm]

theorem HdMeshCache.applyMaxMemSize_keys (c : HdMeshCache) (x : ℚ) :
    ∃ j, (c.applyMaxMemSize x).meshCache_.keys_ = c.meshCache_.keys_.take j := by
  unfold HdMeshCache.applyMaxMemSize
  split
  · exact ⟨c.meshCache_.keys_.length, (List.take_length _).symm⟩
  · exact LruCache.prune_keys_take _

theorem HdMeshCache.put_keys_shape (c : HdMeshCache) (k : String) (v : HdMeshSet) :
    ∃ j, (c.put k v).2.meshCache_.keys_
      = (k, v) :: (c.meshCache_.keys_.take j).filter (fun e => !(e.1 == k)) := by
  simp only [HdMeshCache.put]
  split
  · obtain ⟨j1, h1⟩ := HdMeshCache.applyMaxMemSize_keys c (HdMeshSet.memSize v)
    obtain ⟨j2, h2⟩ := LruCache.insert_keys_shape (c.applyMaxMemSize (HdMeshSet.memSize v)).meshCache_ k v
    refine ⟨min j2 j1, ?_⟩
    rw [h2, h1, List.take_take]
  · exact LruCache.insert_keys_shape c.meshCache_ k v

theorem HdMeshCache.get_keys_shape (c : HdMeshCache) (k : String) (status : MStatus)
    (copyData : Bool) :
    ((c.get k status copyData).cache.meshCache_.keys_ = c.meshCache_.keys_ ∧
      k ∉ c.meshCache_.keys_.map Prod.fst) ∨
    ∃ v, (k, v) ∈ c.meshCache_.keys_ ∧ (c.get k status copyData).cache.meshCache_.keys_
      = (k, v) :: c.meshCache_.keys_.filter (fun e => !(e.1 == k)) := by
  by_cases hk : c.meshCache_.contains k = true
  · right
    cases hf : c.meshCache_.keys_.find? (fun e => e.1 == k) with
    | none =>
      exfalso
      rw [List.find?_eq_none] at hf
      simp only [LruCache.contains, List.any_eq_true] at hk
      obtain ⟨e, he, hek⟩ := hk
      exact hf e he hek
    | some e =>
      have h1 := List.find?_some hf
      have h2 := List.mem_of_find?_eq_some hf
      have hk1 : e.1 = k := by simpa using h1
      subst hk1
      refine ⟨e.2, h2, ?_⟩
      cases copyData <;> simp [HdMeshCache.get, hk, LruCache.get, LruCache.getCopy, hf]
  · left
    have hk' : c.meshCache_.contains k = false := by simpa using hk
    refine ⟨?_, (LruCache.contains_eq_false_iff _ _).1 hk'⟩
    simp [HdMeshCache.get, hk']

theorem filter_ne_not_mem (L : List (String × HdMeshSet)) (k : String) :
    k ∉ (L.filter (fun e => !(e.1 == k))).map Prod.fst := by
  intro h
  obtain ⟨e, he, hek⟩ := List.mem_map.1 h
  have := (List.mem_filter.1 he).2
  simp [hek] at this

theorem RecencyOrdered.untouched {ops : List CacheOp} {L : List (String × HdMeshSet)}
    (h : RecencyOrdered ops L) (op : CacheOp) (hno : ∀ e ∈ L, op.touches e.1 = false) :
    RecencyOrdered (ops ++ [op]) L := by
  refine ⟨h.1, h.2.imp_of_mem ?_⟩
  intro a b ha hb hab
  rw [lastTouch_snoc, lastTouch_snoc, hno a ha, hno b hb]
  simpa using hab

theorem RecencyOrdered.touch {ops : List CacheOp} {L : List (String × HdMeshSet)}
    (h : RecencyOrdered ops L) (op : CacheOp) (k : String) (v : HdMeshSet)
    (hop : ∀ k', op.touches k' = (k == k')) (R : List (String × HdMeshSet))
    (hsub : R.Sublist L) (hk : k ∉ R.map Prod.fst) :
    RecencyOrdered (ops ++ [op]) ((k, v) :: R) := by
  have hne : ∀ e ∈ R, op.touches e.1 = false := by
    intro e he
    rw [hop]
    simp only [beq_eq_false_iff_ne, ne_eq]
    intro hke
    exact hk (hke ▸ List.mem_map_of_mem Prod.fst he)
  constructor
  · rw [List.map_cons, List.nodup_cons]
    exact ⟨hk, h.1.sublist (hsub.map Prod.fst)⟩
  · rw [List.pairwise_cons]
    constructor
    · intro e he
      rw [lastTouch_snoc, lastTouch_snoc, hne e he, hop]
      simp only [beq_self_eq_true, if_true, Bool.false_eq_true, if_false]
      exact Nat.lt_succ_of_le (lastTouch_le ops e.1)
    · refine (h.2.sublist hsub).imp_of_mem ?_
      intro a b ha hb hab
      rw [lastTouch_snoc, lastTouch_snoc, hne a ha, hne b hb]
      simpa using hab

theorem HdMeshCache.step_recencyOrdered (ops : List CacheOp) (c : HdMeshCache) (op : CacheOp)
    (h : RecencyOrdered ops c.meshCache_.keys_) :
    RecencyOrdered (ops ++ [op]) (c.step op).meshCache_.keys_ := by
  cases op with
  | put k v =>
    obtain ⟨j, hj⟩ := HdMeshCache.put_keys_shape c k v
    simp only [HdMeshCache.step]
    rw [hj]
    exact h.touch (CacheOp.put k v) k v (fun k' => rfl) _
      ((List.filter_sublist _).trans (List.take_sublist _ _)) (filter_ne_not_mem _ k)
  | get k status copyData =>
    simp only [HdMeshCache.step]
    rcases HdMeshCache.get_keys_shape c k status copyData with ⟨h1, h2⟩ | ⟨v, _, h2⟩
    · rw [h1]
      apply h.untouched
      intro e he
      simp only [CacheOp.touches, beq_eq_false_iff_ne, ne_eq]
      intro hke
      exact h2 (hke ▸ List.mem_map_of_mem Prod.fst he)
    · rw [h2]
      exact h.touch (CacheOp.get k status copyData) k v (fun k' => rfl) _ (List.filter_sublist _) (filter_ne_not_mem _ k)
  | «exists» k =>
    exact h.untouched _ (fun _ _ => rfl)

theorem HdMeshCache.run_recencyOrdered (cacheId : String) (n : Nat) (ops : List CacheOp) :
    RecencyOrdered ops ((HdMeshCache.new cacheId n).run ops).meshCache_.keys_ := by
  induction ops using List.reverseRecOn with
  | nil => exact ⟨List.nodup_nil, List.Pairwise.nil⟩
  | append_singleton ops op ih =>
    have : (HdMeshCache.new cacheId n).run (ops ++ [op])
        = ((HdMeshCache.new cacheId n).run ops).step op := by
      simp [HdMeshCache.run, List.foldl_append]
    rw [this]
    exact HdMeshCache.step_recencyOrdered ops _ op ih

theorem HdMeshCache.exists_iff (c : HdMeshCache) (k : String) :
    c.«exists» k = true ↔ k ∈ c.meshCache_.keys_.map Prod.fst := by
  rw [← not_iff_not, ← LruCache.contains_eq_false_iff]
  simp [HdMeshCache.«exists»]

/-- Eviction order: whatever a put evicts was touched before whatever it keeps. -/
theorem HdMeshCache.put_evicts_oldest (ops : List CacheOp) (c : HdMeshCache) (k : String)
    (v : HdMeshSet) (h : RecencyOrdered ops c.meshCache_.keys_) (a b : String)
    (ha : c.«exists» a = true) (ha' : (c.put k v).2.«exists» a = false)
    (hb : (c.put k v).2.«exists» b = true) :
    lastTouch (ops ++ [CacheOp.put k v]) a < lastTouch (ops ++ [CacheOp.put k v]) b := by
  obtain ⟨j, hj⟩ := HdMeshCache.put_keys_shape c k v
  have hafter := HdMeshCache.step_recencyOrdered ops c (CacheOp.put k v) h
  simp only [HdMeshCache.step] at hafter
  rw [HdMeshCache.exists_iff] at ha hb
  have ha'' : a ∉ (c.put k v).2.meshCache_.keys_.map Prod.fst := by
    intro hmem
    rw [← HdMeshCache.exists_iff, ha'] at hmem
    exact Bool.false_ne_true hmem
  rw [hj] at ha'' hb
  simp only [List.map_cons, List.mem_cons, not_or] at ha'' hb
  have hak : a ≠ k := ha''.1
  obtain ⟨ea, hea, rfl⟩ := List.mem_map.1 ha
  have hea_not : ea ∉ c.meshCache_.keys_.take j := by
    intro hmem
    apply ha''.2
    apply List.mem_map_of_mem Prod.fst
    rw [List.mem_filter]
    exact ⟨hmem, by simpa using hak⟩
  have hea_drop : ea ∈ c.meshCache_.keys_.drop j := by
    have : ea ∈ c.meshCache_.keys_.take j ++ c.meshCache_.keys_.drop j := by
      rw [List.take_append_drop]; exact hea
    rcases List.mem_append.1 this with h1 | h1
    · exact absurd h1 hea_not
    · exact h1
  rw [lastTouch_snoc, lastTouch_snoc]
  have hta : (CacheOp.put k v).touches ea.1 = false := by
    simp only [CacheOp.touches, beq_eq_false_iff_ne, ne_eq]
    exact fun h => hak h.symm
  rw [hta]
  simp only [Bool.false_eq_true, if_false]
  rcases hb with hb | hb
  · subst hb
    simp only [CacheOp.touches, beq_self_eq_true, if_true]
    exact Nat.lt_succ_of_le (lastTouch_le ops ea.1)
  · obtain ⟨eb, heb, rfl⟩ := List.mem_map.1 hb
    rw [List.mem_filter] at heb
    have hbk : eb.1 ≠ k := by simpa using heb.2
    have htb : (CacheOp.put k v).touches eb.1 = false := by
      simp only [CacheOp.touches, beq_eq_false_iff_ne, ne_eq]
      exact fun h => hbk h.symm
    rw [htb]
    simp only [Bool.false_eq_true, if_false]
    have hpw := h.2
    rw [← List.take_append_drop j c.meshCache_.keys_, List.pairwise_append] at hpw
    exact hpw.2.2 eb heb.1 ea hea_drop

theorem scenario_get_then_put (cacheId a b k : String) (X Y Z : HdMeshSet) (status : MStatus)
    (copyData : Bool) (hab : a ≠ b) (hka : k ≠ a) (hkb : k ≠ b) :
    ((((((HdMeshCache.new cacheId 2).put a X).2.put b Y).2.get a status copyData).cache.put k Z).2
      ).meshCache_.keys_ = [(k, Z), (a, X)] := by
  have hba : b ≠ a := fun h => hab h.symm
  have hak : a ≠ k := fun h => hka h.symm
  have hbk : b ≠ k := fun h => hkb h.symm
  cases copyData <;>
  simp [HdMeshCache.put, HdMeshCache.new, HdMeshCache.get, HdMeshCache.maxSize, LruCache.new,
    LruCache.getMaxSize, LruCache.insert, LruCache.contains, LruCache.prune, LruCache.size,
    LruCache.get, LruCache.getCopy, hab, hka, hkb, hba, hak, hbk, List.filter]

/-! ## Properties of the evaluator -/

theorem HdEvaluator.preEvaluateNode_eq (s : List Nat) (oNode : MNode) (plugs : PosePlugs) :
    HdEvaluator.preEvaluateNode s oNode plugs
      = if readsFrozen oNode plugs then setInsert s oNode.objectHashCode else s := by
  unfold HdEvaluator.preEvaluateNode readsFrozen
  cases oNode.depFnOk <;> cases plugs.outPoseIdFound <;> cases plugs.outFreezeRigFound <;>
    cases plugs.freezeRig <;> cases plugs.poseId <;> simp

theorem setInsert_length_le (s : List Nat) (x : Nat) : (setInsert s x).length ≤ s.length + 1 := by
  unfold setInsert; split <;> simp

theorem mem_setInsert (s : List Nat) (x y : Nat) : y ∈ setInsert s x ↔ y = x ∨ y ∈ s := by
  unfold setInsert
  split
  · rename_i h
    constructor
    · exact Or.inr
    · rintro (rfl | h') <;> assumption
  · simp

theorem cachedAfter_length_le (read : MNode → PosePlugs) (nodes : List MNode) :
    ∀ s, (cachedAfter read s nodes).length
      ≤ s.length + (nodes.filter (fun n => readsFrozen n (read n))).length := by
  induction nodes with
  | nil => intro s; simp [cachedAfter]
  | cons n nodes ih =>
    intro s
    have step : cachedAfter read s (n :: nodes)
        = cachedAfter read (HdEvaluator.preEvaluateNode s n (read n)) nodes := rfl
    rw [step]
    refine (ih _).trans ?_
    rw [HdEvaluator.preEvaluateNode_eq]
    by_cases h : readsFrozen n (read n) = true
    · have := setInsert_length_le s n.objectHashCode
      simp only [h, if_true, List.filter_cons_of_pos, List.length_cons]
      omega
    · simp [h]

theorem mem_cachedAfter (read : MNode → PosePlugs) (nodes : List MNode) :
    ∀ s x, x ∈ cachedAfter read s nodes →
      x ∈ s ∨ ∃ n ∈ nodes, n.objectHashCode = x := by
  induction nodes with
  | nil => intro s x h; exact Or.inl h
  | cons n nodes ih =>
    intro s x h
    have step : cachedAfter read s (n :: nodes)
        = cachedAfter read (HdEvaluator.preEvaluateNode s n (read n)) nodes := rfl
    rw [step] at h
    rcases ih _ x h with h1 | ⟨m, hm, hx⟩
    · rw [HdEvaluator.preEvaluateNode_eq] at h1
      split at h1
      · rcases (mem_setInsert _ _ _).1 h1 with h2 | h2
        · exact Or.inr ⟨n, List.mem_cons_self _ _, h2.symm⟩
        · exact Or.inl h2
      · exact Or.inl h1
    · exact Or.inr ⟨m, List.mem_cons_of_mem _ hm, hx⟩

theorem cachedAfter_length (read : MNode → PosePlugs) (nodes : List MNode) :
    ∀ s, (nodes.map MNode.objectHashCode).Nodup →
      (∀ n ∈ nodes, n.objectHashCode ∉ s) →
      (cachedAfter read s nodes).length
        = s.length + (nodes.filter (fun n => readsFrozen n (read n))).length := by
  induction nodes with
  | nil => intro s _ _; simp [cachedAfter]
  | cons n nodes ih =>
    intro s hnd hs
    rw [List.map_cons, List.nodup_cons] at hnd
    have step : cachedAfter read s (n :: nodes)
        = cachedAfter read (HdEvaluator.preEvaluateNode s n (read n)) nodes := rfl
    have hn : n.objectHashCode ∉ s := hs n (List.mem_cons_self _ _)
    rw [step, ih _ hnd.2, HdEvaluator.preEvaluateNode_eq]
    · by_cases h : readsFrozen n (read n) = true
      · simp only [h, if_true, List.filter_cons_of_pos, List.length_cons, setInsert, hn, if_false]
        omega
      · simp [h]
    · intro m hm
      rw [HdEvaluator.preEvaluateNode_eq]
      have hm' : m.objectHashCode ∉ s := hs m (List.mem_cons_of_mem _ hm)
      split
      · rw [mem_setInsert]
        rintro (h1 | h1)
        · exact hnd.1 (h1 ▸ List.mem_map_of_mem _ hm)
        · exact hm' h1
      · exact hm'

theorem HdEvaluator.preEvaluate_fullyCached (e : HdEvaluator) (anim : MAnimControl)
    (read : MNode → PosePlugs) :
    (e.preEvaluate anim read).fullyCached
      = (e.hdAvailable && HdUtils.playbackActive anim &&
          decide ((cachedAfter read [] e.poseNodes).length = e.poseNodes.length)) := by
  unfold HdEvaluator.preEvaluate cachedAfter
  cases e.hdAvailable <;> cases HdUtils.playbackActive anim <;> simp
  split <;> simp_all

theorem HdEvaluator.preEvaluate_frame (e : HdEvaluator) (anim : MAnimControl)
    (read : MNode → PosePlugs) :
    (e.preEvaluate anim read).hdAvailable = e.hdAvailable ∧
    (e.preEvaluate anim read).poseNodes = e.poseNodes ∧
    (e.preEvaluate anim read).evaluatorInitialized = e.evaluatorInitialized ∧
    (e.preEvaluate anim read).whitelistNodes = e.whitelistNodes ∧
    (e.preEvaluate anim read).outputMeshes = e.outputMeshes := by
  unfold HdEvaluator.preEvaluate
  cases e.hdAvailable <;> cases HdUtils.playbackActive anim <;> simp
  split <;> simp

theorem filter_length_eq_iff {α : Type} (p : α → Bool) (l : List α) :
    (l.filter p).length = l.length ↔ ∀ a ∈ l, p a = true := by
  rw [← List.filter_eq_self]
  constructor
  · intro h
    exact List.Sublist.eq_of_length (List.filter_sublist l) h
  · intro h; rw [h]

theorem HdEvaluator.collectHdPoseNodes_poseNodes (scene : List SceneNode) :
    ∀ e : HdEvaluator, (e.collectHdPoseNodes scene).poseNodes
      = e.poseNodes ++ (scene.filter
          (fun n => n.node.depFnOk && decide (n.node.typeId = HdPoseNode.id))).map SceneNode.node := by
  induction scene with
  | nil => intro e; simp [HdEvaluator.collectHdPoseNodes]
  | cons n scene ih =>
    intro e
    have hstep : e.collectHdPoseNodes (n :: scene)
        = HdEvaluator.collectHdPoseNodes
            (if !n.node.depFnOk then e
             else if n.node.typeId ≠ HdPoseNode.id then e
             else { e with poseNodes := e.poseNodes ++ [n.node] }) scene := rfl
    rw [hstep, ih]
    by_cases h1 : n.node.depFnOk = true
    · by_cases h2 : n.node.typeId = HdPoseNode.id
      · simp [h1, h2]
      · simp [h1, h2]
    · simp [h1]

theorem HdEvaluator.collectOutputMeshes_poseNodes (scene : List SceneNode) :
    ∀ e : HdEvaluator, (e.collectOutputMeshes scene).poseNodes = e.poseNodes := by
  induction scene with
  | nil => intro e; rfl
  | cons n scene ih =>
    intro e
    simp only [HdEvaluator.collectOutputMeshes, List.foldl_cons]
    have := ih
    simp only [HdEvaluator.collectOutputMeshes] at this
    rw [this]
    split
    · rfl
    · split
      · rfl
      · split
        · rfl
        · split <;> rfl

theorem HdEvaluator.collectWhitelistNodes_poseNodes (scene : List SceneNode) :
    ∀ e : HdEvaluator, (e.collectWhitelistNodes scene).poseNodes = e.poseNodes := by
  induction scene with
  | nil => intro e; rfl
  | cons n scene ih =>
    intro e
    simp only [HdEvaluator.collectWhitelistNodes, List.foldl_cons]
    have := ih
    simp only [HdEvaluator.collectWhitelistNodes] at this
    rw [this]
    split
    · rfl
    · split
      · rfl
      · split
        · rfl
        · split <;> rfl

/-- Initialization of a new evaluator on a scene whose nodes carry pairwise
different hash codes collects pose nodes with pairwise different hash codes. -/
theorem HdEvaluator.markIfSupported_poseNodes_distinct (scene : List SceneNode)
    (h : (scene.map (fun n => n.node.objectHashCode)).Nodup) :
    ((HdEvaluator.new.markIfSupported scene).1.poseNodes.map MNode.objectHashCode).Nodup := by
  have hp : (HdEvaluator.new.markIfSupported scene).1.poseNodes
      = (HdEvaluator.new.collectHdPoseNodes scene).poseNodes := by
    have hinit : HdEvaluator.new.evaluatorInitialized = false := rfl
    simp only [HdEvaluator.markIfSupported, hinit, Bool.not_false, if_true,
      HdEvaluator.evaluatorInit]
    split
    · rfl
    · simp only [HdEvaluator.collectWhitelistNodes_poseNodes,
        HdEvaluator.collectOutputMeshes_poseNodes]
  rw [hp, HdEvaluator.collectHdPoseNodes_poseNodes]
  have hnew : HdEvaluator.new.poseNodes = [] := rfl
  rw [hnew, List.nil_append, List.map_map]
  exact h.sublist ((List.filter_sublist _).map _)

/-- C5: the gate is available and the pass fully cached (both pose nodes of
the example scene read frozen); for the cluster of a whitelisted node, a
mesh-output node and an intermediate node, in this order, `clusterEvaluate`
executes the mesh-output node alone: the whitelisted node, which stands first,
is passed over. -/
theorem clusterEvaluate_skips_first_node :
    ((HdEvaluator.new.markIfSupported exScene).1.preEvaluate exPlayback (fun _ => exFrozen)).hdAvailable = true ∧
    ((HdEvaluator.new.markIfSupported exScene).1.preEvaluate exPlayback (fun _ => exFrozen)).fullyCached = true ∧
    ((HdEvaluator.new.markIfSupported exScene).1.preEvaluate exPlayback (fun _ => exFrozen)).clusterEvaluate exCluster
      = [exOutputMesh] := by
  decide

theorem HdEvaluator.clusterEvaluateLoop_eq (e : HdEvaluator) (nodes : List MNode) :
    e.clusterEvaluateLoop nodes = nodes.tail.filter e.evaluatesNode := by
  induction nodes with
  | nil => rfl
  | cons n rest ih =>
    cases rest with
    | nil => rfl
    | cons m rest' =>
      rw [HdEvaluator.clusterEvaluateLoop, ih]
      simp only [List.tail_cons, List.filter_cons]
      split <;> simp

theorem HdEvaluator.clusterEvaluate_normal (e : HdEvaluator) (cluster : MCustomEvaluatorClusterNode)
    (h : e.fullyCached = false ∨ e.hdAvailable = false) :
    e.clusterEvaluate cluster = cluster.nodes := by
  unfold HdEvaluator.clusterEvaluate
  rcases h with h | h <;> simp [h]


/-! ## Properties of the pose node -/

theorem HdCacheMap.find_of_registered (m : HdCacheMap) (cacheId : String)
    (h : HdCacheMap.«exists» m cacheId = true) : ∃ c, HdCacheMap.find m cacheId = some c := by
  unfold HdCacheMap.«exists» at h
  split at h
  · simp at h
  · split at h
    · rename_i hlen
      have hpos : 0 < (List.filter (fun e => e.1 == cacheId) m).length := by simpa using hlen
      obtain ⟨e, he⟩ := List.exists_mem_of_length_pos hpos
      rw [List.mem_filter] at he
      cases hf : List.find? (fun e => e.1 == cacheId) m with
      | none =>
        rw [List.find?_eq_none] at hf
        exact absurd he.2 (hf e he.1)
      | some e' => exact ⟨e'.2, by simp [HdCacheMap.find, hf]⟩
    · simp at h

theorem HdCacheMap.get_of_find (m : HdCacheMap) (cacheId : String) (c c' : HdMeshCache)
    (hf : HdCacheMap.find m cacheId = some c) (hg : (HdCacheMap.get m cacheId).1 = some c') :
    c' = c := by
  unfold HdCacheMap.get at hg
  split at hg
  · simp at hg
  · simp only [hf] at hg
    exact (Option.some.inj hg).symm

theorem HdPoseNode.cachesContainPoseIdLoop_true (m : HdCacheMap) (data : PoseDataBlock)
    (poseIdHash : String) (plugs : List Bool) :
    ∀ (i connectedPlugs : Nat) (status : MStatus),
      HdPoseNode.cachesContainPoseIdLoop m data poseIdHash plugs i connectedPlugs = (true, status) →
      (connectedPlugs > 0 ∨ ∃ j : Nat, plugs[j]? = some true) ∧
      ∀ j : Nat, plugs[j]? = some true → ∃ cacheId meshCache,
        data.outCacheIds[i + j]? = some cacheId ∧ HdCacheMap.find m cacheId = some meshCache ∧
        meshCache.«exists» poseIdHash = true := by
  induction plugs with
  | nil =>
    intro i cnt status h
    simp only [HdPoseNode.cachesContainPoseIdLoop] at h
    split at h
    · rename_i hc
      exact ⟨Or.inl hc, by simp⟩
    · simp at h
  | cons b plugs ih =>
    intro i cnt status h
    cases b with
    | false =>
      simp only [HdPoseNode.cachesContainPoseIdLoop, Bool.false_eq_true, if_false] at h
      obtain ⟨h1, h2⟩ := ih (i + 1) cnt status h
      constructor
      · rcases h1 with h1 | ⟨j, hj⟩
        · exact Or.inl h1
        · exact Or.inr ⟨j + 1, by simpa using hj⟩
      · intro j hj
        cases j with
        | zero => simp at hj
        | succ j =>
          have := h2 j (by simpa using hj)
          rwa [Nat.add_assoc, Nat.add_comm 1 j] at this
    | true =>
      simp only [HdPoseNode.cachesContainPoseIdLoop, if_true] at h
      split at h
      · simp at h
      · rename_i hi
        split at h
        · simp at h
        · rename_i hex
          have hex' : HdCacheMap.«exists» m (data.outCacheIds.getD i "") = true := by
            simpa using hex
          obtain ⟨c, hc⟩ := HdCacheMap.find_of_registered m _ hex'
          split at h
          · simp at h
          · rename_i meshCache hget
            have hcc := HdCacheMap.get_of_find m _ c meshCache hc hget
            subst hcc
            split at h
            · simp at h
            · rename_i hcontains
              have hcontains' : meshCache.«exists» poseIdHash = true := by simpa using hcontains
              obtain ⟨_, h2⟩ := ih (i + 1) (cnt + 1) status h
              refine ⟨Or.inr ⟨0, by simp⟩, ?_⟩
              intro j hj
              cases j with
              | zero =>
                refine ⟨data.outCacheIds.getD i "", meshCache, ?_, hc, hcontains'⟩
                have hlt : i < data.outCacheIds.length := by omega
                simp [List.getD, List.getElem?_eq_getElem hlt]
              | succ j =>
                have := h2 j (by simpa using hj)
                rwa [Nat.add_assoc, Nat.add_comm 1 j] at this

theorem HdPoseNode.cachesContainPoseId_true (m : HdCacheMap) (data : PoseDataBlock)
    (poseIdHash : String) (status : MStatus)
    (h : HdPoseNode.cachesContainPoseId m data poseIdHash = (true, status)) :
    (∃ j : Nat, data.outCacheIdsConnected[j]? = some true) ∧
    ∀ j : Nat, data.outCacheIdsConnected[j]? = some true → ∃ cacheId meshCache,
      data.outCacheIds[j]? = some cacheId ∧ HdCacheMap.find m cacheId = some meshCache ∧
      meshCache.«exists» poseIdHash = true := by
  unfold HdPoseNode.cachesContainPoseId at h
  simp only at h
  split at h
  · simp at h
  · obtain ⟨h1, h2⟩ := HdPoseNode.cachesContainPoseIdLoop_true m data poseIdHash _ 0 0 status h
    refine ⟨?_, ?_⟩
    · rcases h1 with h1 | h1
      · exact absurd h1 (by decide)
      · exact h1
    · intro j hj
      simpa using h2 j hj

theorem HdPoseNode.cachesContainPoseIdLoop_none (m : HdCacheMap) (data : PoseDataBlock)
    (poseIdHash : String) (plugs : List Bool) (hnone : ∀ j : Nat, plugs[j]? ≠ some true) :
    ∀ (i : Nat), (HdPoseNode.cachesContainPoseIdLoop m data poseIdHash plugs i 0).1 = false := by
  induction plugs with
  | nil => intro i; simp [HdPoseNode.cachesContainPoseIdLoop]
  | cons b plugs ih =>
    intro i
    have hb : b = false := by
      cases b with
      | false => rfl
      | true => exact absurd (by simp) (hnone 0)
    subst hb
    simp only [HdPoseNode.cachesContainPoseIdLoop, Bool.false_eq_true, if_false]
    exact ih (fun j => by simpa using hnone (j + 1)) (i + 1)

theorem HdPoseNode.compute_pose_path (node : HdPoseNode) (m : HdCacheMap) (uuid : Nat → String)
    (hashString : String → Nat) (hashDouble : ℚ → Nat) (data : PoseDataBlock)
    (hids : data.outCacheIds ≠ []) (henabled : data.state ≠ 1)
    (hplay : node.needsEvaluation = false) :
    HdPoseNode.compute node m uuid hashString hashDouble true data =
      (let d1 : PoseDataBlock := { data with
          outCacheIds := HdPoseNode.setCacheIdsLoop uuid 0 data.outCacheIds, outFreezeRig := false }
       let poseHash := (HdPoseNode.createPose data).hash hashString hashDouble
       let c := HdPoseNode.cachesContainPoseId m d1 poseHash
       if c.2 ≠ MStatus.kSuccess then (c.2, d1)
       else (MStatus.kSuccess, { d1 with outFreezeRig := c.1, outPoseId := poseHash })) := by
  have hlen : ¬ data.outCacheIds.length < 1 := by
    cases h : data.outCacheIds with
    | nil => exact absurd h hids
    | cons a l => simp
  simp only [HdPoseNode.compute, HdPoseNode.setCacheIds, hlen, HdPoseNode.setRigFrozen,
    HdPoseNode.setPoseId, HdPoseNode.createPose, henabled, hplay, Bool.not_true,
    Bool.false_eq_true, if_false, ne_eq, not_true_eq_false]
  split
  · rfl
  · cases (HdPoseNode.cachesContainPoseId m _ _).1 <;> rfl

theorem HdPoseNode.compute_untouched (node : HdPoseNode) (m : HdCacheMap) (uuid : Nat → String)
    (hashString : String → Nat) (hashDouble : ℚ → Nat) (plugIsOutPoseId : Bool)
    (data : PoseDataBlock) (h : ¬ (plugIsOutPoseId = true ∧ data.outCacheIds ≠ [])) :
    (HdPoseNode.compute node m uuid hashString hashDouble plugIsOutPoseId data).2.outFreezeRig
      = data.outFreezeRig := by
  cases plugIsOutPoseId with
  | false => simp [HdPoseNode.compute]
  | true =>
    have hnil : data.outCacheIds = [] := by
      by_contra hne
      exact h ⟨rfl, hne⟩
    simp [HdPoseNode.compute, HdPoseNode.setCacheIds, hnil]

/-- C7 (amended): for an enabled pose node outside forced evaluation. When `compute` is
asked for the pose-id plug and the node has at least one cache-id element, it
writes the rig-frozen output, and the value written is true only if some
cache-id plug is connected and every connected plug names a registered cache
that contains the pose id; it is false when no plug is connected. In the
remaining cases `compute` returns before it writes the output, which keeps its
value. -/
theorem rigFrozen_requires_every_connected_cache (node : HdPoseNode) (m : HdCacheMap)
    (uuid : Nat → String) (hashString : String → Nat) (hashDouble : ℚ → Nat)
    (plugIsOutPoseId : Bool) (data : PoseDataBlock)
    (henabled : data.state ≠ 1) (hplay : node.needsEvaluation = false) :
    ((plugIsOutPoseId = true ∧ data.outCacheIds ≠ []) →
      ((HdPoseNode.compute node m uuid hashString hashDouble plugIsOutPoseId data).2.outFreezeRig
          = true →
        (∃ j : Nat, data.outCacheIdsConnected[j]? = some true) ∧
        ∀ j : Nat, data.outCacheIdsConnected[j]? = some true → ∃ cacheId meshCache,
          (HdPoseNode.compute node m uuid hashString hashDouble plugIsOutPoseId data).2.outCacheIds[j]?
            = some cacheId ∧
          HdCacheMap.find m cacheId = some meshCache ∧
          meshCache.«exists» ((HdPoseNode.createPose data).hash hashString hashDouble) = true) ∧
      ((∀ j : Nat, data.outCacheIdsConnected[j]? ≠ some true) →
        (HdPoseNode.compute node m uuid hashString hashDouble plugIsOutPoseId data).2.outFreezeRig
          = false)) ∧
    (¬ (plugIsOutPoseId = true ∧ data.outCacheIds ≠ []) →
      (HdPoseNode.compute node m uuid hashString hashDouble plugIsOutPoseId data).2.outFreezeRig
        = data.outFreezeRig) := by
  refine ⟨?_, HdPoseNode.compute_untouched node m uuid hashString hashDouble plugIsOutPoseId data⟩
  rintro ⟨hplug, hids⟩
  subst hplug
  rw [HdPoseNode.compute_pose_path node m uuid hashString hashDouble data hids henabled hplay]
  simp only
  generalize hd1 : ({ data with
      outCacheIds := HdPoseNode.setCacheIdsLoop uuid 0 data.outCacheIds,
      outFreezeRig := false } : PoseDataBlock) = d1
  have hconn : d1.outCacheIdsConnected = data.outCacheIdsConnected := by rw [← hd1]
  have hfr : d1.outFreezeRig = false := by rw [← hd1]
  generalize hc : HdPoseNode.cachesContainPoseId m d1
    ((HdPoseNode.createPose data).hash hashString hashDouble) = c
  obtain ⟨b, st⟩ := c
  constructor
  · intro hfrozen
    by_cases hst : st = MStatus.kSuccess
    · simp only [hst, ne_eq, not_true_eq_false, if_false] at hfrozen ⊢
      have hb : b = true := hfrozen
      subst hb
      have := HdPoseNode.cachesContainPoseId_true m d1 _ _ hc
      rw [hconn] at this
      have hids' : d1.outCacheIds = HdPoseNode.setCacheIdsLoop uuid 0 data.outCacheIds := by
        rw [← hd1]
      rw [hids'] at this
      exact this
    · simp only [ne_eq, hst, not_false_eq_true, if_true] at hfrozen
      rw [hfr] at hfrozen
      exact absurd hfrozen (by decide)
  · intro hnone
    by_cases hst : st = MStatus.kSuccess
    · simp only [hst, ne_eq, not_true_eq_false, if_false]
      have h1 : (HdPoseNode.cachesContainPoseId m d1
          ((HdPoseNode.createPose data).hash hashString hashDouble)).1 = false := by
        unfold HdPoseNode.cachesContainPoseId
        simp only
        split
        · rfl
        · exact HdPoseNode.cachesContainPoseIdLoop_none m d1 _ _ (by rw [hconn]; exact hnone) 0
      rw [hc] at h1
      exact h1
    · simp only [ne_eq, hst, not_false_eq_true, if_true]
      exact hfr

/-! ## Properties of the cache node -/

/-- Passthrough loop: outputs at the visited indices take the inputs. -/
theorem HdCacheNode.setOutMeshesLoop_passthrough (poseId : String) (meshCache : Option HdMeshCache)
    (len : Nat) :
    ∀ (k : Nat) (status : MStatus) (data : CacheDataBlock), k + len = data.inMeshes.length →
      ∃ st d, HdCacheNode.setOutMeshesLoop poseId true (List.range' k len) status data meshCache
          = some (st, d, meshCache) ∧
        d.inMeshes = data.inMeshes ∧ d.outMeshes.length = data.outMeshes.length ∧
        d.state = data.state ∧ d.inCacheId = data.inCacheId ∧ d.inPoseId = data.inPoseId ∧
        ∀ i : Nat, d.outMeshes[i]? =
          if k ≤ i ∧ i < data.inMeshes.length ∧ i < data.outMeshes.length
          then data.inMeshes[i]? else data.outMeshes[i]? := by
  induction len with
  | zero =>
    intro k status data hk
    refine ⟨status, data, rfl, rfl, rfl, rfl, rfl, rfl, ?_⟩
    intro i
    have : ¬ (k ≤ i ∧ i < data.inMeshes.length ∧ i < data.outMeshes.length) := by omega
    simp [this]
  | succ len ih =>
    intro k status data hk
    rw [List.range'_succ]
    simp only [HdCacheNode.setOutMeshesLoop]
    by_cases hout : k ≥ data.outMeshes.length
    · refine ⟨status, data, by simp [hout], rfl, rfl, rfl, rfl, rfl, ?_⟩
      intro i
      have : ¬ (k ≤ i ∧ i < data.inMeshes.length ∧ i < data.outMeshes.length) := by omega
      simp [this]
    · have hin : ¬ (data.inMeshes.length ≤ 0 ∨ k ≥ data.inMeshes.length) := by omega
      have hkin : k < data.inMeshes.length := by omega
      have hstep : HdCacheNode.setOutMeshData data meshCache poseId k true
          = some (MStatus.kSuccess,
              { data with outMeshes := data.outMeshes.set k (data.inMeshes.getD k MObject.null) },
              meshCache) := by
        simp only [HdCacheNode.setOutMeshData, hout, hin, if_false, if_true]
      simp only [hout, if_false, hstep]
      obtain ⟨st, d, h1, h2, h3, h4, h5, h6, h7⟩ := ih (k + 1) MStatus.kSuccess
        { data with outMeshes := data.outMeshes.set k (data.inMeshes.getD k MObject.null) }
        (by simp only; omega)
      refine ⟨st, d, h1, h2, by rw [h3]; simp, h4, h5, h6, ?_⟩
      intro i
      rw [h7 i]
      simp only [List.length_set]
      by_cases hik : i = k
      · subst hik
        have h1 : ¬ (i + 1 ≤ i ∧ i < data.inMeshes.length ∧ i < data.outMeshes.length) := by omega
        have h2 : (i ≤ i ∧ i < data.inMeshes.length ∧ i < data.outMeshes.length) := by omega
        simp only [h1, h2, if_false, if_true]
        rw [List.getElem?_set_self (by omega)]
        simp [List.getD, List.getElem?_eq_getElem hkin]
      · rw [List.getElem?_set_ne (fun h => hik h.symm)]
        by_cases hc : k + 1 ≤ i ∧ i < data.inMeshes.length ∧ i < data.outMeshes.length
        · have hc' : k ≤ i ∧ i < data.inMeshes.length ∧ i < data.outMeshes.length := by omega
          simp [hc, hc']
        · have hc' : ¬ (k ≤ i ∧ i < data.inMeshes.length ∧ i < data.outMeshes.length) := by omega
          simp [hc, hc']

theorem HdCacheNode.setOutMeshes_passthrough (data : CacheDataBlock) (poseId : String)
    (meshCache : Option HdMeshCache) :
    ∃ st d, HdCacheNode.setOutMeshes data meshCache poseId true = some (st, d, meshCache) ∧
      d.inMeshes = data.inMeshes ∧ d.outMeshes.length = data.outMeshes.length ∧
      d.state = data.state ∧ d.inCacheId = data.inCacheId ∧ d.inPoseId = data.inPoseId ∧
      ∀ i : Nat, d.outMeshes[i]? =
        if i < data.inMeshes.length ∧ i < data.outMeshes.length
        then data.inMeshes[i]? else data.outMeshes[i]? := by
  unfold HdCacheNode.setOutMeshes
  simp only
  split
  · rw [List.range_eq_range']
    obtain ⟨st, d, h1, h2, h3, h4, h5, h6, h7⟩ :=
      HdCacheNode.setOutMeshesLoop_passthrough poseId meshCache data.inMeshes.length 0
        MStatus.kSuccess data (by omega)
    exact ⟨st, d, h1, h2, h3, h4, h5, h6, fun i => by simpa using h7 i⟩
  · rename_i h
    refine ⟨MStatus.kSuccess, data, rfl, rfl, rfl, rfl, rfl, rfl, ?_⟩
    intro i
    have : ¬ (i < data.inMeshes.length ∧ i < data.outMeshes.length) := by omega
    simp [this]

theorem HdMeshCache.get_hit (c : HdMeshCache) (poseId : String) (e : String × HdMeshSet)
    (hfind : c.meshCache_.keys_.find? (fun x => x.1 == poseId) = some e)
    (status : MStatus) (copyData : Bool) :
    c.get poseId status copyData
      = { meshSet := some e.2, status := MStatus.kSuccess, cache := c.touched e poseId } := by
  have hk := List.find?_some hfind
  have hc : c.meshCache_.contains poseId = true := by
    simp only [LruCache.contains, List.any_eq_true]
    exact ⟨e, List.mem_of_find?_eq_some hfind, hk⟩
  cases copyData <;>
    simp [HdMeshCache.get, hc, LruCache.get, LruCache.getCopy, hfind, HdMeshCache.touched]

theorem HdMeshCache.exists_of_find (c : HdMeshCache) (poseId : String) (e : String × HdMeshSet)
    (hfind : c.meshCache_.keys_.find? (fun x => x.1 == poseId) = some e) :
    c.«exists» poseId = true := by
  have hk := List.find?_some hfind
  simp only [HdMeshCache.«exists», LruCache.contains, List.any_eq_true]
  exact ⟨e, List.mem_of_find?_eq_some hfind, hk⟩

theorem HdMeshCache.find_of_exists (c : HdMeshCache) (poseId : String)
    (h : c.«exists» poseId = true) :
    ∃ e, c.meshCache_.keys_.find? (fun x => x.1 == poseId) = some e := by
  simp only [HdMeshCache.«exists», LruCache.contains, List.any_eq_true] at h
  obtain ⟨e, he, hk⟩ := h
  cases hf : c.meshCache_.keys_.find? (fun x => x.1 == poseId) with
  | none => rw [List.find?_eq_none] at hf; exact absurd hk (hf e he)
  | some e' => exact ⟨e', rfl⟩

theorem HdMeshCache.touched_find (c : HdMeshCache) (poseId : String) (e : String × HdMeshSet)
    (hfind : c.meshCache_.keys_.find? (fun x => x.1 == poseId) = some e) (k : String) :
    (c.touched e poseId).meshCache_.keys_.find? (fun x => x.1 == k)
      = c.meshCache_.keys_.find? (fun x => x.1 == k) := by
  have he : e.1 = poseId := by simpa using List.find?_some hfind
  simp only [HdMeshCache.touched]
  by_cases hk : k = poseId
  · subst hk
    rw [hfind, List.find?_cons_of_pos]
    simp [he]
  · rw [List.find?_cons_of_neg _ (by simp [he]; exact fun h => hk h.symm), List.find?_filter]
    congr 1
    funext a
    by_cases h1 : a.1 = k
    · have : a.1 ≠ poseId := fun h => hk (h1 ▸ h)
      simp [h1, hk]
    · simp [h1]

theorem HdMeshCache.touched_touched (c : HdMeshCache) (poseId : String) (e : String × HdMeshSet)
    (he : e.1 = poseId) :
    (c.touched e poseId).touched e poseId = c.touched e poseId := by
  simp [HdMeshCache.touched, he, List.filter_filter]

/-- Retrieval loop: outputs at the visited indices take the cached frames. -/
theorem HdCacheNode.setOutMeshesLoop_retrieve (poseId : String) (e : String × HdMeshSet)
    (he : e.1 = poseId) (c0 : HdMeshCache) (len : Nat) :
    ∀ (k : Nat) (status : MStatus) (data : CacheDataBlock) (c : HdMeshCache),
      (c = c0 ∨ c = c0.touched e poseId) →
      c0.meshCache_.keys_.find? (fun x => x.1 == poseId) = some e →
      ∃ st d c', HdCacheNode.setOutMeshesLoop poseId false (List.range' k len) status data (some c)
          = some (st, d, some c') ∧ (c' = c0 ∨ c' = c0.touched e poseId) ∧
        d.inMeshes = data.inMeshes ∧ d.outMeshes.length = data.outMeshes.length ∧
        ∀ i : Nat, d.outMeshes[i]? =
          if k ≤ i ∧ i < k + len ∧ i < data.outMeshes.length ∧ i < e.2.length
          then (e.2[i]?).map HdCacheNode.cachedMesh else data.outMeshes[i]? := by
  induction len with
  | zero =>
    intro k status data c hc _
    refine ⟨status, data, c, rfl, hc, rfl, rfl, ?_⟩
    intro i
    rw [if_neg (by omega)]
  | succ len ih =>
    intro k status data c hc hfind0
    have hfind : c.meshCache_.keys_.find? (fun x => x.1 == poseId) = some e := by
      rcases hc with rfl | rfl
      · exact hfind0
      · rw [HdMeshCache.touched_find c0 poseId e hfind0 poseId]; exact hfind0
    have htouch : c.touched e poseId = c0.touched e poseId := by
      rcases hc with rfl | rfl
      · rfl
      · exact HdMeshCache.touched_touched c0 poseId e he
    rw [List.range'_succ]
    simp only [HdCacheNode.setOutMeshesLoop]
    by_cases hout : k ≥ data.outMeshes.length
    · refine ⟨status, data, c, by simp [hout], hc, rfl, rfl, ?_⟩
      intro i
      have : ¬ (k ≤ i ∧ i < k + (len + 1) ∧ i < data.outMeshes.length ∧ i < e.2.length) := by
        omega
      simp [this]
    · simp only [hout, if_false]
      have hex := HdMeshCache.exists_of_find c poseId e hfind
      by_cases hlen : k ≥ e.2.length
      · have hstep : HdCacheNode.setOutMeshData data (some c) poseId k false
            = some (MStatus.kEndOfFile, data, some (c0.touched e poseId)) := by
          simp [HdCacheNode.setOutMeshData, hout, hex, HdMeshCache.get_hit c poseId e hfind,
            hlen, htouch]
        simp only [hstep]
        obtain ⟨st, d, c', h1, h2, h3, h4, h5⟩ :=
          ih (k + 1) MStatus.kEndOfFile data (c0.touched e poseId) (Or.inr rfl) hfind0
        refine ⟨st, d, c', h1, h2, h3, h4, ?_⟩
        intro i
        rw [h5 i]
        by_cases hc1 : k + 1 ≤ i ∧ i < k + 1 + len ∧ i < data.outMeshes.length ∧ i < e.2.length
        · omega
        · have hc2 : ¬ (k ≤ i ∧ i < k + (len + 1) ∧ i < data.outMeshes.length ∧ i < e.2.length) := by
            omega
          simp [hc1, hc2]
      · have hklt : k < e.2.length := by omega
        have hstep : HdCacheNode.setOutMeshData data (some c) poseId k false
            = some (MStatus.kSuccess,
                { data with outMeshes := data.outMeshes.set k (HdCacheNode.cachedMesh e.2[k]) },
                some (c0.touched e poseId)) := by
          simp [HdCacheNode.setOutMeshData, hout, hex, HdMeshCache.get_hit c poseId e hfind,
            hlen, htouch, List.getElem?_eq_getElem hklt]
        simp only [hstep]
        obtain ⟨st, d, c', h1, h2, h3, h4, h5⟩ :=
          ih (k + 1) MStatus.kSuccess
            { data with outMeshes := data.outMeshes.set k (HdCacheNode.cachedMesh e.2[k]) }
            (c0.touched e poseId) (Or.inr rfl) hfind0
        refine ⟨st, d, c', h1, h2, h3, by rw [h4]; simp, ?_⟩
        intro i
        rw [h5 i]
        simp only [List.length_set]
        by_cases hik : i = k
        · subst hik
          have h1 : ¬ (i + 1 ≤ i ∧ i < i + 1 + len ∧ i < data.outMeshes.length ∧ i < e.2.length) := by
            omega
          have h2 : (i ≤ i ∧ i < i + (len + 1) ∧ i < data.outMeshes.length ∧ i < e.2.length) := by
            omega
          simp only [h1, h2, if_false, if_true]
          rw [List.getElem?_set_self (by omega)]
          simp [List.getElem?_eq_getElem hklt]
        · rw [List.getElem?_set_ne (fun h => hik h.symm)]
          by_cases hc1 : k + 1 ≤ i ∧ i < k + 1 + len ∧ i < data.outMeshes.length ∧ i < e.2.length
          · have hc2 : k ≤ i ∧ i < k + (len + 1) ∧ i < data.outMeshes.length ∧ i < e.2.length := by
              omega
            simp [hc1, hc2]
          · have hc2 : ¬ (k ≤ i ∧ i < k + (len + 1) ∧ i < data.outMeshes.length ∧ i < e.2.length) := by
              omega
            simp [hc1, hc2]

theorem HdMeshCache.get_meshSet (c : HdMeshCache) (k : String) (status : MStatus)
    (copyData : Bool) :
    (c.get k status copyData).meshSet
      = (c.meshCache_.keys_.find? (fun x => x.1 == k)).map Prod.snd := by
  cases hf : c.meshCache_.keys_.find? (fun x => x.1 == k) with
  | some e => rw [HdMeshCache.get_hit c k e hf]; rfl
  | none =>
    have hc : c.meshCache_.contains k = false := by
      rw [List.find?_eq_none] at hf
      simp only [LruCache.contains, List.any_eq_false]
      exact hf
    simp [HdMeshCache.get, hc]

theorem HdMeshCache.exists_eq_find (c : HdMeshCache) (k : String) :
    c.«exists» k = (c.meshCache_.keys_.find? (fun x => x.1 == k)).isSome := by
  cases hf : c.meshCache_.keys_.find? (fun x => x.1 == k) with
  | some e => rw [HdMeshCache.exists_of_find c k e hf]; rfl
  | none =>
    rw [List.find?_eq_none] at hf
    simp only [HdMeshCache.«exists», LruCache.contains, Option.isSome_none, List.any_eq_false]
    exact hf

theorem HdCacheMap.find_assign (m : HdCacheMap) (cacheId : String) (c : HdMeshCache) :
    HdCacheMap.find (HdCacheMap.assign m cacheId c) cacheId = some c := by
  induction m with
  | nil => simp [HdCacheMap.assign, HdCacheMap.find]
  | cons e m ih =>
    unfold HdCacheMap.assign
    split
    · simp [HdCacheMap.find]
    · rename_i hne
      split
      · simp [HdCacheMap.find]
      · simp only [HdCacheMap.find] at ih ⊢
        rw [List.find?_cons_of_neg _ (by simpa using hne)]
        exact ih

theorem HdCacheMap.get_of_ne_empty (m : HdCacheMap) (cacheId : String) (h : cacheId ≠ "") :
    ∃ c, (HdCacheMap.get m cacheId).1 = some c ∧
      (HdCacheMap.get m cacheId).2.1 = MStatus.kSuccess := by
  unfold HdCacheMap.get
  simp only [h, if_false]
  cases HdCacheMap.find m cacheId with
  | some c => exact ⟨c, rfl, rfl⟩
  | none => exact ⟨_, rfl, rfl⟩

theorem HdCacheNode.createCacheMeshDataLoop_valid (ins : List MObject) :
    ∀ acc : HdMeshSet, (∀ o ∈ ins, o.isNull = false) →
      ∃ S, HdCacheNode.createCacheMeshDataLoop ins acc = some (acc ++ S) ∧
        S.map HdCacheNode.cachedMesh = ins := by
  induction ins with
  | nil => intro acc _; exact ⟨[], by simp [HdCacheNode.createCacheMeshDataLoop], rfl⟩
  | cons o ins ih =>
    intro acc h
    cases o with
    | null => exact absurd (h MObject.null (List.mem_cons_self _ _)) (by simp [MObject.isNull])
    | mesh nv np pts cnts conns =>
      obtain ⟨S, h1, h2⟩ := ih (acc ++ [(⟨nv, np, cnts, conns, pts, none, [],
        some (MObject.mesh nv np pts cnts conns)⟩ : HdMeshData)])
        (fun o ho => h o (List.mem_cons_of_mem _ ho))
      refine ⟨(⟨nv, np, cnts, conns, pts, none, [],
        some (MObject.mesh nv np pts cnts conns)⟩ : HdMeshData) :: S, ?_, ?_⟩
      · simp only [HdCacheNode.createCacheMeshDataLoop]
        rw [h1, List.append_assoc, List.singleton_append]
      · simp [h2, HdCacheNode.cachedMesh, MObject.isNull]

theorem HdCacheNode.createCacheMeshDataLoop_null (ins : List MObject) :
    ∀ acc : HdMeshSet, (∃ o ∈ ins, o.isNull = true) →
      HdCacheNode.createCacheMeshDataLoop ins acc = none := by
  induction ins with
  | nil => intro acc h; simp at h
  | cons o ins ih =>
    intro acc h
    cases o with
    | null => rfl
    | mesh nv np pts cnts conns =>
      simp only [HdCacheNode.createCacheMeshDataLoop]
      apply ih
      obtain ⟨o, ho, hn⟩ := h
      rcases List.mem_cons.1 ho with rfl | ho
      · simp [MObject.isNull] at hn
      · exact ⟨o, ho, hn⟩

theorem HdCacheNode.createCacheMeshData_valid (data : CacheDataBlock)
    (hne : data.inMeshes ≠ []) (h : ∀ o ∈ data.inMeshes, o.isNull = false) :
    ∃ S, HdCacheNode.createCacheMeshData data = some S ∧
      S.map HdCacheNode.cachedMesh = data.inMeshes := by
  have hpos : data.inMeshes.length > 0 := List.length_pos.2 hne
  obtain ⟨S, h1, h2⟩ := HdCacheNode.createCacheMeshDataLoop_valid data.inMeshes [] h
  exact ⟨S, by simp [HdCacheNode.createCacheMeshData, hpos, h1], h2⟩

theorem HdCacheNode.createCacheMeshData_invalid (data : CacheDataBlock)
    (h : data.inMeshes = [] ∨ ∃ o ∈ data.inMeshes, o.isNull = true) :
    HdCacheNode.createCacheMeshData data = none := by
  unfold HdCacheNode.createCacheMeshData
  simp only
  split
  · rcases h with h | h
    · rename_i hpos; rw [h] at hpos; simp at hpos
    · exact HdCacheNode.createCacheMeshDataLoop_null _ _ h
  · rfl

theorem string_length_pos_of_ne_empty (s : String) (h : s ≠ "") : ¬ s.length < 1 := by
  intro hlt
  apply h
  have h0 : s.data.length = 0 := by
    have : s.length = s.data.length := rfl
    omega
  have hd : s.data = [] := List.length_eq_zero.1 h0
  exact String.ext hd

theorem HdCacheNode.compute_cache_path (node : HdCacheNode) (m : HdCacheMap) (data : CacheDataBlock)
    (cache0 : HdMeshCache)
    (hvalid : node.currentPoseValid = false) (hplay : node.needsEvaluation = false)
    (hdis : node.hdDisabled = false) (hstate : data.state ≠ 1)
    (hcid : data.inCacheIdConnected = true) (hpid : data.inPoseIdConnected = true)
    (hid : data.inCacheId ≠ "")
    (hcache : (HdCacheMap.get m data.inCacheId).1 = some cache0) :
    HdCacheNode.compute node m true false data =
      if !cache0.«exists» data.inPoseId then
        match HdCacheNode.setOutMeshes data (some cache0) data.inPoseId true with
        | none => none
        | some r =>
          match HdCacheNode.createCacheMeshData data with
          | some meshSet =>
            some (MStatus.kSuccess, r.2.1,
              HdCacheMap.assign (HdCacheMap.get m data.inCacheId).2.2 data.inCacheId
                ((r.2.2.getD cache0).put data.inPoseId meshSet).2)
          | none =>
            some (MStatus.kSuccess, r.2.1,
              HdCacheMap.assign (HdCacheMap.get m data.inCacheId).2.2 data.inCacheId
                (r.2.2.getD cache0))
      else
        match HdCacheNode.setOutMeshes data (some cache0) data.inPoseId false with
        | none => none
        | some r =>
          some (MStatus.kSuccess, r.2.1,
            HdCacheMap.assign (HdCacheMap.get m data.inCacheId).2.2 data.inCacheId
              (r.2.2.getD cache0)) := by
  obtain ⟨c, hc1, hc2⟩ := HdCacheMap.get_of_ne_empty m data.inCacheId hid
  have hlen := string_length_pos_of_ne_empty _ hid
  simp only [HdCacheNode.compute, HdCacheNode.getCacheId, HdCacheNode.getMeshCache, hvalid,
    hplay, hdis, hstate, hcid, hpid, hlen, hcache, hc2, Bool.false_and, Bool.not_true,
    Bool.false_or, Bool.false_eq_true, if_false, ne_eq, not_true_eq_false, or_self,
    Bool.or_self, reduceCtorEq]

/-- C8 (amended): for an enabled cache node outside forced evaluation whose
pose id is flagged as changed, with both id inputs connected and a non-empty
cache id, asked for the `outMeshes` array plug, `compute` succeeds. On a pose
id the cache does not contain it copies input mesh `i` to output `i` for every
index both arrays have; when there is at least one input mesh and none is
null, the cache afterwards contains the pose id with the set built from the
inputs, and otherwise nothing is stored. On a pose id the cache contains it
writes output `i` from frame `i` of the set that `get` returns, for every
index the inputs, the outputs and the set have, and puts nothing: membership,
the stored sets, the capacity and the item size of the cache are as before. -/
theorem cacheNode_compute_stores_on_miss_retrieves_on_hit (node : HdCacheNode) (m : HdCacheMap)
    (data : CacheDataBlock) (cache0 : HdMeshCache)
    (hvalid : node.currentPoseValid = false) (hplay : node.needsEvaluation = false)
    (hdis : node.hdDisabled = false) (hstate : data.state ≠ 1)
    (hcid : data.inCacheIdConnected = true) (hpid : data.inPoseIdConnected = true)
    (hid : data.inCacheId ≠ "")
    (hcache : (HdCacheMap.get m data.inCacheId).1 = some cache0) :
    ∃ d m', HdCacheNode.compute node m true false data = some (MStatus.kSuccess, d, m') ∧
      (cache0.«exists» data.inPoseId = false →
        (∀ i : Nat, d.outMeshes[i]? =
          if i < data.inMeshes.length ∧ i < data.outMeshes.length
          then data.inMeshes[i]? else data.outMeshes[i]?) ∧
        ((data.inMeshes ≠ [] ∧ ∀ o ∈ data.inMeshes, o.isNull = false) →
          ∃ S c, S.map HdCacheNode.cachedMesh = data.inMeshes ∧
            HdCacheMap.find m' data.inCacheId = some c ∧
            c.«exists» data.inPoseId = true ∧
            ∀ status copyData, (c.get data.inPoseId status copyData).meshSet = some S) ∧
        ((data.inMeshes = [] ∨ ∃ o ∈ data.inMeshes, o.isNull = true) →
          HdCacheMap.find m' data.inCacheId = some cache0)) ∧
      (cache0.«exists» data.inPoseId = true →
        ∃ S c, (cache0.get data.inPoseId MStatus.kSuccess false).meshSet = some S ∧
          (∀ i : Nat, d.outMeshes[i]? =
            if i < data.inMeshes.length ∧ i < data.outMeshes.length ∧ i < S.length
            then (S[i]?).map HdCacheNode.cachedMesh else data.outMeshes[i]?) ∧
          HdCacheMap.find m' data.inCacheId = some c ∧
          (∀ k, c.«exists» k = cache0.«exists» k) ∧
          (∀ k status copyData,
            (c.get k status copyData).meshSet = (cache0.get k status copyData).meshSet) ∧
          c.maxSize = cache0.maxSize ∧ c.itemMemSize = cache0.itemMemSize) := by
  rw [HdCacheNode.compute_cache_path node m data cache0 hvalid hplay hdis hstate hcid hpid hid hcache]
  by_cases hex : cache0.«exists» data.inPoseId = true
  · -- the pose id is cached
    obtain ⟨e, hfind⟩ := HdMeshCache.find_of_exists cache0 data.inPoseId hex
    have he : e.1 = data.inPoseId := by simpa using List.find?_some hfind
    have hloop : ∃ st d c', HdCacheNode.setOutMeshes data (some cache0) data.inPoseId false
        = some (st, d, some c') ∧ (c' = cache0 ∨ c' = cache0.touched e data.inPoseId) ∧
        ∀ i : Nat, d.outMeshes[i]? =
          if i < data.inMeshes.length ∧ i < data.outMeshes.length ∧ i < e.2.length
          then (e.2[i]?).map HdCacheNode.cachedMesh else data.outMeshes[i]? := by
      unfold HdCacheNode.setOutMeshes
      simp only
      split
      · rw [List.range_eq_range']
        obtain ⟨st, d, c', h1, h2, _, _, h5⟩ :=
          HdCacheNode.setOutMeshesLoop_retrieve data.inPoseId e he cache0 data.inMeshes.length 0
            MStatus.kSuccess data cache0 (Or.inl rfl) hfind
        exact ⟨st, d, c', h1, h2, fun i => by simpa using h5 i⟩
      · refine ⟨MStatus.kSuccess, data, cache0, rfl, Or.inl rfl, ?_⟩
        intro i
        rw [if_neg (by omega)]
    obtain ⟨st, d, c', h1, h2, h3⟩ := hloop
    simp only [hex, Bool.not_true, Bool.false_eq_true, if_false, h1, Option.getD_some]
    refine ⟨d, _, rfl, fun h => absurd h (by simp), fun _ => ?_⟩
    have hfind' : ∀ k, c'.meshCache_.keys_.find? (fun x => x.1 == k)
        = cache0.meshCache_.keys_.find? (fun x => x.1 == k) := by
      intro k
      rcases h2 with rfl | rfl
      · rfl
      · exact HdMeshCache.touched_find cache0 data.inPoseId e hfind k
    refine ⟨e.2, c', ?_, h3, HdCacheMap.find_assign _ _ _, ?_, ?_, ?_, ?_⟩
    · rw [HdMeshCache.get_meshSet, hfind]; rfl
    · intro k; rw [HdMeshCache.exists_eq_find, HdMeshCache.exists_eq_find, hfind' k]
    · intro k status copyData
      rw [HdMeshCache.get_meshSet, HdMeshCache.get_meshSet, hfind' k]
    · rcases h2 with rfl | rfl <;> rfl
    · rcases h2 with rfl | rfl <;> rfl
  · -- the pose id is not cached
    have hex' : cache0.«exists» data.inPoseId = false := by simpa using hex
    obtain ⟨st, d, h1, _, _, _, _, _, h7⟩ :=
      HdCacheNode.setOutMeshes_passthrough data data.inPoseId (some cache0)
    simp only [hex', Bool.not_false, if_true, h1, Option.getD_some]
    cases hms : HdCacheNode.createCacheMeshData data with
    | none =>
      refine ⟨d, _, rfl, fun _ => ⟨h7, ?_, fun _ => HdCacheMap.find_assign _ _ _⟩,
        fun h => absurd h (by simp [hex'])⟩
      rintro ⟨hne, hall⟩
      obtain ⟨S, hS, _⟩ := HdCacheNode.createCacheMeshData_valid data hne hall
      rw [hms] at hS
      exact absurd hS (by simp)
    | some meshSet =>
      refine ⟨d, _, rfl, fun _ => ⟨h7, ?_, ?_⟩, fun h => absurd h (by simp [hex'])⟩
      · rintro ⟨hne, hall⟩
        obtain ⟨S, hS, hmap⟩ := HdCacheNode.createCacheMeshData_valid data hne hall
        rw [hms] at hS
        have hSeq : meshSet = S := Option.some.inj hS
        subst hSeq
        obtain ⟨rest, hkeys⟩ := HdMeshCache.put_keys_head cache0 data.inPoseId meshSet
        have hfind : (cache0.put data.inPoseId meshSet).2.meshCache_.keys_.find?
            (fun x => x.1 == data.inPoseId) = some (data.inPoseId, meshSet) := by
          rw [hkeys]; simp
        refine ⟨meshSet, _, hmap, HdCacheMap.find_assign _ _ _,
          HdMeshCache.exists_of_find _ _ _ hfind, ?_⟩
        intro status copyData
        rw [HdMeshCache.get_meshSet, hfind]; rfl
      · intro hbad
        rw [HdCacheNode.createCacheMeshData_invalid data hbad] at hms
        exact absurd hms (by simp)

/-! ## Budget inference -/

theorem doubleToInt_of_fits (q : ℚ) (h0 : 0 ≤ q) (h1 : q < 2147483648) :
    doubleToInt q = ⌊q⌋ := by
  have hnum : 0 ≤ q.num := Rat.num_nonneg.2 h0
  have hfl : Int.tdiv q.num q.den = ⌊q⌋ := by
    rw [Rat.floor_def, Int.tdiv_eq_ediv hnum (Int.ofNat_nonneg _)]
  have hge : 0 ≤ ⌊q⌋ := Int.floor_nonneg.2 h0
  have hlt : ⌊q⌋ < 2147483648 := by
    rw [Int.floor_lt]
    exact_mod_cast h1
  unfold doubleToInt
  simp only [hfl, INT_MIN, INT_MAX]
  rw [if_pos ⟨by omega, by omega⟩]

theorem LruCache.insert_maxSize (c : LruCache) (k : String) (v : HdMeshSet) :
    (c.insert k v).maxSize_ = c.maxSize_ := by
  unfold LruCache.insert
  split
  · rfl
  · exact LruCache.prune_maxSize _

theorem HdMeshCache.put_new_maxSize (cacheId poseId : String) (S : HdMeshSet)
    (hM : HdMeshSet.memSize S ≠ 0) :
    ((HdMeshCache.new cacheId 0).put poseId S).2.maxSize
      = intToSizeT (doubleToInt (500 * 1024 / HdMeshSet.memSize S)) := by
  simp only [HdMeshCache.put, HdMeshCache.maxSize, LruCache.getMaxSize, HdMeshCache.new,
    LruCache.new, if_true, HdMeshCache.applyMaxMemSize, hM, if_false, HdMeshCache.maxMemSize,
    LruCache.insert_maxSize, LruCache.setMaxSize, LruCache.prune_maxSize]

/-! ## Statements about the mesh cache -/

/-- C2 (witness): capacity 2 and the puts a, b, c leave a absent and b, c
present with their values. -/
theorem lru_eviction_of_first_put_witness :
    0 < 2 ∧
    ((HdMeshCache.new "rig" 2).putAll
      [("a", [exTriangleFrame]), ("b", exEmptySet), ("c", tinyMeshSet)]).«exists» "a" = false ∧
    (((HdMeshCache.new "rig" 2).putAll
      [("a", [exTriangleFrame]), ("b", exEmptySet), ("c", tinyMeshSet)]).get "b"
        MStatus.kFailure false).meshSet = some exEmptySet ∧
    (((HdMeshCache.new "rig" 2).putAll
      [("a", [exTriangleFrame]), ("b", exEmptySet), ("c", tinyMeshSet)]).get "c"
        MStatus.kFailure false).meshSet = some tinyMeshSet :=
  have h := lru_eviction_of_first_put 2 (by decide) "rig" ("a", [exTriangleFrame])
    [("b", exEmptySet), ("c", tinyMeshSet)] rfl (by decide) MStatus.kFailure false
  ⟨by decide, h.1, (h.2 ("b", exEmptySet) (by simp)).2.2, (h.2 ("c", tinyMeshSet) (by simp)).2.2⟩

theorem HdMeshCache.get_head (c : HdMeshCache) (poseId : String) (status : MStatus)
    (copyData : Bool) (h : c.«exists» poseId = true) :
    ((c.get poseId status copyData).cache.meshCache_.keys_.map Prod.fst).head? = some poseId := by
  obtain ⟨e, hfind⟩ := HdMeshCache.find_of_exists c poseId h
  have he : e.1 = poseId := by simpa using List.find?_some hfind
  rw [HdMeshCache.get_hit c poseId e hfind]
  simp [HdMeshCache.touched, he]

/-- C3: `HdMeshCache::get` marks the entry it returns as most recently used.
(1) After a get of a pose id the cache contains, that id heads the recency
order. (2) In a cache of capacity 2 that was given `a` and then `b`, a get of
`a` followed by a put of a new id `k` evicts `b` and keeps `a` with its value.
(3) For every sequence of puts, gets and membership checks on a new cache, an
entry that a following put evicts was last put or got before every entry the
put keeps. -/
theorem get_marks_most_recently_used (cacheId : String) (n : Nat) (ops : List CacheOp)
    (a b k : String) (X Y Z : HdMeshSet) (status : MStatus) (copyData : Bool)
    (c : HdMeshCache) :
    (c.«exists» a = true →
      ((c.get a status copyData).cache.meshCache_.keys_.map Prod.fst).head? = some a) ∧
    (a ≠ b → k ≠ a → k ≠ b →
      ((((((HdMeshCache.new cacheId 2).put a X).2.put b Y).2.get a status copyData).cache.put
          k Z).2).«exists» b = false ∧
      ((((((HdMeshCache.new cacheId 2).put a X).2.put b Y).2.get a status copyData).cache.put
          k Z).2).«exists» a = true ∧
      (((((((HdMeshCache.new cacheId 2).put a X).2.put b Y).2.get a status copyData).cache.put
          k Z).2).get a status copyData).meshSet = some X) ∧
    (((HdMeshCache.new cacheId n).run ops).«exists» a = true →
      (((HdMeshCache.new cacheId n).run ops).put k Z).2.«exists» a = false →
      (((HdMeshCache.new cacheId n).run ops).put k Z).2.«exists» b = true →
      lastTouch (ops ++ [CacheOp.put k Z]) a < lastTouch (ops ++ [CacheOp.put k Z]) b) := by
  refine ⟨HdMeshCache.get_head c a status copyData, ?_, ?_⟩
  · intro hab hka hkb
    have hkeys := scenario_get_then_put cacheId a b k X Y Z status copyData hab hka hkb
    have hak : a ≠ k := fun h => hka h.symm
    have hbk : b ≠ k := fun h => hkb h.symm
    have hba : b ≠ a := fun h => hab h.symm
    refine ⟨?_, ?_, ?_⟩
    · rw [HdMeshCache.exists_eq_find, hkeys]
      simp [hkb, hab]
    · rw [HdMeshCache.exists_eq_find, hkeys]
      simp [hka]
    · rw [HdMeshCache.get_meshSet, hkeys]
      simp [hka]
  · exact HdMeshCache.put_evicts_oldest ops _ k Z
      (HdMeshCache.run_recencyOrdered cacheId n ops) a b

/-- C3 (witness): capacity 2, puts of a and b, a get of a, a put of c. -/
theorem get_marks_most_recently_used_witness :
    ("a" : String) ≠ "b" ∧ ("c" : String) ≠ "a" ∧ ("c" : String) ≠ "b" ∧
    ((((((HdMeshCache.new "rig" 2).put "a" [exTriangleFrame]).2.put "b" exEmptySet).2.get "a"
        MStatus.kSuccess false).cache.put "c" tinyMeshSet).2).«exists» "b" = false ∧
    ((((((HdMeshCache.new "rig" 2).put "a" [exTriangleFrame]).2.put "b" exEmptySet).2.get "a"
        MStatus.kSuccess false).cache.put "c" tinyMeshSet).2).«exists» "a" = true :=
  have h := (get_marks_most_recently_used "rig" 2 [] "a" "b" "c" [exTriangleFrame] exEmptySet
    tinyMeshSet MStatus.kSuccess false (HdMeshCache.new "rig" 2)).2.1
    (by decide) (by decide) (by decide)
  ⟨by decide, by decide, by decide, h.1, h.2.1⟩

/-- C10: on a cache that does not contain the pose id, `HdMeshCache::get`
leaves the caller's status as it was, here `kSuccess`, hands back no mesh set
and leaves the cache unchanged. -/
theorem get_absent_keeps_caller_status :
    (HdMeshCache.new "rig" 2).«exists» "17" = false ∧
    (HdMeshCache.new "rig" 2).get "17" MStatus.kSuccess false =
      { meshSet := none, status := MStatus.kSuccess, cache := HdMeshCache.new "rig" 2 } :=
  ⟨rfl, rfl⟩

/-! ## Statements about the evaluator -/

theorem HdEvaluator.call_inactive (e : HdEvaluator) (c : HostCall)
    (hi : e.evaluatorInitialized = true) (ha : e.hdAvailable = false) (hc : c.isReset = false) :
    (e.call c).evaluatorInitialized = true ∧ (e.call c).hdAvailable = false := by
  cases c with
  | markIfSupported scene => simp [HdEvaluator.call, HdEvaluator.markIfSupported, hi, ha]
  | preEvaluate anim read =>
    obtain ⟨h1, _, h3, _⟩ := HdEvaluator.preEvaluate_frame e anim read
    exact ⟨h3.trans hi, h1.trans ha⟩
  | postEvaluate => exact ⟨hi, ha⟩
  | clusterInitialize _ => exact ⟨hi, ha⟩
  | clusterEvaluate _ => exact ⟨hi, ha⟩
  | clusterTerminate => simp [HostCall.isReset] at hc
  | evaluatorReset => simp [HostCall.isReset] at hc

theorem HdEvaluator.executions_inactive (calls : List HostCall) :
    ∀ e : HdEvaluator, e.evaluatorInitialized = true → e.hdAvailable = false →
      (∀ c ∈ calls, c.isReset = false) → e.executions calls = clustersOf calls := by
  induction calls with
  | nil => intro e _ _ _; rfl
  | cons c calls ih =>
    intro e hi ha hc
    have hrest : ∀ c' ∈ calls, c'.isReset = false := fun c' h => hc c' (List.mem_cons_of_mem _ h)
    obtain ⟨hi', ha'⟩ := HdEvaluator.call_inactive e c hi ha (hc c (List.mem_cons_self _ _))
    cases c with
    | clusterEvaluate cluster =>
      simp only [HdEvaluator.executions, clustersOf]
      rw [HdEvaluator.clusterEvaluate_normal e cluster (Or.inr ha), ih e hi ha hrest]
    | markIfSupported scene =>
      simp only [HdEvaluator.executions, clustersOf]; exact ih _ hi' ha' hrest
    | preEvaluate anim read =>
      simp only [HdEvaluator.executions, clustersOf]; exact ih _ hi' ha' hrest
    | postEvaluate =>
      simp only [HdEvaluator.executions, clustersOf]; exact ih _ hi' ha' hrest
    | clusterInitialize cl =>
      simp only [HdEvaluator.executions, clustersOf]; exact ih _ hi' ha' hrest
    | clusterTerminate =>
      simp only [HdEvaluator.executions, clustersOf]; exact ih _ hi' ha' hrest
    | evaluatorReset =>
      simp only [HdEvaluator.executions, clustersOf]; exact ih _ hi' ha' hrest

theorem HdEvaluator.collectHdPoseNodes_none (scene : List SceneNode) :
    ∀ e : HdEvaluator,
      (∀ n ∈ scene, n.node.depFnOk = false ∨ n.node.typeId ≠ HdPoseNode.id) →
      e.collectHdPoseNodes scene = e := by
  induction scene with
  | nil => intro e _; rfl
  | cons n scene ih =>
    intro e h
    have hn := h n (List.mem_cons_self _ _)
    have hstep : e.collectHdPoseNodes (n :: scene) = e.collectHdPoseNodes scene := by
      simp only [HdEvaluator.collectHdPoseNodes, List.foldl_cons]
      rcases hn with hn | hn
      · simp [hn]
      · simp [hn]
    rw [hstep]
    exact ih e (fun n' h' => h n' (List.mem_cons_of_mem _ h'))

theorem HdEvaluator.markIfSupported_inactive (scene : List SceneNode)
    (h : ∀ n ∈ scene, n.node.depFnOk = false ∨ n.node.typeId ≠ HdPoseNode.id) :
    (HdEvaluator.new.markIfSupported scene).1.evaluatorInitialized = true ∧
    (HdEvaluator.new.markIfSupported scene).1.hdAvailable = false := by
  have hc := HdEvaluator.collectHdPoseNodes_none scene HdEvaluator.new h
  have hinit : HdEvaluator.new.evaluatorInitialized = false := rfl
  have hposes : HdEvaluator.new.poseNodes.length = 0 := rfl
  simp only [HdEvaluator.markIfSupported, hinit, Bool.not_false, if_true,
    HdEvaluator.evaluatorInit, hc, hposes, and_self]

theorem HdEvaluator.preEvaluate_not_fullyCached (e : HdEvaluator) (anim : MAnimControl)
    (read : MNode → PosePlugs)
    (h : ∃ oNode ∈ e.poseNodes, readsFrozen oNode (read oNode) = false) :
    (e.preEvaluate anim read).fullyCached = false := by
  rw [HdEvaluator.preEvaluate_fullyCached]
  have hle := cachedAfter_length_le read e.poseNodes []
  have hlt : (e.poseNodes.filter (fun n => readsFrozen n (read n))).length < e.poseNodes.length := by
    obtain ⟨oNode, hmem, hfr⟩ := h
    apply lt_of_le_of_ne (List.length_filter_le _ _)
    intro heq
    have := (filter_length_eq_iff _ _).1 heq oNode hmem
    rw [hfr] at this
    exact absurd this (by decide)
  have hne : (cachedAfter read [] e.poseNodes).length ≠ e.poseNodes.length := by
    simp only [List.length_nil, Nat.zero_add] at hle
    omega
  simp [hne]

/-- C6: `clusterEvaluate` evaluates the cluster normally, executing each of its
nodes, whenever the pass is not fully cached or the gate is not available;
a pose node that does not read frozen makes every cluster of the pass execute
in full; after an initialization that finds no pose node the gate is
initialized and unavailable, and while no reset occurs every `clusterEvaluate`
executes its whole cluster. -/
theorem clusterEvaluate_normal_unless_fully_cached (e : HdEvaluator)
    (cluster : MCustomEvaluatorClusterNode) (anim : MAnimControl) (read : MNode → PosePlugs)
    (scene : List SceneNode) (calls : List HostCall) :
    ((e.fullyCached = false ∨ e.hdAvailable = false) →
      e.clusterEvaluate cluster = cluster.nodes) ∧
    ((∃ oNode ∈ e.poseNodes, readsFrozen oNode (read oNode) = false) →
      (e.preEvaluate anim read).clusterEvaluate cluster = cluster.nodes) ∧
    ((∀ n ∈ scene, n.node.depFnOk = false ∨ n.node.typeId ≠ HdPoseNode.id) →
      (∀ c ∈ calls, c.isReset = false) →
      (HdEvaluator.new.markIfSupported scene).1.evaluatorInitialized = true ∧
      (HdEvaluator.new.markIfSupported scene).1.hdAvailable = false ∧
      (HdEvaluator.new.markIfSupported scene).1.executions calls = clustersOf calls) ∧
    (e.evaluatorInitialized = true → e.hdAvailable = false →
      (∀ c ∈ calls, c.isReset = false) → e.executions calls = clustersOf calls) := by
  refine ⟨HdEvaluator.clusterEvaluate_normal e cluster, ?_, ?_, ?_⟩
  · intro h
    exact HdEvaluator.clusterEvaluate_normal _ cluster
      (Or.inl (HdEvaluator.preEvaluate_not_fullyCached e anim read h))
  · intro hscene hcalls
    obtain ⟨h1, h2⟩ := HdEvaluator.markIfSupported_inactive scene hscene
    exact ⟨h1, h2, HdEvaluator.executions_inactive calls _ h1 h2 hcalls⟩
  · exact HdEvaluator.executions_inactive calls e

/-- C6 (witness): the example cluster in a pass where one of the two pose nodes
is not frozen. -/
theorem clusterEvaluate_normal_unless_fully_cached_witness :
    (∃ oNode ∈ (HdEvaluator.new.markIfSupported exScene).1.poseNodes,
      readsFrozen oNode (if oNode = exPoseB then exUnfrozen else exFrozen) = false) ∧
    ((HdEvaluator.new.markIfSupported exScene).1.preEvaluate exPlayback
      (fun oNode => if oNode = exPoseB then exUnfrozen else exFrozen)).clusterEvaluate exCluster
      = [exWhitelisted, exOutputMesh, exIntermediate] :=
  have h : ∃ oNode ∈ (HdEvaluator.new.markIfSupported exScene).1.poseNodes,
      readsFrozen oNode (if oNode = exPoseB then exUnfrozen else exFrozen) = false :=
    ⟨exPoseB, by decide, by decide⟩
  ⟨h, (clusterEvaluate_normal_unless_fully_cached (HdEvaluator.new.markIfSupported exScene).1
    exCluster exPlayback (fun oNode => if oNode = exPoseB then exUnfrozen else exFrozen)
    [] []).2.1 h⟩

/-! ## Statements about the compute nodes -/

set_option maxRecDepth 100000 in
/-- C7 (witness): an enabled pose node in playback whose one connected cache
holds the pose id. -/
theorem rigFrozen_requires_every_connected_cache_witness :
    exPoseData.state ≠ 1 ∧ exPoseNode.needsEvaluation = false ∧
    (HdPoseNode.compute exPoseNode exPoseRegistry exUuid exHashString exHashDouble true
      exPoseData).2.outFreezeRig = true ∧
    ∃ cacheId meshCache, HdCacheMap.find exPoseRegistry cacheId = some meshCache ∧
      meshCache.«exists» ((HdPoseNode.createPose exPoseData).hash exHashString exHashDouble)
        = true :=
  have hfrozen : (HdPoseNode.compute exPoseNode exPoseRegistry exUuid exHashString exHashDouble
      true exPoseData).2.outFreezeRig = true := by with_unfolding_all decide
  have h := ((rigFrozen_requires_every_connected_cache exPoseNode exPoseRegistry exUuid
    exHashString exHashDouble true exPoseData (by decide) rfl).1 ⟨rfl, by decide⟩).1 hfrozen
  ⟨by decide, rfl, hfrozen,
    match h.2 0 (by decide) with
    | ⟨cacheId, meshCache, _, h2, h3⟩ => ⟨cacheId, meshCache, h2, h3⟩⟩

/-- C8 (counterexample): an enabled, connected cache node outside forced
evaluation whose cache lacks the pose id. With no input mesh, and likewise with
a null input mesh, `compute` succeeds and the cache still lacks the pose id;
when the node holds its pose for unchanged, `compute` returns at once and
writes neither the outputs nor the cache. -/
theorem cacheNode_compute_miss_without_store :
    (HdCacheNode.compute exCacheNode [] true false (exCacheData [] [MObject.null])).map
        (fun r => (r.1, r.2.1.outMeshes,
          (HdCacheMap.find r.2.2 "rig").map (fun c => c.«exists» "17")))
      = some (MStatus.kSuccess, [MObject.null], some false) ∧
    (HdCacheNode.compute exCacheNode [] true false
        (exCacheData [MObject.null] [exTriangle])).map
        (fun r => (r.1, r.2.1.outMeshes,
          (HdCacheMap.find r.2.2 "rig").map (fun c => c.«exists» "17")))
      = some (MStatus.kSuccess, [MObject.null], some false) ∧
    HdCacheNode.compute { exCacheNode with currentPoseValid := true } [] true false
        (exCacheData [exTriangle] [MObject.null])
      = some (MStatus.kSuccess, exCacheData [exTriangle] [MObject.null], []) := by
  refine ⟨by with_unfolding_all decide, by with_unfolding_all decide, by with_unfolding_all decide⟩

set_option maxRecDepth 100000 in
/-- C8 (witness): a miss on an empty registry with one valid input mesh. -/
theorem cacheNode_compute_stores_on_miss_retrieves_on_hit_witness :
    exCacheNode.currentPoseValid = false ∧ exCacheNode.needsEvaluation = false ∧
    exCacheNode.hdDisabled = false ∧ (exCacheData [exTriangle] [MObject.null]).state ≠ 1 ∧
    (exCacheData [exTriangle] [MObject.null]).inCacheId ≠ "" ∧
    (HdCacheMap.get [] "rig").1 = some (HdMeshCache.new "rig" 0) ∧
    ∃ (d : CacheDataBlock) (m' : HdCacheMap),
      HdCacheNode.compute exCacheNode [] true false (exCacheData [exTriangle] [MObject.null])
        = some (MStatus.kSuccess, d, m') ∧
      ∃ (S : HdMeshSet) (c : HdMeshCache), S.map HdCacheNode.cachedMesh = [exTriangle] ∧
        HdCacheMap.find m' "rig" = some c ∧ c.«exists» "17" = true :=
  match cacheNode_compute_stores_on_miss_retrieves_on_hit exCacheNode []
    (exCacheData [exTriangle] [MObject.null]) (HdMeshCache.new "rig" 0)
    rfl rfl rfl (by decide) rfl rfl (by decide) rfl with
  | ⟨d, m', h1, hmiss, _⟩ =>
    ⟨rfl, rfl, rfl, by decide, by decide, rfl, d, m', h1,
      match (hmiss rfl).2.1 ⟨by decide, by decide⟩ with
      | ⟨S, c, h2, h3, h4, _⟩ => ⟨S, c, h2, h3, h4⟩⟩

/-! ## Properties of the pose hash -/

theorem digitChar_value (k : Nat) (hk : k < 10) : (Nat.digitChar k).toNat - 48 = k := by
  interval_cases k <;> rfl

theorem toDigitsCore_decimalValue : ∀ (f n : Nat), n < f →
    ∃ L : List Char, (∀ ds, Nat.toDigitsCore 10 f n ds = L ++ ds) ∧
      ∀ v, decimalValue v L = v * 10 ^ L.length + n := by
  intro f
  induction f with
  | zero => intro n hn; omega
  | succ f ih =>
    intro n hn
    by_cases h0 : n / 10 = 0
    · refine ⟨[Nat.digitChar (n % 10)], ?_, ?_⟩
      · intro ds
        simp [Nat.toDigitsCore, h0]
      · intro v
        have hlt : n < 10 := by omega
        simp only [decimalValue, List.foldl_cons, List.foldl_nil, List.length_singleton, pow_one]
        rw [digitChar_value _ (Nat.mod_lt _ (by decide))]
        omega
    · obtain ⟨L, hL, hv⟩ := ih (n / 10) (by omega)
      refine ⟨L ++ [Nat.digitChar (n % 10)], ?_, ?_⟩
      · intro ds
        simp [Nat.toDigitsCore, h0, hL]
      · intro v
        have h1 : decimalValue v (L ++ [Nat.digitChar (n % 10)])
            = decimalValue v L * 10 + ((Nat.digitChar (n % 10)).toNat - 48) := by
          simp [decimalValue, List.foldl_append]
        rw [h1, hv, digitChar_value _ (Nat.mod_lt _ (by decide))]
        simp only [List.length_append, List.length_singleton, pow_succ]
        have := Nat.div_add_mod n 10
        nlinarith [this]

theorem decimalValue_repr (n : Nat) : decimalValue 0 (Nat.repr n).data = n := by
  obtain ⟨L, hL, hv⟩ := toDigitsCore_decimalValue (n + 1) n (by omega)
  have : (Nat.repr n).data = L := by
    simp [Nat.repr, Nat.toDigits, hL, List.asString]
  rw [this, hv]
  simp

/-- The decimal text of a number determines the number. -/
theorem toString_nat_injective (a b : Nat) (h : toString a = toString b) : a = b := by
  have h1 : Nat.repr a = Nat.repr b := h
  have := congrArg (fun s => decimalValue 0 s.data) h1
  simpa [decimalValue_repr] using this

/-- C11: the pose id is a function of the pose alone. Two poses with the same
rig tag and the same ordered values get the same `HdPose::hash()` text, also
when each is hashed after any sequence of other poses; the text is the decimal
form of the fold of `hash_combine` over the scaled values, started from the
hash of the rig tag. -/
theorem pose_hash_function_of_pose (hashString : String → Nat) (hashDouble : ℚ → Nat)
    (before₁ before₂ : List HdPose) (p q : HdPose)
    (htag : p.m_rigTag = q.m_rigTag) (hvalues : p.values = q.values) :
    p.hash hashString hashDouble = q.hash hashString hashDouble ∧
    (HdPose.hashAll hashString hashDouble (before₁ ++ [p])).getLast?
      = (HdPose.hashAll hashString hashDouble (before₂ ++ [q])).getLast? ∧
    (HdPose.hashAll hashString hashDouble (before₁ ++ [p])).getLast?
      = some (toString (p.values.foldl
          (fun hash_key v =>
            HdUtils.hash_combine hashDouble hash_key (v * FLOATING_POINT_HASH_FIX_SCALE))
          (hashString p.m_rigTag))) := by
  have hpq : p = q := by
    cases p; cases q; simp_all
  subst hpq
  simp [HdPose.hashAll, HdPose.hash, HdPose.hashValue]

/-- C11 (witness): the pose built by hand and the pose that `createPose` reads
from a data block with the same rig tag and values. -/
theorem pose_hash_function_of_pose_witness :
    (⟨"rig", [1 / 2, 3]⟩ : HdPose).hash exHashString exHashDouble
      = (HdPoseNode.createPose { exPoseData with inCtrlVals := [1 / 2, 3] }).hash
          exHashString exHashDouble :=
  (pose_hash_function_of_pose exHashString exHashDouble [] [⟨"other", [7]⟩]
    ⟨"rig", [1 / 2, 3]⟩ (HdPoseNode.createPose { exPoseData with inCtrlVals := [1 / 2, 3] })
    rfl rfl).1

/-! ## Capacity and memory budget of `HdMeshCache` -/

theorem intToSizeT_pos_of_pos (t : Int) (h0 : 0 < t) (h1 : t < 2147483648) :
    0 < intToSizeT t := by
  unfold intToSizeT
  have : t % 2 ^ 64 = t := Int.emod_eq_of_lt (by omega) (by omega)
  rw [this]
  omega

/-- The maximum entry count after a put. -/
theorem HdMeshCache.put_maxSize (c : HdMeshCache) (poseId : String) (meshSet : HdMeshSet) :
    (c.put poseId meshSet).2.maxSize
      = if c.maxSize = 0 then
          if HdMeshSet.memSize meshSet = 0 then 0
          else intToSizeT (doubleToInt (c.maxMemSize / HdMeshSet.memSize meshSet))
        else c.maxSize := by
  by_cases h : c.meshCache_.maxSize_ = 0
  · by_cases hM : HdMeshSet.memSize meshSet = 0
    · simp only [HdMeshCache.put, h, if_true, HdMeshCache.applyMaxMemSize, hM,
        HdMeshCache.maxSize, LruCache.getMaxSize, LruCache.insert_maxSize]
    · simp only [HdMeshCache.put, h, if_true, HdMeshCache.applyMaxMemSize, hM, if_false,
        HdMeshCache.maxSize, LruCache.getMaxSize, LruCache.insert_maxSize, LruCache.setMaxSize,
        LruCache.prune_maxSize]
  · simp only [HdMeshCache.put, h, if_false, HdMeshCache.maxSize, LruCache.getMaxSize,
      LruCache.insert_maxSize]

/-- C13 (amended): when the quotient of the budget by the size `M` of the mesh
set is not negative and fits an `int`, the maximum entry count after
`HdMeshCache::put` is greater than 0 exactly when the cache had a capacity
before the put, or `M` is not 0 and the budget holds at least one item
(`1 ≤ budget / M`). -/
theorem put_maxSize_pos_iff (c : HdMeshCache) (poseId : String) (meshSet : HdMeshSet)
    (hfits : 0 ≤ c.maxMemSize / HdMeshSet.memSize meshSet ∧
      c.maxMemSize / HdMeshSet.memSize meshSet < 2147483648) :
    0 < (c.put poseId meshSet).2.maxSize ↔
      (c.maxSize ≠ 0 ∨
        (HdMeshSet.memSize meshSet ≠ 0 ∧ 1 ≤ c.maxMemSize / HdMeshSet.memSize meshSet)) := by
  rw [HdMeshCache.put_maxSize]
  by_cases h : c.maxSize = 0
  · simp only [h, if_true, ne_eq, not_true_eq_false, false_or]
    by_cases hM : HdMeshSet.memSize meshSet = 0
    · simp [hM]
    · simp only [hM, if_false, not_false_eq_true, true_and]
      rw [doubleToInt_of_fits _ hfits.1 hfits.2]
      constructor
      · intro hpos
        by_contra hlt
        have hfl : ⌊c.maxMemSize / HdMeshSet.memSize meshSet⌋ = 0 := by
          rw [Int.floor_eq_iff]
          exact ⟨by exact_mod_cast hfits.1, by push_neg at hlt; simpa using hlt⟩
        rw [hfl] at hpos
        simp [intToSizeT] at hpos
      · intro hge
        apply intToSizeT_pos_of_pos
        · have : (1 : Int) ≤ ⌊c.maxMemSize / HdMeshSet.memSize meshSet⌋ := by
            rw [Int.le_floor]; exact_mod_cast hge
          omega
        · rw [Int.floor_lt]; exact_mod_cast hfits.2
  · simp only [h, if_false, ne_eq, not_false_eq_true, true_or, iff_true]
    omega

theorem exTriangleFrame_memSize : HdMeshSet.memSize [exTriangleFrame] = 7 / 128 := by
  simp [HdMeshSet.memSize, exTriangleFrame, HdMeshData.memSize, sizeofWord]
  norm_num

/-- C13 (witness): a new cache after the put of a set of one triangle. -/
theorem put_maxSize_pos_iff_witness :
    0 < ((HdMeshCache.new "rig" 0).put "17" [exTriangleFrame]).2.maxSize :=
  (put_maxSize_pos_iff (HdMeshCache.new "rig" 0) "17" [exTriangleFrame]
    (by rw [exTriangleFrame_memSize]; simp [HdMeshCache.maxMemSize, HdMeshCache.new]; norm_num)).2
    (Or.inr (by rw [exTriangleFrame_memSize]; simp [HdMeshCache.maxMemSize, HdMeshCache.new]; norm_num))

/-- C13 (counterexample): after the put of a mesh set without frames into a new
cache the maximum entry count is still 0, although the cache holds the entry;
the same holds for the frame of a mesh without vertices and polygons, and for
a set of one triangle when the budget is smaller than the set. -/
theorem put_leaves_maxSize_zero :
    ((HdMeshCache.new "rig" 0).put "17" exEmptySet).2.maxSize = 0 ∧
    ((HdMeshCache.new "rig" 0).put "17" exEmptySet).2.size = 1 ∧
    ((HdMeshCache.new "rig" 0).put "17"
      [⟨0, 0, [], [], [], none, [], some (MObject.mesh 0 0 [] [] [])⟩]).2.maxSize = 0 ∧
    (((HdMeshCache.new "rig" 0).setMaxMemSize (1 / 128)).put "17" [exTriangleFrame]).2.maxSize
      = 0 := by
  refine ⟨by with_unfolding_all decide, by with_unfolding_all decide,
    by with_unfolding_all decide, by with_unfolding_all decide⟩

/-- C14: `HdMeshCache::setMaxMemSize` assigns the budget and nothing else: the
maximum entry count, the number of entries, the container with its recency
order and the item size are the same after the call as before, whatever
the cache holds and whatever the new budget is. -/
theorem setMaxMemSize_only_assigns_budget (c : HdMeshCache) (maxMemSize : ℚ) :
    (c.setMaxMemSize maxMemSize).maxMemSize = maxMemSize ∧
    (c.setMaxMemSize maxMemSize).maxSize = c.maxSize ∧
    (c.setMaxMemSize maxMemSize).size = c.size ∧
    (c.setMaxMemSize maxMemSize).meshCache_ = c.meshCache_ ∧
    (c.setMaxMemSize maxMemSize).itemMemSize = c.itemMemSize :=
  ⟨rfl, rfl, rfl, rfl, rfl⟩

/-- A cache that holds three sets of 7/128 KB each, given a budget of 7/128 KB:
the budget holds one item, and the cache keeps its three entries and its
maximum entry count of 9362285. -/
theorem setMaxMemSize_example :
    let c := (HdMeshCache.new "rig" 0).putAll
      [("a", [exTriangleFrame]), ("b", [exTriangleFrame]), ("c", [exTriangleFrame])]
    c.itemMemSize = 7 / 128 ∧ c.size = 3 ∧ ⌊(7 / 128 : ℚ) / c.itemMemSize⌋ = 1 ∧
    (c.setMaxMemSize (7 / 128)).maxSize = 9362285 ∧ (c.setMaxMemSize (7 / 128)).size = 3 := by
  refine ⟨by with_unfolding_all decide, by with_unfolding_all decide, ?_,
    by with_unfolding_all decide, by with_unfolding_all decide⟩
  have : (HdMeshCache.putAll (HdMeshCache.new "rig" 0)
      [("a", [exTriangleFrame]), ("b", [exTriangleFrame]), ("c", [exTriangleFrame])]).itemMemSize
      = 7 / 128 := by with_unfolding_all decide
  simp only [this]
  norm_num

/-! ## Properties of the registry `HdCacheMap` -/

theorem HdCacheMap.find_assign_ne (m : HdCacheMap) (cacheId other : String) (c : HdMeshCache)
    (h : other ≠ cacheId) :
    HdCacheMap.find (HdCacheMap.assign m cacheId c) other = HdCacheMap.find m other := by
  induction m with
  | nil =>
    have : (cacheId == other) = false := by simpa using fun h' => h h'.symm
    simp [HdCacheMap.assign, HdCacheMap.find, this]
  | cons e m ih =>
    have hne : (cacheId == other) = false := by simpa using fun h' => h h'.symm
    unfold HdCacheMap.assign
    split
    · rename_i he
      have : (e.1 == other) = false := by rw [he]; exact hne
      simp [HdCacheMap.find, List.find?_cons, this, hne]
    · split
      · simp [HdCacheMap.find, List.find?_cons, hne]
      · simp only [HdCacheMap.find, List.find?_cons] at ih ⊢
        cases he : (e.1 == other) with
        | true => rfl
        | false => exact ih

theorem HdCacheMap.exists_iff_find (m : HdCacheMap) (cacheId : String) :
    HdCacheMap.«exists» m cacheId = (HdCacheMap.find m cacheId).isSome := by
  induction m with
  | nil => rfl
  | cons e m ih =>
    cases he : (e.1 == cacheId) with
    | true => simp [HdCacheMap.«exists», HdCacheMap.find, List.find?_cons, List.filter_cons, he]
    | false =>
      simp only [HdCacheMap.«exists», HdCacheMap.find, List.find?_cons, List.filter_cons, he,
        List.isEmpty_cons] at ih ⊢
      rw [← ih]
      cases m with
      | nil => simp
      | cons e' m' => simp

theorem HdCacheMap.find_erase_self (m : HdCacheMap) (cacheId : String) :
    HdCacheMap.find (HdCacheMap.erase m cacheId) cacheId = none := by
  simp only [HdCacheMap.find, HdCacheMap.erase, Option.map_eq_none', List.find?_eq_none]
  intro e he
  rw [List.mem_filter] at he
  simpa using he.2

theorem HdCacheMap.find_erase_ne (m : HdCacheMap) (cacheId other : String) (h : other ≠ cacheId) :
    HdCacheMap.find (HdCacheMap.erase m cacheId) other = HdCacheMap.find m other := by
  induction m with
  | nil => rfl
  | cons e m ih =>
    simp only [HdCacheMap.find, HdCacheMap.erase, List.filter_cons, List.find?_cons] at ih ⊢
    cases he : (e.1 == cacheId) with
    | true =>
      have : (e.1 == other) = false := by
        have h1 : e.1 = cacheId := by simpa using he
        rw [h1]; simpa using fun h' => h h'.symm
      simp only [Bool.not_true, this]
      exact ih
    | false =>
      simp only [Bool.not_false, if_true, List.find?_cons]
      cases he' : (e.1 == other) with
      | true => rfl
      | false => exact ih

theorem HdCacheMap.find_clearCaches (m : HdCacheMap) (cacheId : String) :
    HdCacheMap.find (HdCacheMap.clearCaches m) cacheId
      = (HdCacheMap.find m cacheId).map (fun c => (c.clear).2) := by
  induction m with
  | nil => rfl
  | cons e m ih =>
    simp only [HdCacheMap.find, HdCacheMap.clearCaches, List.map_cons, List.find?_cons] at ih ⊢
    cases he : (e.1 == cacheId) with
    | true => rfl
    | false => exact ih


theorem HdCacheMap.get_of_registered (m : HdCacheMap) (x : String) (c : HdMeshCache)
    (hx : x ≠ "") (h : HdCacheMap.find m x = some c) :
    HdCacheMap.get m x = (some c, MStatus.kSuccess, m) := by
  simp [HdCacheMap.get, hx, h]

theorem HdCacheMap.find_get_self (m : HdCacheMap) (x : String) (hx : x ≠ "") :
    HdCacheMap.find (HdCacheMap.get m x).2.2 x = (HdCacheMap.get m x).1 := by
  unfold HdCacheMap.get
  simp only [hx, if_false]
  cases h : HdCacheMap.find m x with
  | some c => exact h
  | none => exact HdCacheMap.find_assign _ _ _

theorem HdCacheMap.find_get_of_registered (m : HdCacheMap) (x y : String) (c : HdMeshCache)
    (h : HdCacheMap.find m x = some c) :
    HdCacheMap.find (HdCacheMap.get m y).2.2 x = some c := by
  unfold HdCacheMap.get
  split
  · exact h
  · cases hy : HdCacheMap.find m y with
    | some c' => exact h
    | none =>
      have hne : x ≠ y := by
        intro hxy; rw [hxy, hy] at h; cases h
      simp only [HdCacheMap.createCache]
      rw [HdCacheMap.find_assign_ne _ _ _ _ hne]
      exact h

theorem HdCacheMap.find_perform_isSome (m : HdCacheMap) (x : String) (op : RegistryOp)
    (h : (HdCacheMap.find m x).isSome = true) :
    (HdCacheMap.find (HdCacheMap.perform m op) x).isSome = true := by
  obtain ⟨c, hc⟩ := Option.isSome_iff_exists.1 h
  cases op with
  | get y =>
    simp only [HdCacheMap.perform]
    rw [HdCacheMap.find_get_of_registered m x y c hc]; rfl
  | put y poseId meshSet =>
    simp only [HdCacheMap.perform]
    have h1 := HdCacheMap.find_get_of_registered m x y c hc
    cases hg : (HdCacheMap.get m y).1 with
    | none => simp only [h1]; rfl
    | some c' =>
      simp only
      by_cases hxy : x = y
      · subst hxy
        rw [HdCacheMap.find_assign]; rfl
      · rw [HdCacheMap.find_assign_ne _ _ _ _ hxy, h1]; rfl
  | clearCaches =>
    simp only [HdCacheMap.perform]
    rw [HdCacheMap.find_clearCaches, hc]; rfl

theorem HdCacheMap.find_performAll_isSome (ops : List RegistryOp) :
    ∀ (m : HdCacheMap) (x : String), (HdCacheMap.find m x).isSome = true →
      (HdCacheMap.find (HdCacheMap.performAll m ops) x).isSome = true := by
  induction ops with
  | nil => intro m x h; exact h
  | cons op ops ih =>
    intro m x h
    exact ih _ x (HdCacheMap.find_perform_isSome m x op h)

/-- C15: for every non-empty cache id `x`, the first `HdCacheMap::get(x)`
hands back a cache that is registered under `x`, and a second call made at once
hands back the same cache in the same state without changing the registry.
After any sequence of gets, puts through such pointers and `clearCaches` calls
in between (no `removeCache`), the second call still hands back the cache
registered under `x` and creates none; and an entry put through the pointer of
the first call is found, with its mesh set, through the pointer of the second
call. -/
theorem registry_get_same_instance (m : HdCacheMap) (x : String) (hx : x ≠ "")
    (ops : List RegistryOp) (poseId : String) (S : HdMeshSet) :
    (∃ c, (HdCacheMap.get m x).1 = some c ∧
      HdCacheMap.get (HdCacheMap.get m x).2.2 x
        = (some c, MStatus.kSuccess, (HdCacheMap.get m x).2.2)) ∧
    (∃ c, HdCacheMap.find (HdCacheMap.performAll (HdCacheMap.get m x).2.2 ops) x = some c ∧
      HdCacheMap.get (HdCacheMap.performAll (HdCacheMap.get m x).2.2 ops) x
        = (some c, MStatus.kSuccess, HdCacheMap.performAll (HdCacheMap.get m x).2.2 ops)) ∧
    (∃ c, HdCacheMap.get (HdCacheMap.perform (HdCacheMap.performAll (HdCacheMap.get m x).2.2 ops)
          (RegistryOp.put x poseId S)) x
        = (some c, MStatus.kSuccess,
            HdCacheMap.perform (HdCacheMap.performAll (HdCacheMap.get m x).2.2 ops)
              (RegistryOp.put x poseId S)) ∧
      c.«exists» poseId = true ∧
      (c.get poseId MStatus.kSuccess false).meshSet = some S) := by
  obtain ⟨c, hc, _⟩ := HdCacheMap.get_of_ne_empty m x hx
  have hfind : HdCacheMap.find (HdCacheMap.get m x).2.2 x = some c := by
    rw [HdCacheMap.find_get_self m x hx, hc]
  have hsome := HdCacheMap.find_performAll_isSome ops _ x (by rw [hfind]; rfl)
  obtain ⟨c2, hc2⟩ := Option.isSome_iff_exists.1 hsome
  refine ⟨⟨c, hc, HdCacheMap.get_of_registered _ x c hx hfind⟩,
    ⟨c2, hc2, HdCacheMap.get_of_registered _ x c2 hx hc2⟩, ?_⟩
  generalize HdCacheMap.performAll (HdCacheMap.get m x).2.2 ops = m2 at hc2 ⊢
  have hg := HdCacheMap.get_of_registered m2 x c2 hx hc2
  have hm3 : HdCacheMap.perform m2 (RegistryOp.put x poseId S)
      = HdCacheMap.assign m2 x (c2.put poseId S).2 := by
    simp only [HdCacheMap.perform, hg]
  rw [hm3]
  refine ⟨(c2.put poseId S).2, HdCacheMap.get_of_registered _ x _ hx (HdCacheMap.find_assign _ _ _),
    ?_, ?_⟩
  · obtain ⟨rest, h⟩ := HdMeshCache.put_keys_head c2 poseId S
    exact LruCache.contains_of_head _ _ _ _ h
  · obtain ⟨rest, h⟩ := HdMeshCache.put_keys_head c2 poseId S
    rw [HdMeshCache.get_meshSet, h]
    simp

/-- C15 (witness): the cache id `rig` on an empty registry, with a get of
another id in between. -/
theorem registry_get_same_instance_witness :
    ∃ c, HdCacheMap.get (HdCacheMap.perform
        (HdCacheMap.performAll (HdCacheMap.get [] "rig").2.2 [RegistryOp.get "face"])
        (RegistryOp.put "rig" "17" [exTriangleFrame])) "rig"
      = (some c, MStatus.kSuccess, HdCacheMap.perform
          (HdCacheMap.performAll (HdCacheMap.get [] "rig").2.2 [RegistryOp.get "face"])
          (RegistryOp.put "rig" "17" [exTriangleFrame])) ∧
      c.«exists» "17" = true ∧
      (c.get "17" MStatus.kSuccess false).meshSet = some [exTriangleFrame] :=
  (registry_get_same_instance [] "rig" (by decide) [RegistryOp.get "face"] "17"
    [exTriangleFrame]).2.2

/-- C16: `HdCacheMap::get` fails exactly for the empty cache id. The status
differs from success, and the pointer handed back is null, if and only if the
id is the empty string; for the empty id the status is `kInvalidParameter` and
the registry is unchanged. For a non-empty registered id it succeeds with the
registered cache and leaves the registry unchanged; for a non-empty unseen id
it succeeds, the registry afterwards maps the id to a new cache that has no
entries, capacity 0 and the default budget of `500 * 1024` KB, and every other
id maps to what it mapped to before. -/
theorem registry_get_fails_iff_empty_id (m : HdCacheMap) (cacheId : String) :
    ((HdCacheMap.get m cacheId).2.1 ≠ MStatus.kSuccess ↔ cacheId = "") ∧
    ((HdCacheMap.get m cacheId).1 = none ↔ cacheId = "") ∧
    (cacheId = "" → HdCacheMap.get m cacheId = (none, MStatus.kInvalidParameter, m)) ∧
    (cacheId ≠ "" → ∀ c, HdCacheMap.find m cacheId = some c →
      HdCacheMap.get m cacheId = (some c, MStatus.kSuccess, m)) ∧
    (cacheId ≠ "" → HdCacheMap.find m cacheId = none →
      (HdCacheMap.get m cacheId).2.1 = MStatus.kSuccess ∧
      (HdCacheMap.get m cacheId).1 = some (HdMeshCache.new cacheId 0) ∧
      HdCacheMap.find (HdCacheMap.get m cacheId).2.2 cacheId = some (HdMeshCache.new cacheId 0) ∧
      HdCacheMap.«exists» (HdCacheMap.get m cacheId).2.2 cacheId = true ∧
      (HdMeshCache.new cacheId 0).size = 0 ∧
      (HdMeshCache.new cacheId 0).maxSize = 0 ∧
      (HdMeshCache.new cacheId 0).maxMemSize = 500 * 1024 ∧
      ∀ other, other ≠ cacheId →
        HdCacheMap.find (HdCacheMap.get m cacheId).2.2 other = HdCacheMap.find m other) := by
  by_cases h : cacheId = ""
  · subst h
    simp [HdCacheMap.get]
  · have hget : (HdCacheMap.get m cacheId).2.1 = MStatus.kSuccess ∧
        (HdCacheMap.get m cacheId).1 ≠ none := by
      obtain ⟨c, h1, h2⟩ := HdCacheMap.get_of_ne_empty m cacheId h
      exact ⟨h2, by rw [h1]; simp⟩
    refine ⟨by simp [h, hget.1], by simp [h, hget.2], fun h' => absurd h' h,
      fun _ c hc => HdCacheMap.get_of_registered m cacheId c h hc, ?_⟩
    intro _ hnone
    have hg : HdCacheMap.get m cacheId
        = (some (HdMeshCache.new cacheId 0), MStatus.kSuccess,
            HdCacheMap.assign m cacheId (HdMeshCache.new cacheId 0)) := by
      simp [HdCacheMap.get, h, hnone, HdCacheMap.createCache]
    rw [hg]
    refine ⟨rfl, rfl, HdCacheMap.find_assign _ _ _, ?_, rfl, rfl, rfl, ?_⟩
    · rw [HdCacheMap.exists_iff_find, HdCacheMap.find_assign]; rfl
    · intro other hne
      exact HdCacheMap.find_assign_ne _ _ _ _ hne

theorem HdCacheMap.removeCache_of_unregistered (m : HdCacheMap) (cacheId : String)
    (h : HdCacheMap.«exists» m cacheId = false) (sharedElsewhere : Bool) :
    HdCacheMap.removeCache m cacheId sharedElsewhere = some m := by
  simp [HdCacheMap.removeCache, h]

theorem HdCacheMap.removeCache_of_registered (m : HdCacheMap) (cacheId : String)
    (h : HdCacheMap.«exists» m cacheId = true) :
    HdCacheMap.removeCache m cacheId false = none := by
  simp only [HdCacheMap.removeCache, h, if_true]
  cases hg : (HdCacheMap.get m cacheId).1 with
  | none => rfl
  | some c => rfl

/-- C17: `HdCacheMap::removeCache` on an unregistered id leaves the registry as
it is. On a registered id, when no shared pointer to the cache is held outside
the registry and the call, it has no defined behaviour: `destroyCache` sets the
container pointer to null, and the destructor that runs when the last pointer
is released calls `destroyCache` again, whose `clear()` goes through the null
pointer. When another shared pointer keeps the object alive, the entry is
erased, `exists(id)` is false afterwards and every other id maps to what it
mapped to before. The container holds no entries when `destroyCache` deletes
it, and `destroyCache` on an object whose pointer is null is undefined. -/
theorem removeCache_destroys_cache_twice (m : HdCacheMap) (cacheId : String) :
    (HdCacheMap.«exists» m cacheId = false →
      ∀ sharedElsewhere, HdCacheMap.removeCache m cacheId sharedElsewhere = some m) ∧
    (HdCacheMap.«exists» m cacheId = true → HdCacheMap.removeCache m cacheId false = none) ∧
    (HdCacheMap.«exists» m cacheId = true → cacheId ≠ "" →
      HdCacheMap.removeCache m cacheId true = some (HdCacheMap.erase m cacheId) ∧
      HdCacheMap.«exists» (HdCacheMap.erase m cacheId) cacheId = false ∧
      ∀ other, other ≠ cacheId →
        HdCacheMap.find (HdCacheMap.erase m cacheId) other = HdCacheMap.find m other) ∧
    (∀ c : HdMeshCache, ∃ c', HdMeshCache.destroyCache (some c) = some (MStatus.kSuccess, c', none) ∧
      c'.size = 0 ∧ HdMeshCache.destroyCache none = none) := by
  refine ⟨?_, ?_, ?_, ?_⟩
  · intro h shared
    exact HdCacheMap.removeCache_of_unregistered m cacheId h shared
  · intro h
    exact HdCacheMap.removeCache_of_registered m cacheId h
  · intro h hne
    obtain ⟨c, hc⟩ := HdCacheMap.find_of_registered m cacheId h
    have hg := HdCacheMap.get_of_registered m cacheId c hne hc
    refine ⟨?_, ?_, fun other ho => HdCacheMap.find_erase_ne m cacheId other ho⟩
    · simp [HdCacheMap.removeCache, h, hg, HdMeshCache.destroyCache]
    · rw [HdCacheMap.exists_iff_find, HdCacheMap.find_erase_self]; rfl
  · intro c
    exact ⟨(c.clear).2, rfl, rfl, rfl⟩

/-- The registry that holds the cache `rig`: `removeCache` of `rig` is
undefined, `removeCache` of an unregistered id changes nothing. -/
theorem removeCache_example :
    HdCacheMap.«exists» exRegistry "rig" = true ∧
    HdCacheMap.removeCache exRegistry "rig" false = none ∧
    HdCacheMap.removeCache exRegistry "face" false = some exRegistry := by
  have h1 : HdCacheMap.«exists» exRegistry "rig" = true := by
    simp [HdCacheMap.«exists», exRegistry]
  have h2 : HdCacheMap.«exists» exRegistry "face" = false := by
    simp [HdCacheMap.«exists», exRegistry]
  exact ⟨h1, HdCacheMap.removeCache_of_registered _ _ h1,
    HdCacheMap.removeCache_of_unregistered _ _ h2 false⟩

/-- C18: after `HdCacheMap::clearCaches` the registered cache ids are the same
as before, in the same order, and every registered cache has size 0, with its
capacity, its budget, its item size and its id as before. -/
theorem clearCaches_empties_every_cache (m : HdCacheMap) :
    (HdCacheMap.clearCaches m).map Prod.fst = m.map Prod.fst ∧
    (∀ cacheId, HdCacheMap.«exists» (HdCacheMap.clearCaches m) cacheId
      = HdCacheMap.«exists» m cacheId) ∧
    (∀ cacheId c, HdCacheMap.find (HdCacheMap.clearCaches m) cacheId = some c →
      c.size = 0 ∧
      ∃ c0, HdCacheMap.find m cacheId = some c0 ∧ c.maxSize = c0.maxSize ∧
        c.maxMemSize = c0.maxMemSize ∧ c.itemMemSize = c0.itemMemSize ∧
        c.cacheId = c0.cacheId) ∧
    (∀ e ∈ HdCacheMap.clearCaches m, e.2.size = 0) := by
  refine ⟨?_, ?_, ?_, ?_⟩
  · simp [HdCacheMap.clearCaches, List.map_map, Function.comp_def]
  · intro cacheId
    rw [HdCacheMap.exists_iff_find, HdCacheMap.exists_iff_find, HdCacheMap.find_clearCaches]
    simp
  · intro cacheId c hc
    rw [HdCacheMap.find_clearCaches] at hc
    cases h0 : HdCacheMap.find m cacheId with
    | none => rw [h0] at hc; cases hc
    | some c0 =>
      rw [h0] at hc
      have : c = (c0.clear).2 := (Option.some.inj hc).symm
      subst this
      exact ⟨rfl, c0, rfl, rfl, rfl, rfl, rfl⟩
  · intro e he
    simp only [HdCacheMap.clearCaches, List.mem_map] at he
    obtain ⟨e0, _, rfl⟩ := he
    rfl

/-! ## Disabled and bypassed nodes -/

/-- A disabled pose node, or one under forced evaluation, that is asked for the
pose-id plug and has a cache-id element writes false to the rig-frozen output. -/
theorem HdPoseNode.compute_forced (node : HdPoseNode) (m : HdCacheMap) (uuid : Nat → String)
    (hashString : String → Nat) (hashDouble : ℚ → Nat) (data : PoseDataBlock)
    (hids : data.outCacheIds ≠ [])
    (hforced : data.state = 1 ∨ node.needsEvaluation = true) :
    (HdPoseNode.compute node m uuid hashString hashDouble true data).1 = MStatus.kSuccess ∧
    (HdPoseNode.compute node m uuid hashString hashDouble true data).2.outFreezeRig = false := by
  have hlen : ¬ data.outCacheIds.length < 1 := by
    cases h : data.outCacheIds with
    | nil => exact absurd h hids
    | cons a l => simp
  by_cases hstate : data.state = 1
  · simp [HdPoseNode.compute, HdPoseNode.setCacheIds, hlen, HdPoseNode.setRigFrozen, hstate]
  · have hneeds : node.needsEvaluation = true := by
      rcases hforced with h | h
      · exact absurd h hstate
      · exact h
    simp [HdPoseNode.compute, HdPoseNode.setCacheIds, hlen, HdPoseNode.setRigFrozen, hstate,
      hneeds]

/-- C19 (amended): when `HdPoseNode::compute` is asked for the pose-id plug of
a node that has at least one cache-id element, and the node is disabled (state
`HasNoEffect`) or under forced evaluation, it succeeds and the rig-frozen
output afterwards is false, whatever the registry holds and whatever the
output was before; forced evaluation is what `preEvaluation` sets when playback
is not active. -/
theorem rigFrozen_false_when_disabled_or_forced (node : HdPoseNode) (m : HdCacheMap)
    (uuid : Nat → String) (hashString : String → Nat) (hashDouble : ℚ → Nat)
    (data : PoseDataBlock) (hids : data.outCacheIds ≠ []) :
    ((data.state = 1 ∨ node.needsEvaluation = true) →
      (HdPoseNode.compute node m uuid hashString hashDouble true data).1 = MStatus.kSuccess ∧
      (HdPoseNode.compute node m uuid hashString hashDouble true data).2.outFreezeRig = false) ∧
    (∀ anim : MAnimControl, HdUtils.playbackActive anim = false →
      (HdPoseNode.compute (HdPoseNode.preEvaluation node anim).2 m uuid hashString hashDouble true
        data).2.outFreezeRig = false) := by
  refine ⟨HdPoseNode.compute_forced node m uuid hashString hashDouble data hids, ?_⟩
  intro anim hanim
  exact (HdPoseNode.compute_forced _ m uuid hashString hashDouble data hids
    (Or.inr (by simp [HdPoseNode.preEvaluation, hanim]))).2

/-- C19 (witness): a disabled pose node whose rig-frozen output was true and
whose connected cache contains the pose id. -/
theorem rigFrozen_false_when_disabled_or_forced_witness :
    (HdPoseNode.compute exPoseNode exPoseRegistry exUuid exHashString exHashDouble true
      { exPoseData with state := 1, outFreezeRig := true }).2.outFreezeRig = false :=
  ((rigFrozen_false_when_disabled_or_forced exPoseNode exPoseRegistry exUuid exHashString
    exHashDouble { exPoseData with state := 1, outFreezeRig := true } (by decide)).1
    (Or.inl rfl)).2

/-- C19 (counterexample): a disabled pose node under forced evaluation whose
rig-frozen output is true. Without cache-id elements `setCacheIds` fails and
`compute` returns `kInvalidParameter` before it writes the output; asked for
another plug, `compute` returns `kUnknownParameter` at once. In both calls the
rig-frozen output is still true afterwards. -/
theorem rigFrozen_kept_when_compute_returns_early :
    (HdPoseNode.compute { needsEvaluation := true } exPoseRegistry exUuid exHashString
      exHashDouble true
      { exPoseData with state := 1, outFreezeRig := true, outCacheIds := [],
                        outCacheIdsConnected := [] })
      = (MStatus.kInvalidParameter,
          { exPoseData with state := 1, outFreezeRig := true, outCacheIds := [],
                            outCacheIdsConnected := [] }) ∧
    (HdPoseNode.compute { needsEvaluation := true } exPoseRegistry exUuid exHashString
      exHashDouble false { exPoseData with state := 1, outFreezeRig := true })
      = (MStatus.kUnknownParameter, { exPoseData with state := 1, outFreezeRig := true }) := by
  constructor
  · simp [HdPoseNode.compute, HdPoseNode.setCacheIds, exPoseData]
  · simp [HdPoseNode.compute]

theorem HdCacheNode.compute_early_return (node : HdCacheNode) (m : HdCacheMap)
    (plugIsOutMeshes plugIsElement : Bool) (data : CacheDataBlock)
    (hvalid : node.currentPoseValid = true) (hplay : node.needsEvaluation = false) :
    HdCacheNode.compute node m plugIsOutMeshes plugIsElement data
      = some (MStatus.kSuccess, data, m) := by
  simp [HdCacheNode.compute, hvalid, hplay]

theorem HdCacheNode.compute_no_cache_id (node : HdCacheNode) (m : HdCacheMap)
    (data : CacheDataBlock)
    (hrun : ¬ (node.currentPoseValid = true ∧ node.needsEvaluation = false))
    (hid : data.inCacheIdConnected = false ∨ data.inCacheId = "") :
    HdCacheNode.compute node m true false data = none := by
  have hrun' : (node.currentPoseValid && !node.needsEvaluation) = false := by
    cases h1 : node.currentPoseValid <;> cases h2 : node.needsEvaluation <;> simp_all
  have hnone : HdCacheNode.getCacheId data = none := by
    unfold HdCacheNode.getCacheId
    rcases hid with h | h
    · simp [h]
    · simp [h]
  simp [HdCacheNode.compute, hrun', hnone]

theorem HdCacheNode.compute_bypass (node : HdCacheNode) (m : HdCacheMap)
    (data : CacheDataBlock)
    (hrun : ¬ (node.currentPoseValid = true ∧ node.needsEvaluation = false))
    (hbypass : data.state = 1 ∨ node.needsEvaluation = true ∨ node.hdDisabled = true ∨
      data.inPoseIdConnected = false)
    (hconn : data.inCacheIdConnected = true) (hid : data.inCacheId ≠ "") :
    ∃ st d, HdCacheNode.compute node m true false data
        = some (st, d, (HdCacheMap.get m data.inCacheId).2.2) ∧
      d.inMeshes = data.inMeshes ∧ d.outMeshes.length = data.outMeshes.length ∧
      ∀ i : Nat, d.outMeshes[i]? =
        if i < data.inMeshes.length ∧ i < data.outMeshes.length
        then data.inMeshes[i]? else data.outMeshes[i]? := by
  have hrun' : (node.currentPoseValid && !node.needsEvaluation) = false := by
    cases h1 : node.currentPoseValid <;> cases h2 : node.needsEvaluation <;> simp_all
  have hlen := string_length_pos_of_ne_empty _ hid
  have hget : HdCacheNode.getCacheId data = some (data.inCacheId, MStatus.kSuccess) := by
    unfold HdCacheNode.getCacheId
    simp only [hconn, Bool.not_true, Bool.false_eq_true, if_false]
    rw [if_neg (by omega)]
  obtain ⟨st, d, h1, h2, h3, _, _, _, h7⟩ := HdCacheNode.setOutMeshes_passthrough data "" none
  have hskip : HdCacheNode.skipCompute data = some (st, d) := by
    simp [HdCacheNode.skipCompute, h1]
  refine ⟨st, d, ?_, h2, h3, h7⟩
  simp only [HdCacheNode.compute, hrun', Bool.false_eq_true, if_false, Bool.not_true,
    Bool.or_false, hget, HdCacheNode.getMeshCache, hskip, Option.map_some']
  by_cases hfirst : data.state = 1 ∨ (HdCacheMap.get m data.inCacheId).1 = none ∨
      node.needsEvaluation = true ∨ node.hdDisabled = true ∨
      (HdCacheMap.get m data.inCacheId).2.1 ≠ MStatus.kSuccess
  · rw [if_pos hfirst]
  · rw [if_neg hfirst]
    have hpose : data.inPoseIdConnected = false := by
      rcases hbypass with h | h | h | h
      · exact absurd (Or.inl h) hfirst
      · exact absurd (Or.inr (Or.inr (Or.inl h))) hfirst
      · exact absurd (Or.inr (Or.inr (Or.inr (Or.inl h)))) hfirst
      · exact h
    simp [hpose]

/-- C20: what `HdCacheNode::compute` does on a disabled or bypassed node.
(1) While the pose is flagged valid during playback it returns at once and
copies nothing, also on a disabled node. (2) Otherwise, asked for the
`outMeshes` array plug with the cache-id input unconnected or the cache id
empty, it has no defined behaviour: `getCacheId` returns `nullptr` as a
`std::string`. (3) Otherwise, on a node that is disabled, under forced
evaluation, flagged as having an empty pose id, or without a pose-id
connection, it copies input mesh `i` to output `i` for every index both arrays
have, and it has called `HdCacheMap::get` before: every registered cache is
as before and a registered cache id leaves the registry as it is, but for an
unseen cache id the registry afterwards holds a new empty cache under it. -/
theorem cacheNode_bypass_reaches_registry (node : HdCacheNode) (m : HdCacheMap)
    (data : CacheDataBlock) :
    ((node.currentPoseValid = true ∧ node.needsEvaluation = false) →
      ∀ plugIsOutMeshes plugIsElement,
        HdCacheNode.compute node m plugIsOutMeshes plugIsElement data
          = some (MStatus.kSuccess, data, m)) ∧
    (¬ (node.currentPoseValid = true ∧ node.needsEvaluation = false) →
      (data.inCacheIdConnected = false ∨ data.inCacheId = "") →
      HdCacheNode.compute node m true false data = none) ∧
    (¬ (node.currentPoseValid = true ∧ node.needsEvaluation = false) →
      (data.state = 1 ∨ node.needsEvaluation = true ∨ node.hdDisabled = true ∨
        data.inPoseIdConnected = false) →
      (data.inCacheIdConnected = true ∧ data.inCacheId ≠ "") →
      (∃ st d, HdCacheNode.compute node m true false data
          = some (st, d, (HdCacheMap.get m data.inCacheId).2.2) ∧
        d.inMeshes = data.inMeshes ∧ d.outMeshes.length = data.outMeshes.length ∧
        ∀ i : Nat, d.outMeshes[i]? =
          if i < data.inMeshes.length ∧ i < data.outMeshes.length
          then data.inMeshes[i]? else data.outMeshes[i]?) ∧
      (∀ other c, HdCacheMap.find m other = some c →
        HdCacheMap.find (HdCacheMap.get m data.inCacheId).2.2 other = some c) ∧
      (HdCacheMap.«exists» m data.inCacheId = true → (HdCacheMap.get m data.inCacheId).2.2 = m) ∧
      (HdCacheMap.«exists» m data.inCacheId = false →
        (HdCacheMap.get m data.inCacheId).2.2
          = HdCacheMap.assign m data.inCacheId (HdMeshCache.new data.inCacheId 0) ∧
        HdCacheMap.«exists» (HdCacheMap.get m data.inCacheId).2.2 data.inCacheId = true)) := by
  refine ⟨fun h pO pE => HdCacheNode.compute_early_return node m pO pE data h.1 h.2,
    fun hrun hid => HdCacheNode.compute_no_cache_id node m data hrun hid, ?_⟩
  intro hrun hbypass hid
  refine ⟨HdCacheNode.compute_bypass node m data hrun hbypass hid.1 hid.2,
    fun other c hc => HdCacheMap.find_get_of_registered m other data.inCacheId c hc, ?_, ?_⟩
  · intro hex
    obtain ⟨c, hc⟩ := HdCacheMap.find_of_registered m _ hex
    rw [HdCacheMap.get_of_registered m _ c hid.2 hc]
  · intro hex
    have hnone : HdCacheMap.find m data.inCacheId = none := by
      rw [HdCacheMap.exists_iff_find] at hex
      cases h : HdCacheMap.find m data.inCacheId with
      | none => rfl
      | some c => rw [h] at hex; cases hex
    have hg : (HdCacheMap.get m data.inCacheId).2.2
        = HdCacheMap.assign m data.inCacheId (HdMeshCache.new data.inCacheId 0) := by
      simp [HdCacheMap.get, hid.2, hnone, HdCacheMap.createCache]
    rw [hg]
    exact ⟨rfl, by rw [HdCacheMap.exists_iff_find, HdCacheMap.find_assign]; rfl⟩

set_option maxRecDepth 100000 in
/-- A disabled cache node with one input mesh: with the cache-id input
unconnected `compute` is undefined; with the unseen cache id `face` it copies
the mesh and the registry gains the cache `face`; with the pose flagged valid
it returns without copying. -/
theorem cacheNode_bypass_example :
    HdCacheNode.compute exCacheNode exRegistry true false
      { exCacheData [exTriangle] [MObject.null] with state := 1, inCacheIdConnected := false }
      = none ∧
    HdCacheMap.«exists» exRegistry "face" = false ∧
    (HdCacheNode.compute exCacheNode exRegistry true false
      { exCacheData [exTriangle] [MObject.null] with state := 1, inCacheId := "face" }).map
        (fun r => (r.1, r.2.1.outMeshes, r.2.2.map Prod.fst,
          HdCacheMap.«exists» r.2.2 "face"))
      = some (MStatus.kSuccess, [exTriangle], ["face", "rig"], true) ∧
    HdCacheNode.compute { exCacheNode with currentPoseValid := true } exRegistry true false
      { exCacheData [exTriangle] [MObject.null] with state := 1 }
      = some (MStatus.kSuccess,
          { exCacheData [exTriangle] [MObject.null] with state := 1 }, exRegistry) := by
  refine ⟨?_, ?_, ?_, ?_⟩
  · exact HdCacheNode.compute_no_cache_id _ _ _ (by decide) (Or.inl rfl)
  · simp [HdCacheMap.«exists», exRegistry]
  · with_unfolding_all decide
  · exact HdCacheNode.compute_early_return _ _ _ _ _ rfl rfl

/-! ## Integrity checks and atomic entries of the cache node -/

theorem HdCacheNode.setOutMeshData_out_of_range (data : CacheDataBlock)
    (meshCache : Option HdMeshCache) (poseId : String) (i : Nat) (noEffect : Bool)
    (h : i ≥ data.outMeshes.length ∨ (noEffect = true ∧ i ≥ data.inMeshes.length)) :
    ∃ st, HdCacheNode.setOutMeshData data meshCache poseId i noEffect
        = some (st, data, meshCache) ∧ st ≠ MStatus.kSuccess := by
  unfold HdCacheNode.setOutMeshData
  simp only
  by_cases h1 : i ≥ data.outMeshes.length
  · rw [if_pos h1]
    exact ⟨MStatus.kFailure, rfl, by decide⟩
  · rw [if_neg h1]
    rcases h with h | ⟨h2, h3⟩
    · exact absurd h h1
    · rw [if_pos h2, if_pos (Or.inr h3)]
      exact ⟨MStatus.kNotFound, rfl, by decide⟩

theorem HdCacheNode.setOutMeshesLoop_passthrough_status (poseId : String)
    (meshCache : Option HdMeshCache) (len : Nat) :
    ∀ (k : Nat) (data : CacheDataBlock), k + len = data.inMeshes.length →
      ∃ d, HdCacheNode.setOutMeshesLoop poseId true (List.range' k len) MStatus.kSuccess data
          meshCache = some (MStatus.kSuccess, d, meshCache) := by
  induction len with
  | zero => intro k data _; exact ⟨data, rfl⟩
  | succ len ih =>
    intro k data hk
    simp only [List.range'_succ, HdCacheNode.setOutMeshesLoop]
    by_cases hout : k ≥ data.outMeshes.length
    · rw [if_pos hout]; exact ⟨data, rfl⟩
    · rw [if_neg hout]
      have hin : ¬ (data.inMeshes.length ≤ 0 ∨ k ≥ data.inMeshes.length) := by omega
      simp only [HdCacheNode.setOutMeshData, hout, if_false, if_true, hin]
      exact ih (k + 1) _ (by simp only; omega)

theorem HdCacheNode.setOutMeshes_passthrough_status (data : CacheDataBlock) (poseId : String)
    (meshCache : Option HdMeshCache) :
    ∃ d, HdCacheNode.setOutMeshes data meshCache poseId true
      = some (MStatus.kSuccess, d, meshCache) := by
  unfold HdCacheNode.setOutMeshes
  simp only
  split
  · rw [List.range_eq_range']
    exact HdCacheNode.setOutMeshesLoop_passthrough_status poseId meshCache _ 0 data (by omega)
  · exact ⟨data, rfl⟩

theorem HdCacheNode.compute_miss (node : HdCacheNode) (m : HdCacheMap) (data : CacheDataBlock)
    (cache0 : HdMeshCache)
    (hvalid : node.currentPoseValid = false) (hplay : node.needsEvaluation = false)
    (hdis : node.hdDisabled = false) (hstate : data.state ≠ 1)
    (hcid : data.inCacheIdConnected = true) (hpid : data.inPoseIdConnected = true)
    (hid : data.inCacheId ≠ "")
    (hcache : (HdCacheMap.get m data.inCacheId).1 = some cache0)
    (hmiss : cache0.«exists» data.inPoseId = false) :
    ∃ d, HdCacheNode.compute node m true false data
      = some (MStatus.kSuccess, d,
          HdCacheMap.assign (HdCacheMap.get m data.inCacheId).2.2 data.inCacheId
            (match HdCacheNode.createCacheMeshData data with
              | some meshSet => (cache0.put data.inPoseId meshSet).2
              | none => cache0)) := by
  rw [HdCacheNode.compute_cache_path node m data cache0 hvalid hplay hdis hstate hcid hpid hid
    hcache]
  obtain ⟨d, h1⟩ := HdCacheNode.setOutMeshes_passthrough_status data data.inPoseId (some cache0)
  simp only [hmiss, Bool.not_false, if_true, h1, Option.getD_some]
  cases HdCacheNode.createCacheMeshData data with
  | none => exact ⟨d, rfl⟩
  | some meshSet => exact ⟨d, rfl⟩

theorem HdMeshCache.put_stores (c : HdMeshCache) (poseId : String) (S : HdMeshSet) :
    (c.put poseId S).2.«exists» poseId = true ∧
    ∀ status copyData, ((c.put poseId S).2.get poseId status copyData).meshSet = some S := by
  obtain ⟨rest, hkeys⟩ := HdMeshCache.put_keys_head c poseId S
  have hfind : (c.put poseId S).2.meshCache_.keys_.find? (fun x => x.1 == poseId)
      = some (poseId, S) := by
    rw [hkeys]; simp
  exact ⟨HdMeshCache.exists_of_find _ _ _ hfind, fun status copyData => by
    rw [HdMeshCache.get_meshSet, hfind]; rfl⟩

/-- C21: what the integrity checks of the cache node report. (1)
`setOutMeshData` leaves the data block as it is and returns a status other than
success when the index is not below the number of output slots, or, in
passthrough mode, not below the number of input meshes. (2) `setOutMeshes` in
passthrough mode returns success whatever the numbers of input meshes and
output slots are: it stops at the first index without an output slot and
returns the status it holds, which is success. (3) On a miss with at least one
input mesh and no null input mesh, `compute` stores the set built from all
input meshes, also when the numbers of inputs and outputs differ. -/
theorem integrity_check_reports_success (node : HdCacheNode) (m : HdCacheMap)
    (data : CacheDataBlock) (cache0 : HdMeshCache) (meshCache : Option HdMeshCache)
    (poseId : String) :
    (∀ (i : Nat) (noEffect : Bool),
      (i ≥ data.outMeshes.length ∨ (noEffect = true ∧ i ≥ data.inMeshes.length)) →
      ∃ st, HdCacheNode.setOutMeshData data meshCache poseId i noEffect
          = some (st, data, meshCache) ∧ st ≠ MStatus.kSuccess) ∧
    (∃ d, HdCacheNode.setOutMeshes data meshCache poseId true
        = some (MStatus.kSuccess, d, meshCache)) ∧
    (node.currentPoseValid = false → node.needsEvaluation = false → node.hdDisabled = false →
      data.state ≠ 1 → data.inCacheIdConnected = true → data.inPoseIdConnected = true →
      data.inCacheId ≠ "" → (HdCacheMap.get m data.inCacheId).1 = some cache0 →
      cache0.«exists» data.inPoseId = false →
      data.inMeshes ≠ [] → (∀ o ∈ data.inMeshes, o.isNull = false) →
      ∃ d m' c S, HdCacheNode.compute node m true false data = some (MStatus.kSuccess, d, m') ∧
        HdCacheMap.find m' data.inCacheId = some c ∧ c.«exists» data.inPoseId = true ∧
        (c.get data.inPoseId MStatus.kSuccess false).meshSet = some S ∧
        S.length = data.inMeshes.length) := by
  refine ⟨fun i noEffect h =>
      HdCacheNode.setOutMeshData_out_of_range data meshCache poseId i noEffect h,
    HdCacheNode.setOutMeshes_passthrough_status data poseId meshCache, ?_⟩
  intro hvalid hplay hdis hstate hcid hpid hid hcache hmiss hne hall
  obtain ⟨d, hd⟩ := HdCacheNode.compute_miss node m data cache0 hvalid hplay hdis hstate hcid
    hpid hid hcache hmiss
  obtain ⟨S, hS, hmap⟩ := HdCacheNode.createCacheMeshData_valid data hne hall
  rw [hS] at hd
  obtain ⟨h1, h2⟩ := HdMeshCache.put_stores cache0 data.inPoseId S
  refine ⟨d, _, _, S, hd, HdCacheMap.find_assign _ _ _, h1, h2 _ _, ?_⟩
  rw [← hmap, List.length_map]

set_option maxRecDepth 100000 in
/-- Two input meshes and one output slot: `setOutMeshes` copies the first mesh
and returns success, and `compute` on a miss stores a set of two frames. -/
theorem integrity_check_example :
    (HdCacheNode.setOutMeshes (exCacheData [exTriangle, exTriangle] [MObject.null]) none "17"
        true).map (fun r => (r.1, r.2.1.outMeshes))
      = some (MStatus.kSuccess, [exTriangle]) ∧
    (HdCacheNode.compute exCacheNode [] true false
        (exCacheData [exTriangle, exTriangle] [MObject.null])).map
        (fun r => (r.1, r.2.1.outMeshes,
          (HdCacheMap.find r.2.2 "rig").map (fun c =>
            (c.«exists» "17", ((c.get "17" MStatus.kSuccess false).meshSet.map List.length)))))
      = some (MStatus.kSuccess, [exTriangle], some (true, some 2)) := by
  constructor
  · with_unfolding_all decide
  · with_unfolding_all decide

/-- C26: on a miss (enabled cache node outside forced evaluation, pose id
flagged as changed, both id inputs connected, non-empty cache id, asked for
the `outMeshes` array plug) `compute` succeeds, and the cache registered under
the cache id afterwards is as follows. When there is at least one input mesh
and no input mesh is null, `createCacheMeshData` yields a set with exactly one
frame per input slot, frame `i` giving back input mesh `i`, and the cache
contains the pose id with that set. When there is no input mesh or some input
mesh is null, `createCacheMeshData` yields no set and the cache is the cache
as it was, without an entry for the pose id. So an entry exists afterwards
only if every input slot holds a mesh. -/
theorem cache_entry_produced_atomically (node : HdCacheNode) (m : HdCacheMap)
    (data : CacheDataBlock) (cache0 : HdMeshCache)
    (hvalid : node.currentPoseValid = false) (hplay : node.needsEvaluation = false)
    (hdis : node.hdDisabled = false) (hstate : data.state ≠ 1)
    (hcid : data.inCacheIdConnected = true) (hpid : data.inPoseIdConnected = true)
    (hid : data.inCacheId ≠ "")
    (hcache : (HdCacheMap.get m data.inCacheId).1 = some cache0)
    (hmiss : cache0.«exists» data.inPoseId = false) :
    ∃ d m' c, HdCacheNode.compute node m true false data = some (MStatus.kSuccess, d, m') ∧
      HdCacheMap.find m' data.inCacheId = some c ∧
      ((data.inMeshes ≠ [] ∧ ∀ o ∈ data.inMeshes, o.isNull = false) →
        ∃ S, HdCacheNode.createCacheMeshData data = some S ∧
          S.length = data.inMeshes.length ∧
          (∀ i : Nat, (S[i]?).map HdCacheNode.cachedMesh = data.inMeshes[i]?) ∧
          c.«exists» data.inPoseId = true ∧
          ∀ status copyData, (c.get data.inPoseId status copyData).meshSet = some S) ∧
      ((data.inMeshes = [] ∨ ∃ o ∈ data.inMeshes, o.isNull = true) →
        HdCacheNode.createCacheMeshData data = none ∧ c = cache0 ∧
        c.«exists» data.inPoseId = false) ∧
      (c.«exists» data.inPoseId = true →
        data.inMeshes ≠ [] ∧ ∀ o ∈ data.inMeshes, o.isNull = false) := by
  obtain ⟨d, hd⟩ := HdCacheNode.compute_miss node m data cache0 hvalid hplay hdis hstate hcid
    hpid hid hcache hmiss
  refine ⟨d, _, _, hd, HdCacheMap.find_assign _ _ _, ?_, ?_, ?_⟩
  · rintro ⟨hne, hall⟩
    obtain ⟨S, hS, hmap⟩ := HdCacheNode.createCacheMeshData_valid data hne hall
    obtain ⟨h1, h2⟩ := HdMeshCache.put_stores cache0 data.inPoseId S
    refine ⟨S, hS, by rw [← hmap, List.length_map], ?_, ?_, ?_⟩
    · intro i; rw [← hmap, List.getElem?_map]
    · simp only [hS]; exact h1
    · simp only [hS]; exact h2
  · intro hbad
    have hnone := HdCacheNode.createCacheMeshData_invalid data hbad
    refine ⟨hnone, ?_, ?_⟩
    · simp only [hnone]
    · simp only [hnone]; exact hmiss
  · intro hex
    by_contra hcon
    have hbad : data.inMeshes = [] ∨ ∃ o ∈ data.inMeshes, o.isNull = true := by
      by_cases hne : data.inMeshes = []
      · exact Or.inl hne
      · right
        by_contra hno
        apply hcon
        refine ⟨hne, fun o ho => ?_⟩
        by_contra hnull
        exact hno ⟨o, ho, by simpa using hnull⟩
    have hnone := HdCacheNode.createCacheMeshData_invalid data hbad
    simp only [hnone] at hex
    rw [hmiss] at hex
    exact absurd hex (by decide)

set_option maxRecDepth 100000 in
/-- C26 (witness): a miss on an empty registry with two valid input meshes. -/
theorem cache_entry_produced_atomically_witness :
    ∃ (d : CacheDataBlock) (m' : HdCacheMap) (c : HdMeshCache),
      HdCacheNode.compute exCacheNode [] true false
          (exCacheData [exTriangle, exTriangle] [MObject.null, MObject.null])
        = some (MStatus.kSuccess, d, m') ∧
      HdCacheMap.find m' "rig" = some c ∧
      ∃ S : HdMeshSet, S.length = 2 ∧ c.«exists» "17" = true :=
  match cache_entry_produced_atomically exCacheNode []
    (exCacheData [exTriangle, exTriangle] [MObject.null, MObject.null]) (HdMeshCache.new "rig" 0)
    rfl rfl rfl (by decide) rfl rfl (by decide) rfl rfl with
  | ⟨d, m', c, h1, h2, hvalid, _, _⟩ =>
    ⟨d, m', c, h1, h2,
      match hvalid ⟨by decide, by decide⟩ with
      | ⟨S, _, h3, _, h4, _⟩ => ⟨S, h3, h4⟩⟩

/-! ## Properties of the commands -/

theorem HdCmdCache.doIt_registered (m : HdCacheMap) (a : MArg) (b : MArg) (rest : List MArg)
    (cacheId : String) (c : HdMeshCache) (ha : a.asString = some cacheId) (hid : cacheId ≠ "")
    (hc : HdCacheMap.find m cacheId = some c) :
    HdCmdCache.doIt m (a :: b :: rest)
      = ((HdCmdCache.doItLoop c (b :: rest)).1,
          HdCacheMap.assign m cacheId (HdCmdCache.doItLoop c (b :: rest)).2) := by
  have hex : HdCacheMap.«exists» m cacheId = true := by
    rw [HdCacheMap.exists_iff_find, hc]; rfl
  have hg := HdCacheMap.get_of_registered m cacheId c hid hc
  simp [HdCmdCache.doIt, ha, hex, hg]

theorem HdCmdCache.doIt_cases (m : HdCacheMap) (args : List MArg) :
    ((HdCmdCache.doIt m args).1 ≠ MStatus.kSuccess ∧ (HdCmdCache.doIt m args).2 = m ∧
      (args.length < 2 ∨ (args.head?.bind MArg.asString) = none ∨
        (args.head?.bind MArg.asString) = some "" ∨
        ∃ cacheId, (args.head?.bind MArg.asString) = some cacheId ∧
          HdCacheMap.«exists» m cacheId = false)) ∨
    ∃ a b rest cacheId c, args = a :: b :: rest ∧ a.asString = some cacheId ∧ cacheId ≠ "" ∧
      HdCacheMap.find m cacheId = some c ∧
      HdCmdCache.doIt m args
        = ((HdCmdCache.doItLoop c (b :: rest)).1,
            HdCacheMap.assign m cacheId (HdCmdCache.doItLoop c (b :: rest)).2) := by
  cases args with
  | nil => left; exact ⟨by simp [HdCmdCache.doIt], by simp [HdCmdCache.doIt], Or.inl (by simp)⟩
  | cons a rest =>
    cases rest with
    | nil => left; exact ⟨by simp [HdCmdCache.doIt], by simp [HdCmdCache.doIt], Or.inl (by simp)⟩
    | cons b rest =>
      cases ha : a.asString with
      | none =>
        left
        exact ⟨by simp [HdCmdCache.doIt, ha], by simp [HdCmdCache.doIt, ha],
          Or.inr (Or.inl (by simp [ha]))⟩
      | some cacheId =>
        cases hex : HdCacheMap.«exists» m cacheId with
        | false =>
          left
          exact ⟨by simp [HdCmdCache.doIt, ha, hex], by simp [HdCmdCache.doIt, ha, hex],
            Or.inr (Or.inr (Or.inr ⟨cacheId, by simp [ha], hex⟩))⟩
        | true =>
          by_cases hid : cacheId = ""
          · left
            subst hid
            have hlen : ¬ (rest.length + 1 + 1 < 2) := by omega
            exact ⟨by simp [HdCmdCache.doIt, ha, hex, HdCacheMap.get, hlen],
              by simp [HdCmdCache.doIt, ha, hex, HdCacheMap.get, hlen],
              Or.inr (Or.inr (Or.inl (by simp [ha])))⟩
          · right
            obtain ⟨c, hc⟩ := HdCacheMap.find_of_registered m cacheId hex
            exact ⟨a, b, rest, cacheId, c, rfl, ha, hid, hc,
              HdCmdCache.doIt_registered m a b rest cacheId c ha hid hc⟩

theorem HdCmdCache.doIt_early (m : HdCacheMap) (args : List MArg)
    (h : args.length < 2 ∨ (args.head?.bind MArg.asString) = none ∨
      ∃ cacheId, (args.head?.bind MArg.asString) = some cacheId ∧
        HdCacheMap.«exists» m cacheId = false) :
    HdCmdCache.doIt m args = (MStatus.kFailure, m) := by
  cases args with
  | nil => simp [HdCmdCache.doIt]
  | cons a rest =>
    cases rest with
    | nil => simp [HdCmdCache.doIt]
    | cons b rest =>
      rcases h with h | h | ⟨cacheId, h, hex⟩
      · simp at h
        omega
      · have ha : a.asString = none := by simpa using h
        simp [HdCmdCache.doIt, ha]
      · have ha : a.asString = some cacheId := by simpa using h
        simp [HdCmdCache.doIt, ha, hex]

theorem HdCmdCache.doIt_find_other (m : HdCacheMap) (args : List MArg) (other : String)
    (hother : (args.head?.bind MArg.asString) ≠ some other) :
    HdCacheMap.find (HdCmdCache.doIt m args).2 other = HdCacheMap.find m other := by
  rcases HdCmdCache.doIt_cases m args with ⟨_, h, _⟩ | ⟨a, b, rest, cacheId, c, rfl, ha, _, _, h⟩
  · rw [h]
  · rw [h]
    have hne : other ≠ cacheId := by
      intro h'; apply hother; simp [ha, h']
    exact HdCacheMap.find_assign_ne _ _ _ _ hne

theorem HdCmdCache.doIt_exists (m : HdCacheMap) (args : List MArg) (k : String) :
    HdCacheMap.«exists» (HdCmdCache.doIt m args).2 k = HdCacheMap.«exists» m k := by
  rcases HdCmdCache.doIt_cases m args with ⟨_, h, _⟩ | ⟨a, b, rest, cacheId, c, rfl, ha, _, hc, h⟩
  · rw [h]
  · rw [h, HdCacheMap.exists_iff_find, HdCacheMap.exists_iff_find]
    by_cases hk : k = cacheId
    · subst hk
      rw [HdCacheMap.find_assign, hc]
      rfl
    · rw [HdCacheMap.find_assign_ne _ _ _ _ hk]

theorem HdCmdCache.doItLoop_bad_flag (c : HdMeshCache) (b : MArg) (rest : List MArg)
    (h1 : b.asString ≠ some "-clear") (h2 : b.asString ≠ some "-setMaxMemSize") :
    HdCmdCache.doItLoop c (b :: rest) = (MStatus.kFailure, c) := by
  unfold HdCmdCache.doItLoop
  rw [if_neg h1, if_neg h2]

/-- C22 (amended): for every argument list on which `HdCmdCache::doIt` returns
a failure status, every cache other than the one named by the first argument
is the same after the call as before, and the same cache ids are registered.
The registry is unchanged when the failure is found before the flags are read
(fewer than two arguments, a first argument that cannot be read, an unknown
cache id). For a registered id the named cache afterwards is what the loop
over the flags has made of it: unchanged when the first flag is not
recognised, and otherwise changed by the flags that were applied before the
failure. -/
theorem hdCache_failure_keeps_other_caches (m : HdCacheMap) (args : List MArg)
    (hfail : (HdCmdCache.doIt m args).1 ≠ MStatus.kSuccess) :
    (∀ other, (args.head?.bind MArg.asString) ≠ some other →
      HdCacheMap.find (HdCmdCache.doIt m args).2 other = HdCacheMap.find m other) ∧
    (∀ k, HdCacheMap.«exists» (HdCmdCache.doIt m args).2 k = HdCacheMap.«exists» m k) ∧
    ((args.length < 2 ∨ (args.head?.bind MArg.asString) = none ∨
        ∃ cacheId, (args.head?.bind MArg.asString) = some cacheId ∧
          HdCacheMap.«exists» m cacheId = false) →
      (HdCmdCache.doIt m args).2 = m) ∧
    (∀ a b rest cacheId c, args = a :: b :: rest → a.asString = some cacheId → cacheId ≠ "" →
      HdCacheMap.find m cacheId = some c →
      HdCacheMap.find (HdCmdCache.doIt m args).2 cacheId
        = some (HdCmdCache.doItLoop c (b :: rest)).2 ∧
      (b.asString ≠ some "-clear" → b.asString ≠ some "-setMaxMemSize" →
        HdCacheMap.find (HdCmdCache.doIt m args).2 cacheId = some c)) := by
  refine ⟨fun other h => HdCmdCache.doIt_find_other m args other h,
    fun k => HdCmdCache.doIt_exists m args k,
    fun h => by rw [HdCmdCache.doIt_early m args h], ?_⟩
  intro a b rest cacheId c hargs ha hid hc
  subst hargs
  rw [HdCmdCache.doIt_registered m a b rest cacheId c ha hid hc]
  refine ⟨HdCacheMap.find_assign _ _ _, fun h1 h2 => ?_⟩
  rw [HdCmdCache.doItLoop_bad_flag c b rest h1 h2]
  exact HdCacheMap.find_assign _ _ _

theorem exRegistry_find :
    HdCacheMap.find exRegistry "rig"
      = some ((HdMeshCache.new "rig" 0).put "17" [exTriangleFrame]).2 := by
  simp [HdCacheMap.find, exRegistry]

/-- C22 (witness): the unknown cache id `face` on a registry that holds `rig`. -/
theorem hdCache_failure_keeps_other_caches_witness :
    (HdCmdCache.doIt exRegistry [exArg "face", exArg "-clear"]).2 = exRegistry :=
  (hdCache_failure_keeps_other_caches exRegistry [exArg "face", exArg "-clear"]
    (by rw [HdCmdCache.doIt_early exRegistry [exArg "face", exArg "-clear"]
      (Or.inr (Or.inr ⟨"face", rfl, by simp [HdCacheMap.«exists», exRegistry]⟩))]; decide)).2.2.1
    (Or.inr (Or.inr ⟨"face", rfl, by simp [HdCacheMap.«exists», exRegistry]⟩))

set_option maxRecDepth 100000 in
/-- C22 (counterexample): `hdCache rig -clear -bogus` on a registry whose cache
`rig` holds one entry returns failure, and the cache holds no entry
afterwards. -/
theorem hdCache_failure_after_clear :
    (HdCacheMap.find exRegistry "rig").map HdMeshCache.size = some 1 ∧
    (HdCmdCache.doIt exRegistry [exArg "rig", exArg "-clear", exArg "-bogus"]).1
      = MStatus.kFailure ∧
    (HdCacheMap.find
      (HdCmdCache.doIt exRegistry [exArg "rig", exArg "-clear", exArg "-bogus"]).2 "rig").map
        HdMeshCache.size = some 0 := by
  have h := HdCmdCache.doIt_registered exRegistry (exArg "rig") (exArg "-clear")
    [exArg "-bogus"] "rig" _ rfl (by decide) exRegistry_find
  refine ⟨?_, ?_, ?_⟩
  · rw [exRegistry_find]; with_unfolding_all decide
  · rw [h]; simp [HdCmdCache.doItLoop, exArg]
  · rw [h, HdCacheMap.find_assign]
    simp [HdCmdCache.doItLoop, exArg, HdMeshCache.clear, HdMeshCache.size, LruCache.clear,
      LruCache.size]

theorem HdCmdLog.doIt_failure_iff (current : LogLevel) (args : List MArg) :
    (HdCmdLog.doIt current args).1 ≠ MStatus.kSuccess ↔
      ∃ a b, args = [a, b] ∧ a.asString = some "-verbosity" ∧ b.asInt = none := by
  constructor
  · intro h
    match args, h with
    | [], h => exact absurd rfl h
    | [_], h => exact absurd rfl h
    | _ :: _ :: _ :: _, h => exact absurd rfl h
    | [a, b], h =>
      refine ⟨a, b, rfl, ?_⟩
      simp only [HdCmdLog.doIt] at h
      by_cases ha : a.asString = some "-verbosity"
      · refine ⟨ha, ?_⟩
        rw [if_pos ha] at h
        cases hb : b.asInt with
        | none => rfl
        | some level => rw [hb] at h; exact absurd rfl h
      · rw [if_neg ha] at h; exact absurd rfl h
  · rintro ⟨a, b, rfl, ha, hb⟩
    simp [HdCmdLog.doIt, ha, hb]

theorem HdCmdStats.doItLoop_success_iff (to_string : ℚ → String) (m : HdCacheMap)
    (args : List MArg) :
    ∀ result, (HdCmdStats.doItLoop to_string m args result).1 = MStatus.kSuccess ↔
      ∀ a ∈ args, a.asString = some "-json" := by
  induction args with
  | nil => intro result; simp [HdCmdStats.doItLoop]
  | cons a rest ih =>
    intro result
    unfold HdCmdStats.doItLoop
    by_cases ha : a.asString = some "-json"
    · rw [if_pos ha, ih]
      simp [ha]
    · rw [if_neg ha]
      simp [ha]

/-- C23: the statuses of the three commands. `HdCmdLog::doIt` returns a failure
status only for `-verbosity` followed by an argument that cannot be read as an
integer; for every other argument list, whatever its length and flag, and for
a level outside 0 to 3, it returns success and leaves the log level as it is.
`HdCmdStats::doIt` returns success exactly when every argument is `-json`.
`HdCmdCache::doIt` returns failure and leaves the registry as it is for fewer
than two arguments, an unreadable first argument or an unknown cache id; for a
registered id, `-setMaxMemSize` without a number, or with one that cannot be
read, returns success and leaves the cache as it is. -/
theorem hdLog_reports_success_on_malformed_arguments (current : LogLevel) (m : HdCacheMap)
    (to_string : ℚ → String) (args : List MArg) :
    ((HdCmdLog.doIt current args).1 ≠ MStatus.kSuccess ↔
      ∃ a b, args = [a, b] ∧ a.asString = some "-verbosity" ∧ b.asInt = none) ∧
    (args.length ≠ 2 → HdCmdLog.doIt current args = (MStatus.kSuccess, current)) ∧
    (∀ a b, args = [a, b] → a.asString ≠ some "-verbosity" →
      HdCmdLog.doIt current args = (MStatus.kSuccess, current)) ∧
    (∀ a b level, args = [a, b] → a.asString = some "-verbosity" → b.asInt = some level →
      (level < 0 ∨ 3 < level) → HdCmdLog.doIt current args = (MStatus.kSuccess, current)) ∧
    ((HdCmdStats.doIt to_string m args).1 = MStatus.kSuccess ↔
      ∀ a ∈ args, a.asString = some "-json") ∧
    ((args.length < 2 ∨ (args.head?.bind MArg.asString) = none ∨
        ∃ cacheId, (args.head?.bind MArg.asString) = some cacheId ∧
          HdCacheMap.«exists» m cacheId = false) →
      HdCmdCache.doIt m args = (MStatus.kFailure, m)) ∧
    (∀ a b rest cacheId c, args = a :: b :: rest → a.asString = some cacheId → cacheId ≠ "" →
      HdCacheMap.find m cacheId = some c → b.asString = some "-setMaxMemSize" →
      (rest = [] ∨ ∃ x, rest = [x] ∧ x.asDouble = none) →
      (HdCmdCache.doIt m args).1 = MStatus.kSuccess ∧
      HdCacheMap.find (HdCmdCache.doIt m args).2 cacheId = some c) := by
  refine ⟨HdCmdLog.doIt_failure_iff current args, ?_, ?_, ?_,
    HdCmdStats.doItLoop_success_iff to_string m args none,
    HdCmdCache.doIt_early m args, ?_⟩
  · intro hlen
    match args, hlen with
    | [], _ => rfl
    | [_], _ => rfl
    | _ :: _ :: _ :: _, _ => rfl
    | [a, b], h => exact absurd rfl h
  · rintro a b rfl ha
    simp [HdCmdLog.doIt, ha]
  · rintro a b level rfl ha hb hlevel
    have h0 : level ≠ 0 := by omega
    have h1 : level ≠ 1 := by omega
    have h2 : level ≠ 2 := by omega
    have h3 : level ≠ 3 := by omega
    simp [HdCmdLog.doIt, ha, hb, HdUtils.setLogLevel, h0, h1, h2, h3]
  · rintro a b rest cacheId c rfl ha hid hc hb hrest
    rw [HdCmdCache.doIt_registered m a b rest cacheId c ha hid hc]
    have hclear : b.asString ≠ some "-clear" := by rw [hb]; decide
    have hloop : HdCmdCache.doItLoop c (b :: rest) = (MStatus.kSuccess, c) := by
      rcases hrest with rfl | ⟨x, rfl, hx⟩
      · simp [HdCmdCache.doItLoop, hb]
      · simp [HdCmdCache.doItLoop, hb, hx]
    rw [hloop]
    exact ⟨rfl, HdCacheMap.find_assign _ _ _⟩

/-- Calls of `hdLog` with no argument, with an unknown flag and with the level
7 return success and leave the log level as it is; the level 3 sets `debug`. -/
theorem hdLog_example :
    HdCmdLog.doIt LogLevel.info [] = (MStatus.kSuccess, LogLevel.info) ∧
    HdCmdLog.doIt LogLevel.info [exArg "-bogus"] = (MStatus.kSuccess, LogLevel.info) ∧
    HdCmdLog.doIt LogLevel.info [exArg "-bogus", exArg "3"] = (MStatus.kSuccess, LogLevel.info) ∧
    HdCmdLog.doIt LogLevel.info
      [exArg "-verbosity", { asString := some "7", asDouble := some 7, asInt := some 7 }]
      = (MStatus.kSuccess, LogLevel.info) ∧
    HdCmdLog.doIt LogLevel.info
      [exArg "-verbosity", { asString := some "3", asDouble := some 3, asInt := some 3 }]
      = (MStatus.kSuccess, LogLevel.debug) := by
  refine ⟨rfl, rfl, ?_, ?_, ?_⟩ <;> decide

/-! ## Scaling of the control values -/

theorem HdPose.hashValue_congr (hashString : String → Nat) (hashDouble : ℚ → Nat) (t : String)
    (v w : List ℚ)
    (h : List.Forall₂ (fun a b => hashDouble (a * FLOATING_POINT_HASH_FIX_SCALE)
      = hashDouble (b * FLOATING_POINT_HASH_FIX_SCALE)) v w) :
    (⟨t, v⟩ : HdPose).hashValue hashString hashDouble
      = (⟨t, w⟩ : HdPose).hashValue hashString hashDouble := by
  simp only [HdPose.hashValue]
  generalize hashString t = seed
  induction h generalizing seed with
  | nil => rfl
  | cons hab _ ih =>
    simp only [List.foldl_cons]
    have : ∀ a b : ℚ, hashDouble (a * FLOATING_POINT_HASH_FIX_SCALE)
        = hashDouble (b * FLOATING_POINT_HASH_FIX_SCALE) →
        HdUtils.hash_combine hashDouble seed (a * FLOATING_POINT_HASH_FIX_SCALE)
          = HdUtils.hash_combine hashDouble seed (b * FLOATING_POINT_HASH_FIX_SCALE) := by
      intro a b hab
      simp only [HdUtils.hash_combine, hab]
    rw [this _ _ hab]
    exact ih _

theorem HdUtils.hash_combine_eq_iff {T : Type} (hasher : T → Nat) (seed : Nat) (a b : T) :
    HdUtils.hash_combine hasher seed a = HdUtils.hash_combine hasher seed b ↔
      hasher a % 2 ^ 64 = hasher b % 2 ^ 64 := by
  simp only [HdUtils.hash_combine, Nat.xor_right_inj]
  constructor
  · intro h
    have h1 : (hasher a + (HdUtils.HASH_SEED + (seed <<< 6) % 2 ^ 64 + (seed >>> 2))) % 2 ^ 64
        = (hasher b + (HdUtils.HASH_SEED + (seed <<< 6) % 2 ^ 64 + (seed >>> 2))) % 2 ^ 64 := by
      rw [← Nat.add_assoc, ← Nat.add_assoc, ← Nat.add_assoc, ← Nat.add_assoc]
      exact h
    exact Nat.ModEq.add_right_cancel' _ h1
  · intro h
    have h1 : (hasher a + (HdUtils.HASH_SEED + (seed <<< 6) % 2 ^ 64 + (seed >>> 2))) % 2 ^ 64
        = (hasher b + (HdUtils.HASH_SEED + (seed <<< 6) % 2 ^ 64 + (seed >>> 2))) % 2 ^ 64 :=
      Nat.ModEq.add_right _ h
    rw [← Nat.add_assoc, ← Nat.add_assoc, ← Nat.add_assoc, ← Nat.add_assoc] at h1
    exact h1

/-! ## Boundedness of `HdMeshCache` -/

theorem LruCache.prune_bounded (c : LruCache) (hel : c.elasticity_ = 0) : c.prune.Bounded := by
  unfold LruCache.prune
  split
  · rename_i h
    refine ⟨hel, fun hne => ?_⟩
    rcases h with h | h
    · exact absurd h hne
    · simp only [LruCache.size, hel, Nat.add_zero] at h
      exact Nat.le_of_lt h
  · exact ⟨hel, fun _ => by simp [List.length_take]⟩

theorem length_filter_ne_lt (L : List (String × HdMeshSet)) (k : String)
    (h : ∃ e ∈ L, e.1 = k) :
    (L.filter (fun e => !(e.1 == k))).length + 1 ≤ L.length := by
  induction L with
  | nil => simp at h
  | cons e L ih =>
    simp only [List.filter_cons]
    by_cases he : e.1 = k
    · simp only [he, beq_self_eq_true, Bool.not_true, Bool.false_eq_true, if_false,
        List.length_cons]
      have := List.length_filter_le (fun e : String × HdMeshSet => !(e.1 == k)) L
      omega
    · have hb : (!(e.1 == k)) = true := by simpa using he
      simp only [hb, if_true, List.length_cons]
      have : ∃ e ∈ L, e.1 = k := by
        obtain ⟨e', he', hk⟩ := h
        rcases List.mem_cons.1 he' with rfl | hmem
        · exact absurd hk he
        · exact ⟨e', hmem, hk⟩
      have := ih this
      omega

theorem LruCache.insert_bounded (c : LruCache) (k : String) (v : HdMeshSet) (h : c.Bounded) :
    (c.insert k v).Bounded := by
  unfold LruCache.insert
  split
  · rename_i hc
    refine ⟨h.1, fun hne => ?_⟩
    have hex : ∃ e ∈ c.keys_, e.1 = k := by
      simpa [LruCache.contains] using hc
    have := length_filter_ne_lt c.keys_ k hex
    have := h.2 hne
    simp only [List.length_cons]
    omega
  · exact LruCache.prune_bounded _ h.1

theorem LruCache.get_bounded (c : LruCache) (k : String) (v : HdMeshSet) (l : LruCache)
    (h : c.Bounded) (hg : c.get k = some (v, l)) : l.Bounded ∧ l.maxSize_ = c.maxSize_ := by
  unfold LruCache.get at hg
  split at hg
  · rename_i e hfind
    have hl : l = { c with keys_ := e :: c.keys_.filter (fun e => !(e.1 == k)) } := by
      have := Option.some.inj hg
      exact (Prod.mk.inj this).2.symm
    subst hl
    refine ⟨⟨h.1, fun hne => ?_⟩, rfl⟩
    have hex : ∃ e ∈ c.keys_, e.1 = k :=
      ⟨e, List.mem_of_find?_eq_some hfind, by simpa using List.find?_some hfind⟩
    have := length_filter_ne_lt c.keys_ k hex
    have := h.2 hne
    simp only [List.length_cons]
    omega
  · cases hg

theorem HdMeshCache.apply_bounded (c : HdMeshCache) (op : MeshCacheOp)
    (h : c.meshCache_.Bounded) :
    (c.apply op).meshCache_.Bounded ∧ (c.maxSize ≠ 0 → (c.apply op).maxSize = c.maxSize) := by
  cases op with
  | put poseId meshSet =>
    refine ⟨?_, fun hne => ?_⟩
    · simp only [HdMeshCache.apply, HdMeshCache.put]
      apply LruCache.insert_bounded
      split
      · simp only [HdMeshCache.applyMaxMemSize]
        split
        · exact h
        · exact LruCache.prune_bounded _ h.1
      · exact h
    · simp only [HdMeshCache.apply]
      rw [HdMeshCache.put_maxSize, if_neg hne]
  | get poseId status copyData =>
    simp only [HdMeshCache.apply, HdMeshCache.get, LruCache.getCopy]
    by_cases hc : c.meshCache_.contains poseId = true
    · simp only [hc, if_true]
      cases hg : c.meshCache_.get poseId with
      | none => cases copyData <;> exact ⟨h, fun _ => rfl⟩
      | some r =>
        obtain ⟨v, l⟩ := r
        obtain ⟨h1, h2⟩ := LruCache.get_bounded c.meshCache_ poseId v l h hg
        cases copyData <;> exact ⟨h1, fun _ => h2⟩
    · simp only [hc, Bool.false_eq_true, if_false]
      exact ⟨h, by simp⟩
  | «exists» poseId => exact ⟨h, fun _ => rfl⟩
  | clear =>
    refine ⟨⟨h.1, fun _ => ?_⟩, fun _ => rfl⟩
    simp [HdMeshCache.apply, HdMeshCache.clear, LruCache.clear]

theorem HdMeshCache.applyAll_bounded (ops : List MeshCacheOp) :
    ∀ c : HdMeshCache, c.meshCache_.Bounded →
      (c.applyAll ops).meshCache_.Bounded ∧
      (c.maxSize ≠ 0 → (c.applyAll ops).maxSize = c.maxSize) := by
  induction ops with
  | nil => intro c h; exact ⟨h, fun _ => rfl⟩
  | cons op ops ih =>
    intro c h
    obtain ⟨h1, h2⟩ := HdMeshCache.apply_bounded c op h
    obtain ⟨h3, h4⟩ := ih (c.apply op) h1
    refine ⟨h3, fun hne => ?_⟩
    have h5 := h2 hne
    have : (c.apply op).maxSize ≠ 0 := by rw [h5]; exact hne
    exact (h4 this).trans h5

/-- C25: for every cache whose capacity `n` is greater than 0, whose container
has no elasticity and which holds at most `n` entries, and every sequence of
put, get, exists and clear calls, the capacity after the sequence is still `n`
and the cache holds at most `n` entries; the sequence may stop after any of
its calls. Every cache reached from a newly constructed one by such calls has
no elasticity and holds at most as many entries as its capacity when that is
greater than 0. -/
theorem cache_size_bounded_by_capacity (c : HdMeshCache) (n : Nat) (ops : List MeshCacheOp)
    (hcap : c.maxSize = n) (hpos : 0 < n) (hel : c.meshCache_.elasticity_ = 0)
    (hsize : c.size ≤ n) :
    (c.applyAll ops).maxSize = n ∧ (c.applyAll ops).size ≤ n ∧
    ∀ (cacheId : String) (k : Nat) (before : List MeshCacheOp),
      ((HdMeshCache.new cacheId k).applyAll before).meshCache_.elasticity_ = 0 ∧
      (0 < ((HdMeshCache.new cacheId k).applyAll before).maxSize →
        ((HdMeshCache.new cacheId k).applyAll before).size
          ≤ ((HdMeshCache.new cacheId k).applyAll before).maxSize) := by
  have hb : c.meshCache_.Bounded := by
    refine ⟨hel, fun _ => ?_⟩
    have h1 : c.meshCache_.maxSize_ = n := hcap
    rw [h1]
    exact hsize
  have hne : c.maxSize ≠ 0 := by omega
  obtain ⟨h1, h2⟩ := HdMeshCache.applyAll_bounded ops c hb
  have hmax := (h2 hne).trans hcap
  refine ⟨hmax, ?_, ?_⟩
  · have h3 : (c.applyAll ops).meshCache_.maxSize_ = n := hmax
    have := h1.2 (by omega)
    rw [h3] at this
    exact this
  · intro cacheId k before
    have hnew : (HdMeshCache.new cacheId k).meshCache_.Bounded :=
      ⟨rfl, fun _ => Nat.zero_le _⟩
    obtain ⟨h3, _⟩ := HdMeshCache.applyAll_bounded before _ hnew
    refine ⟨h3.1, fun hp => h3.2 ?_⟩
    have : ((HdMeshCache.new cacheId k).applyAll before).meshCache_.maxSize_
        = ((HdMeshCache.new cacheId k).applyAll before).maxSize := rfl
    omega

set_option maxRecDepth 100000 in
/-- C25 (witness): a cache of capacity 2 after three puts, a get and an exists. -/
theorem cache_size_bounded_by_capacity_witness :
    ((HdMeshCache.new "rig" 2).applyAll
      [MeshCacheOp.put "a" [exTriangleFrame], MeshCacheOp.put "b" [exTriangleFrame],
       MeshCacheOp.get "a" MStatus.kSuccess false, MeshCacheOp.put "c" [exTriangleFrame],
       MeshCacheOp.«exists» "b"]).size ≤ 2 :=
  (cache_size_bounded_by_capacity (HdMeshCache.new "rig" 2) 2
    [MeshCacheOp.put "a" [exTriangleFrame], MeshCacheOp.put "b" [exTriangleFrame],
     MeshCacheOp.get "a" MStatus.kSuccess false, MeshCacheOp.put "c" [exTriangleFrame],
     MeshCacheOp.«exists» "b"] rfl (by decide) rfl (by decide)).2.1

/-! ## Reset of the evaluator and selective cluster evaluation -/

theorem HdEvaluator.collectHdPoseNodes_fullyCached (scene : List SceneNode) :
    ∀ e : HdEvaluator, (e.collectHdPoseNodes scene).fullyCached = e.fullyCached := by
  induction scene with
  | nil => intro e; rfl
  | cons n scene ih =>
    intro e
    simp only [HdEvaluator.collectHdPoseNodes, List.foldl_cons] at ih ⊢
    rw [ih]
    split
    · rfl
    · split <;> rfl

theorem HdEvaluator.collectOutputMeshes_fullyCached (scene : List SceneNode) :
    ∀ e : HdEvaluator, (e.collectOutputMeshes scene).fullyCached = e.fullyCached := by
  induction scene with
  | nil => intro e; rfl
  | cons n scene ih =>
    intro e
    simp only [HdEvaluator.collectOutputMeshes, List.foldl_cons] at ih ⊢
    rw [ih]
    split
    · rfl
    · split
      · rfl
      · split
        · rfl
        · split <;> rfl

theorem HdEvaluator.collectWhitelistNodes_fullyCached (scene : List SceneNode) :
    ∀ e : HdEvaluator, (e.collectWhitelistNodes scene).fullyCached = e.fullyCached := by
  induction scene with
  | nil => intro e; rfl
  | cons n scene ih =>
    intro e
    simp only [HdEvaluator.collectWhitelistNodes, List.foldl_cons] at ih ⊢
    rw [ih]
    split
    · rfl
    · split
      · rfl
      · split
        · rfl
        · split <;> rfl

theorem HdEvaluator.evaluatorInit_fullyCached (e : HdEvaluator) (scene : List SceneNode) :
    (e.evaluatorInit scene).fullyCached = e.fullyCached := by
  unfold HdEvaluator.evaluatorInit
  simp only
  split
  · exact HdEvaluator.collectHdPoseNodes_fullyCached scene e
  · simp only [HdEvaluator.collectWhitelistNodes_fullyCached,
      HdEvaluator.collectOutputMeshes_fullyCached]
    exact HdEvaluator.collectHdPoseNodes_fullyCached scene e

theorem HdEvaluator.call_fullyCached (e : HdEvaluator) (c : HostCall)
    (hc : c.isPreEvaluate = false) : (e.call c).fullyCached = e.fullyCached := by
  cases c with
  | markIfSupported scene =>
    simp only [HdEvaluator.call, HdEvaluator.markIfSupported]
    split
    · exact HdEvaluator.evaluatorInit_fullyCached e scene
    · rfl
  | preEvaluate anim read => simp [HostCall.isPreEvaluate] at hc
  | postEvaluate => rfl
  | clusterInitialize _ => rfl
  | clusterEvaluate _ => rfl
  | clusterTerminate =>
    simp only [HdEvaluator.call, HdEvaluator.clusterTerminate]
    split <;> rfl
  | evaluatorReset => rfl

theorem HdEvaluator.callAll_fullyCached (calls : List HostCall) :
    ∀ e : HdEvaluator, (∀ c ∈ calls, c.isPreEvaluate = false) →
      (e.callAll calls).fullyCached = e.fullyCached := by
  induction calls with
  | nil => intro e _; rfl
  | cons c calls ih =>
    intro e h
    have h1 := HdEvaluator.call_fullyCached e c (h c (List.mem_cons_self _ _))
    have h2 := ih (e.call c) (fun c' hc' => h c' (List.mem_cons_of_mem _ hc'))
    exact h2.trans h1

theorem HdEvaluator.call_unavailable (e : HdEvaluator) (c : HostCall)
    (ha : e.hdAvailable = false) (hc : c.isMark = false) : (e.call c).hdAvailable = false := by
  cases c with
  | markIfSupported scene => simp [HostCall.isMark] at hc
  | preEvaluate anim read => exact (HdEvaluator.preEvaluate_frame e anim read).1.trans ha
  | postEvaluate => exact ha
  | clusterInitialize _ => exact ha
  | clusterEvaluate _ => exact ha
  | clusterTerminate =>
    simp only [HdEvaluator.call, HdEvaluator.clusterTerminate]
    split
    · rfl
    · exact ha
  | evaluatorReset => rfl

theorem HdEvaluator.callAll_unavailable (calls : List HostCall) :
    ∀ e : HdEvaluator, e.hdAvailable = false → (∀ c ∈ calls, c.isMark = false) →
      (e.callAll calls).hdAvailable = false := by
  induction calls with
  | nil => intro e ha _; exact ha
  | cons c calls ih =>
    intro e ha h
    exact ih (e.call c) (HdEvaluator.call_unavailable e c ha (h c (List.mem_cons_self _ _)))
      (fun c' hc' => h c' (List.mem_cons_of_mem _ hc'))

theorem HdEvaluator.clusterEvaluate_selective (e : HdEvaluator)
    (cluster : MCustomEvaluatorClusterNode)
    (h : e.clusterEvaluate cluster ≠ cluster.nodes) :
    e.hdAvailable = true ∧ e.fullyCached = true := by
  by_contra hcon
  apply h
  apply HdEvaluator.clusterEvaluate_normal
  cases hf : e.fullyCached
  · exact Or.inl rfl
  · cases ha : e.hdAvailable
    · exact Or.inr rfl
    · exact absurd ⟨ha, hf⟩ hcon

/-- C28 (amended): `HdEvaluator::clusterEvaluate` executes every node of the
cluster when the gate is not available, the pass is not fully cached, or the
node iterator cannot be constructed. For an available gate in a fully cached
pass it executes, of the nodes after the first, exactly those that are
whitelisted, pose or cache nodes, or registered mesh outputs. The step that
accepts every node without looking at it is `markIfSupported`, which returns
true before its selective statements. -/
theorem clusterEvaluate_selective_when_fully_cached (e : HdEvaluator)
    (cluster : MCustomEvaluatorClusterNode) (scene : List SceneNode) :
    ((e.hdAvailable = false ∨ e.fullyCached = false ∨ cluster.iteratorOk = false) →
      e.clusterEvaluate cluster = cluster.nodes) ∧
    ((e.hdAvailable = true ∧ e.fullyCached = true ∧ cluster.iteratorOk = true) →
      e.clusterEvaluate cluster = cluster.nodes.tail.filter e.evaluatesNode) ∧
    (e.markIfSupported scene).2 = true := by
  refine ⟨?_, ?_, rfl⟩
  · rintro (h | h | h)
    · exact HdEvaluator.clusterEvaluate_normal e cluster (Or.inr h)
    · exact HdEvaluator.clusterEvaluate_normal e cluster (Or.inl h)
    · unfold HdEvaluator.clusterEvaluate
      simp [h]
  · rintro ⟨h1, h2, h3⟩
    unfold HdEvaluator.clusterEvaluate
    simp only [h1, h2, h3, Bool.and_self, if_true]
    exact HdEvaluator.clusterEvaluateLoop_eq e cluster.nodes

/-- C28 (counterexample): an available gate in a fully cached pass and a
cluster of five nodes; `clusterEvaluate` executes three of them and leaves out
both plain intermediate nodes. -/
theorem clusterEvaluate_leaves_out_instances :
    ((HdEvaluator.new.markIfSupported exScene).1.preEvaluate exPlayback
      (fun _ => exFrozen)).clusterEvaluate
        { iteratorOk := true,
          nodes := [exIntermediate, exWhitelisted, exOutputMesh, exIntermediate, exCache] }
      = [exWhitelisted, exOutputMesh, exCache] := by
  decide

/-! ## The remembered pose id of the cache node -/

theorem HdCacheNode.preEvaluation_lastPoseId (node : HdCacheNode)
    (contextIsNormal dirtyPlugExists : Bool) (dirtyPlug : Option String) (anim : MAnimControl) :
    (node.preEvaluation contextIsNormal dirtyPlugExists dirtyPlug anim).2.lastPoseId
      = node.lastPoseId := by
  unfold HdCacheNode.preEvaluation
  cases contextIsNormal <;> cases dirtyPlugExists <;> cases dirtyPlug <;> rfl

theorem HdCacheNode.preEvaluateAll_lastPoseId (passes : List CachePreEvaluation) :
    ∀ node : HdCacheNode, (node.preEvaluateAll passes).lastPoseId = node.lastPoseId := by
  induction passes with
  | nil => intro node; rfl
  | cons p passes ih =>
    intro node
    simp only [HdCacheNode.preEvaluateAll, List.foldl_cons] at ih ⊢
    rw [ih, HdCacheNode.preEvaluation_lastPoseId]

/-- C30: the member `lastPoseId` is the empty string on every cache node: the
constructor sets it and `preEvaluation` does not assign it. For such a node,
`preEvaluation` in a normal context with a dirty pose-id plug sets
`currentPoseValid` to false, whatever the new pose id is, and sets `hdDisabled`
exactly for the empty pose id. After `preEvaluation` the guard of the early
return of `compute` (`currentPoseValid && !needsEvaluation`) holds if and only
if the context is normal, the pose-id plug is not dirty and playback is
active; in that case `compute` returns success at once and changes nothing. -/
theorem lastPoseId_never_updated (node : HdCacheNode) (hlast : node.lastPoseId = "")
    (contextIsNormal dirtyPlugExists : Bool) (dirtyPlug : Option String) (anim : MAnimControl) :
    (∀ (needsEvaluation : Bool) (passes : List CachePreEvaluation),
      ((HdCacheNode.new needsEvaluation).preEvaluateAll passes).lastPoseId = "") ∧
    (node.preEvaluation contextIsNormal dirtyPlugExists dirtyPlug anim).2.lastPoseId = "" ∧
    (contextIsNormal = true → dirtyPlugExists = true →
      (node.preEvaluation contextIsNormal dirtyPlugExists dirtyPlug anim).2.currentPoseValid
        = false) ∧
    (∀ newPoseId, contextIsNormal = true → dirtyPlugExists = true →
      dirtyPlug = some newPoseId →
      (node.preEvaluation contextIsNormal dirtyPlugExists dirtyPlug anim).2.hdDisabled
        = (newPoseId == "")) ∧
    ((((node.preEvaluation contextIsNormal dirtyPlugExists dirtyPlug anim).2.currentPoseValid &&
        !(node.preEvaluation contextIsNormal dirtyPlugExists dirtyPlug anim).2.needsEvaluation)
        = true) ↔
      (contextIsNormal = true ∧ dirtyPlugExists = false ∧ HdUtils.playbackActive anim = true)) ∧
    (∀ (m : HdCacheMap) (plugIsOutMeshes plugIsElement : Bool) (data : CacheDataBlock),
      (contextIsNormal = true ∧ dirtyPlugExists = false ∧ HdUtils.playbackActive anim = true) →
      HdCacheNode.compute (node.preEvaluation contextIsNormal dirtyPlugExists dirtyPlug anim).2 m
        plugIsOutMeshes plugIsElement data = some (MStatus.kSuccess, data, m)) := by
  have hvalid : ∀ s : String, (("" == s) && (s != "")) = false := by
    intro s
    by_cases h : s = ""
    · subst h; rfl
    · have : ("" == s) = false := by simpa using fun h' => h h'.symm
      simp [this]
  refine ⟨?_, ?_, ?_, ?_, ?_, ?_⟩
  · intro ne passes
    rw [HdCacheNode.preEvaluateAll_lastPoseId]; rfl
  · rw [HdCacheNode.preEvaluation_lastPoseId]; exact hlast
  · rintro rfl rfl
    cases dirtyPlug with
    | none => rfl
    | some s => simp only [HdCacheNode.preEvaluation, hlast, if_true]; exact hvalid s
  · rintro s rfl rfl rfl
    rfl
  · cases contextIsNormal <;> cases dirtyPlugExists <;> cases dirtyPlug <;>
      simp [HdCacheNode.preEvaluation, hlast, hvalid]
  · rintro m pO pE data ⟨rfl, rfl, hplay⟩
    apply HdCacheNode.compute_early_return
    · rfl
    · simp [HdCacheNode.preEvaluation, hplay]

/-- C30 (witness): a new cache node, a normal context and the dirty pose id
`17`. -/
theorem lastPoseId_never_updated_witness :
    ((HdCacheNode.new true).preEvaluation true true (some "17") exPlayback).2.currentPoseValid
      = false :=
  (lastPoseId_never_updated (HdCacheNode.new true) rfl true true (some "17") exPlayback).2.2.1
    rfl rfl

/-! ## The statistics text -/

theorem intercalate_go_append (s : String) (l : List String) :
    ∀ a b : String, String.intercalate.go (a ++ b) s l = a ++ String.intercalate.go b s l := by
  induction l with
  | nil => intro a b; rfl
  | cons x l ih =>
    intro a b
    simp only [String.intercalate.go]
    rw [String.append_assoc, String.append_assoc, ih, String.append_assoc]

theorem HdCacheMap.getStatsJsonLoop_eq (to_string : ℚ → String) (m : HdCacheMap) :
    ∀ result : String, HdCacheMap.getStatsJsonLoop to_string m false result
      = String.intercalate.go result ", "
          (m.map (fun e => HdCacheMap.statsSubstring to_string e.2)) := by
  induction m with
  | nil => intro result; rfl
  | cons e m ih =>
    intro result
    simp only [HdCacheMap.getStatsJsonLoop, List.map_cons, String.intercalate.go, ih,
      Bool.not_false, if_true, String.append_assoc]

theorem HdCacheMap.getStatsJson_eq (to_string : ℚ → String) (m : HdCacheMap) :
    HdCacheMap.getStatsJson to_string m
      = "[" ++ ", ".intercalate (m.map (fun e => HdCacheMap.statsSubstring to_string e.2))
          ++ "]" := by
  cases m with
  | nil => rfl
  | cons e m =>
    simp only [HdCacheMap.getStatsJson, HdCacheMap.getStatsJsonLoop, List.map_cons,
      String.intercalate, Bool.not_true, Bool.false_eq_true, if_false,
      HdCacheMap.getStatsJsonLoop_eq, String.empty_append]
    rw [intercalate_go_append]

theorem HdCacheMap.assign_keys (m : HdCacheMap) (cacheId : String) (c : HdMeshCache) :
    ∀ k ∈ (HdCacheMap.assign m cacheId c).map Prod.fst, k = cacheId ∨ k ∈ m.map Prod.fst := by
  induction m with
  | nil => intro k hk; simp [HdCacheMap.assign] at hk; exact Or.inl hk
  | cons e m ih =>
    intro k hk
    unfold HdCacheMap.assign at hk
    split at hk
    · simp only [List.map_cons, List.mem_cons] at hk ⊢
      rcases hk with h | h
      · exact Or.inl h
      · exact Or.inr (Or.inr h)
    · split at hk
      · simp only [List.map_cons, List.mem_cons] at hk ⊢
        rcases hk with h | h | h
        · exact Or.inl h
        · exact Or.inr (Or.inl h)
        · exact Or.inr (Or.inr h)
      · simp only [List.map_cons, List.mem_cons] at hk ⊢
        rcases hk with h | h
        · exact Or.inr (Or.inl h)
        · rcases ih k h with h' | h'
          · exact Or.inl h'
          · exact Or.inr (Or.inr h')

theorem HdCacheMap.assign_sorted (m : HdCacheMap) (cacheId : String) (c : HdMeshCache)
    (h : (m.map Prod.fst).Pairwise (· < ·)) :
    ((HdCacheMap.assign m cacheId c).map Prod.fst).Pairwise (· < ·) := by
  induction m with
  | nil => simp [HdCacheMap.assign]
  | cons e m ih =>
    simp only [List.map_cons, List.pairwise_cons] at h
    unfold HdCacheMap.assign
    split
    · rename_i he
      simp only [List.map_cons, List.pairwise_cons]
      exact ⟨fun k hk => he ▸ h.1 k hk, h.2⟩
    · rename_i hne
      split
      · rename_i hlt
        simp only [List.map_cons, List.pairwise_cons, List.mem_cons]
        refine ⟨?_, h.1, h.2⟩
        rintro k (rfl | hk)
        · exact hlt
        · exact lt_trans hlt (h.1 k hk)
      · rename_i hnlt
        simp only [List.map_cons, List.pairwise_cons]
        refine ⟨?_, ih h.2⟩
        intro k hk
        rcases HdCacheMap.assign_keys m cacheId c k hk with rfl | hk'
        · rcases lt_trichotomy e.1 k with h1 | h1 | h1
          · exact h1
          · exact absurd h1 hne
          · exact absurd h1 hnlt
        · exact h.1 k hk'

theorem HdCacheMap.get_sorted (m : HdCacheMap) (cacheId : String)
    (h : (m.map Prod.fst).Pairwise (· < ·)) :
    ((HdCacheMap.get m cacheId).2.2.map Prod.fst).Pairwise (· < ·) := by
  unfold HdCacheMap.get
  split
  · exact h
  · cases HdCacheMap.find m cacheId with
    | some c => exact h
    | none => exact HdCacheMap.assign_sorted m cacheId _ h

theorem HdCacheMap.perform_sorted (m : HdCacheMap) (op : RegistryOp)
    (h : (m.map Prod.fst).Pairwise (· < ·)) :
    ((HdCacheMap.perform m op).map Prod.fst).Pairwise (· < ·) := by
  cases op with
  | get cacheId => exact HdCacheMap.get_sorted m cacheId h
  | put cacheId poseId meshSet =>
    simp only [HdCacheMap.perform]
    cases (HdCacheMap.get m cacheId).1 with
    | none => exact HdCacheMap.get_sorted m cacheId h
    | some c => exact HdCacheMap.assign_sorted _ cacheId _ (HdCacheMap.get_sorted m cacheId h)
  | clearCaches =>
    simp only [HdCacheMap.perform, HdCacheMap.clearCaches, List.map_map]
    exact h

theorem HdCacheMap.performAll_sorted (ops : List RegistryOp) :
    ∀ m : HdCacheMap, (m.map Prod.fst).Pairwise (· < ·) →
      ((HdCacheMap.performAll m ops).map Prod.fst).Pairwise (· < ·) := by
  induction ops with
  | nil => intro m h; exact h
  | cons op ops ih => intro m h; exact ih _ (HdCacheMap.perform_sorted m op h)

/-- C29: the text of `HdCacheMap::getStatsJson`. For the empty registry it is
`[]`; in general it is `[`, the objects of the registered caches in registry
order joined by a comma and a blank, and `]`. The object of a cache carries
the keys `id`, `size`, `max_size`, `item_mem_size`, `current_mem_size` and
`max_mem_size` in this order, the id verbatim between quotes, the two counts
in decimal and the three sizes as `std::to_string` prints them, where the
current size is the item size times the number of entries. The item size of a
cache after a put is the size of the set put. In every registry built from the
empty one by gets, puts and `clearCaches` the cache ids are strictly
ascending. -/
theorem getStatsJson_lists_caches_in_order (to_string : ℚ → String) (m : HdCacheMap)
    (ops : List RegistryOp) (c : HdMeshCache) (poseId : String) (meshSet : HdMeshSet) :
    HdCacheMap.getStatsJson to_string [] = "[]" ∧
    HdCacheMap.getStatsJson to_string m
      = "[" ++ ", ".intercalate (m.map (fun e => HdCacheMap.statsSubstring to_string e.2))
          ++ "]" ∧
    HdCacheMap.statsSubstring to_string c
      = "\x7b\"id\": \"" ++ c.cacheId ++ "\", " ++
        "\"size\": " ++ toString c.size ++ ", " ++
        "\"max_size\": " ++ toString c.maxSize ++ ", " ++
        "\"item_mem_size\": " ++ to_string c.itemMemSize ++ ", " ++
        "\"current_mem_size\": " ++ to_string (c.itemMemSize * c.size) ++ ", " ++
        "\"max_mem_size\": " ++ to_string c.maxMemSize ++ "\x7d" ∧
    (c.put poseId meshSet).2.itemMemSize = HdMeshSet.memSize meshSet ∧
    ((HdCacheMap.performAll [] ops).map Prod.fst).Pairwise (· < ·) := by
  refine ⟨rfl, HdCacheMap.getStatsJson_eq to_string m, rfl, rfl,
    HdCacheMap.performAll_sorted ops [] List.Pairwise.nil⟩

set_option maxRecDepth 100000 in
/-- The text for a registry with the caches `rig` and `face`, created in this
order, after a put of an empty set into `rig`. -/
theorem getStatsJson_example :
    HdCacheMap.getStatsJson exToString
      (HdCacheMap.performAll [] [RegistryOp.get "rig", RegistryOp.get "face",
        RegistryOp.put "rig" "17" exEmptySet])
      = "[\x7b\"id\": \"face\", \"size\": 0, \"max_size\": 0, \"item_mem_size\": 0/1, " ++
        "\"current_mem_size\": 0/1, \"max_mem_size\": 512000/1\x7d, " ++
        "\x7b\"id\": \"rig\", \"size\": 1, \"max_size\": 0, \"item_mem_size\": 0/1, " ++
        "\"current_mem_size\": 0/1, \"max_mem_size\": 512000/1\x7d]" := by
  with_unfolding_all decide

/-! ## The pass flag and the object hash codes of the pose nodes -/

theorem setInsert_nodup (s : List Nat) (x : Nat) (h : s.Nodup) : (setInsert s x).Nodup := by
  unfold setInsert
  split
  · exact h
  · rename_i hx
    exact List.nodup_cons.2 ⟨hx, h⟩

theorem cachedAfter_nodup (read : MNode → PosePlugs) (nodes : List MNode) :
    ∀ s, s.Nodup → (cachedAfter read s nodes).Nodup := by
  induction nodes with
  | nil => intro s h; exact h
  | cons n nodes ih =>
    intro s h
    have step : cachedAfter read s (n :: nodes)
        = cachedAfter read (HdEvaluator.preEvaluateNode s n (read n)) nodes := rfl
    rw [step]
    apply ih
    rw [HdEvaluator.preEvaluateNode_eq]
    split
    · exact setInsert_nodup s _ h
    · exact h

/-- The set of cached poses has at most as many elements as there are
different hash codes among the pose nodes. -/
theorem cachedAfter_length_le_dedup (read : MNode → PosePlugs) (nodes : List MNode) :
    (cachedAfter read [] nodes).length ≤ (nodes.map MNode.objectHashCode).dedup.length := by
  have hnd := cachedAfter_nodup read nodes [] List.nodup_nil
  have hsub : cachedAfter read [] nodes ⊆ (nodes.map MNode.objectHashCode).dedup := by
    intro x hx
    rcases mem_cachedAfter read nodes [] x hx with h | ⟨n, hn, rfl⟩
    · simp at h
    · exact List.mem_dedup.2 (List.mem_map_of_mem _ hn)
  exact (List.subperm_of_subset hnd hsub).length_le

theorem nodup_of_cachedAfter_length (read : MNode → PosePlugs) (nodes : List MNode)
    (h : (cachedAfter read [] nodes).length = nodes.length) :
    (nodes.map MNode.objectHashCode).Nodup := by
  have h1 := cachedAfter_length_le_dedup read nodes
  have h2 : (nodes.map MNode.objectHashCode).length
      ≤ (nodes.map MNode.objectHashCode).dedup.length := by
    rw [List.length_map]
    omega
  have h3 := (List.dedup_sublist (nodes.map MNode.objectHashCode)).eq_of_length_le h2
  exact List.dedup_eq_self.1 h3

/-- The flag `fullyCached` after `preEvaluate`, in terms of what the pass
reads from the pose nodes. -/
theorem HdEvaluator.fullyCached_after_preEvaluate (e : HdEvaluator)
    (anim : MAnimControl) (read : MNode → PosePlugs) :
    (e.preEvaluate anim read).fullyCached = true ↔
      (e.hdAvailable = true ∧ HdUtils.playbackActive anim = true ∧
        (∀ oNode ∈ e.poseNodes, readsFrozen oNode (read oNode) = true) ∧
        (e.poseNodes.map MNode.objectHashCode).Nodup) := by
  rw [HdEvaluator.preEvaluate_fullyCached]
  simp only [Bool.and_eq_true, decide_eq_true_eq]
  constructor
  · rintro ⟨⟨ha, hp⟩, hlen⟩
    have hnd := nodup_of_cachedAfter_length read e.poseNodes hlen
    have hl := cachedAfter_length read e.poseNodes [] hnd (by simp)
    rw [hlen, List.length_nil, Nat.zero_add] at hl
    exact ⟨ha, hp, (filter_length_eq_iff _ _).1 hl.symm, hnd⟩
  · rintro ⟨ha, hp, hall, hnd⟩
    refine ⟨⟨ha, hp⟩, ?_⟩
    rw [cachedAfter_length read e.poseNodes [] hnd (by simp), List.length_nil, Nat.zero_add]
    exact (filter_length_eq_iff _ _).2 hall

/-- C4 (amended): after `preEvaluate` the flag `fullyCached` is true if and
only if the gate is available, playback is active, every pose node collected at
initialization reads frozen (all its host calls succeed and the rig-frozen plug
is true) and the pose nodes carry pairwise different object hash codes. -/
theorem preEvaluate_fullyCached_iff_frozen_and_distinct (e : HdEvaluator)
    (anim : MAnimControl) (read : MNode → PosePlugs) :
    (e.preEvaluate anim read).fullyCached = true ↔
      (e.hdAvailable = true ∧ HdUtils.playbackActive anim = true ∧
        (∀ oNode ∈ e.poseNodes, readsFrozen oNode (read oNode) = true) ∧
        (e.poseNodes.map MNode.objectHashCode).Nodup) :=
  HdEvaluator.fullyCached_after_preEvaluate e anim read

/-- C4 (counterexample): a gate initialised on a scene with two pose nodes that
share an object hash code. The gate is available, playback is active and both
pose nodes read frozen, and after `preEvaluate` the flag `fullyCached` is
false: the set of cached poses holds one code for two pose nodes. -/
theorem preEvaluate_not_fullyCached_on_shared_hash_code :
    (HdEvaluator.new.markIfSupported exTwinScene).1.poseNodes = [exPoseA, exPoseTwin] ∧
    exPoseA ≠ exPoseTwin ∧
    (HdEvaluator.new.markIfSupported exTwinScene).1.hdAvailable = true ∧
    HdUtils.playbackActive exPlayback = true ∧
    (∀ oNode ∈ (HdEvaluator.new.markIfSupported exTwinScene).1.poseNodes,
      readsFrozen oNode exFrozen = true) ∧
    ((HdEvaluator.new.markIfSupported exTwinScene).1.preEvaluate exPlayback
      (fun _ => exFrozen)).cachedPoses = [1] ∧
    ((HdEvaluator.new.markIfSupported exTwinScene).1.preEvaluate exPlayback
      (fun _ => exFrozen)).fullyCached = false := by
  decide

/-! ## A rig-frozen output that `compute` leaves as it is -/

/-- C7 (counterexample): an enabled pose node in playback that has no cache-id
element, hence no connected cache, and whose rig-frozen output holds true.
Asked for the pose-id plug, `compute` fails in `setCacheIds` with
`kInvalidParameter` and returns before it writes the output, which is still
true; asked for another plug it returns `kUnknownParameter` at once, with the
same effect. -/
theorem rigFrozen_stale_without_connected_cache :
    exStalePoseData.state ≠ 1 ∧ exPoseNode.needsEvaluation = false ∧
    (∀ j : Nat, exStalePoseData.outCacheIdsConnected[j]? ≠ some true) ∧
    HdPoseNode.compute exPoseNode exPoseRegistry exUuid gnuHashString gnuHashDouble true
        exStalePoseData
      = (MStatus.kInvalidParameter, exStalePoseData) ∧
    HdPoseNode.compute exPoseNode exPoseRegistry exUuid gnuHashString gnuHashDouble false
        exStalePoseData
      = (MStatus.kUnknownParameter, exStalePoseData) ∧
    exStalePoseData.outFreezeRig = true := by
  refine ⟨by decide, rfl, ?_, ?_, ?_, rfl⟩
  · intro j
    simp [exStalePoseData]
  · simp [HdPoseNode.compute, HdPoseNode.setCacheIds, exStalePoseData]
  · simp [HdPoseNode.compute]

/-! ## The size that the budget inference divides by -/

theorem HdMeshSet.memSizeOf_memSize (s : HdMeshSet) :
    HdMeshSet.memSizeOf HdMeshData.memSize s = HdMeshSet.memSize s := rfl

theorem HdMeshCache.putOf_new_maxSize (frameSize : HdMeshData → ℚ) (cacheId poseId : String)
    (S : HdMeshSet) (hM : HdMeshSet.memSizeOf frameSize S ≠ 0) :
    ((HdMeshCache.new cacheId 0).putOf frameSize poseId S).2.maxSize
      = intToSizeT (doubleToInt (500 * 1024 / HdMeshSet.memSizeOf frameSize S)) := by
  simp only [HdMeshCache.putOf, HdMeshCache.maxSize, LruCache.getMaxSize, HdMeshCache.new,
    LruCache.new, if_true, HdMeshCache.applyMaxMemSize, hM, if_false, HdMeshCache.maxMemSize,
    LruCache.insert_maxSize, LruCache.setMaxSize, LruCache.prune_maxSize]

theorem HdMeshCache.putOf_new_maxSize_zero (frameSize : HdMeshData → ℚ)
    (cacheId poseId : String) (S : HdMeshSet) (hM : HdMeshSet.memSizeOf frameSize S = 0) :
    ((HdMeshCache.new cacheId 0).putOf frameSize poseId S).2.maxSize = 0 := by
  simp only [HdMeshCache.putOf, HdMeshCache.maxSize, LruCache.getMaxSize, HdMeshCache.new,
    LruCache.new, if_true, HdMeshCache.applyMaxMemSize, hM, HdMeshCache.maxMemSize,
    LruCache.insert_maxSize, LruCache.setMaxSize, LruCache.prune_maxSize]

/-- C9: the maximum entry count that a new cache with capacity 0 and the
default budget of 500 MB infers at its first put is computed from the value
that the call `it->memSize()` yields for each frame, and
`HdMeshData::memSize` ends without a return statement, so the source does not
make that value the size it has accumulated. With `frameSize` for the value
the call yields and `M'` for the resulting sum over the set: the count is
`floor(500 * 1024 / M')` when `M' > 0` and the quotient fits an `int`, and the
capacity stays 0 when `M'` is 0. For a set of one triangle, whose accumulated
size is 7/128 KB, the claimed count is 9362285; the count is that number when
the call yields the accumulated size, 0 when the call yields 0, and 512000 when
it yields 1. -/
theorem budget_inference_follows_returned_size (frameSize : HdMeshData → ℚ)
    (cacheId poseId : String) (S : HdMeshSet) :
    (HdMeshCache.new cacheId 0).putOf HdMeshData.memSize poseId S
      = (HdMeshCache.new cacheId 0).put poseId S ∧
    (0 < HdMeshSet.memSizeOf frameSize S →
      500 * 1024 / HdMeshSet.memSizeOf frameSize S < 2147483648 →
      ((((HdMeshCache.new cacheId 0).putOf frameSize poseId S).2.maxSize : Nat) : Int)
        = ⌊(500 * 1024 : ℚ) / HdMeshSet.memSizeOf frameSize S⌋) ∧
    (HdMeshSet.memSizeOf frameSize S = 0 →
      ((HdMeshCache.new cacheId 0).putOf frameSize poseId S).2.maxSize = 0) ∧
    (HdMeshSet.memSize [exTriangleFrame] = 7 / 128 ∧
      ⌊(500 * 1024 : ℚ) / (7 / 128)⌋ = 9362285 ∧
      ((HdMeshCache.new "rig" 0).putOf HdMeshData.memSize "17" [exTriangleFrame]).2.maxSize
        = 9362285 ∧
      ((HdMeshCache.new "rig" 0).putOf (fun _ => 0) "17" [exTriangleFrame]).2.maxSize = 0 ∧
      ((HdMeshCache.new "rig" 0).putOf (fun _ => 1) "17" [exTriangleFrame]).2.maxSize
        = 512000) := by
  refine ⟨rfl, ?_, HdMeshCache.putOf_new_maxSize_zero frameSize cacheId poseId S, ?_⟩
  · intro hpos hfits
    have hq : (0 : ℚ) ≤ 500 * 1024 / HdMeshSet.memSizeOf frameSize S := by positivity
    rw [HdMeshCache.putOf_new_maxSize frameSize cacheId poseId S (ne_of_gt hpos),
      doubleToInt_of_fits _ hq hfits]
    have hge : 0 ≤ ⌊(500 * 1024 : ℚ) / HdMeshSet.memSizeOf frameSize S⌋ :=
      Int.floor_nonneg.2 hq
    have hlt : ⌊(500 * 1024 : ℚ) / HdMeshSet.memSizeOf frameSize S⌋ < 2147483648 := by
      rw [Int.floor_lt]
      exact_mod_cast hfits
    unfold intToSizeT
    rw [Int.emod_eq_of_lt hge (by omega), Int.toNat_of_nonneg hge]
  · have hfloor : ⌊(500 * 1024 : ℚ) / (7 / 128)⌋ = 9362285 := by
      rw [Int.floor_eq_iff]
      norm_num
    refine ⟨exTriangleFrame_memSize, hfloor, ?_, ?_, ?_⟩
    · with_unfolding_all decide
    · with_unfolding_all decide
    · with_unfolding_all decide

/-! ## Order of the control values in the pose hash -/

theorem HdUtils.hash_combine_mod_two {T : Type} (hasher : T → Nat) (seed : Nat) (v : T) :
    HdUtils.hash_combine hasher seed v % 2 = (seed + hasher v + 1 + seed / 4) % 2 := by
  unfold HdUtils.hash_combine HdUtils.HASH_SEED
  rw [Nat.xor_mod_two_eq, Nat.shiftLeft_eq, Nat.shiftRight_eq_div_pow]
  omega

/-- C12 (amended): for every rig tag `t` and control values `a`, `b`, let `u`
and `v` be the running hashes after the first value of `[a, b]` and of
`[b, a]`, that is, `hash_combine` of the hash of `t` with the scaled `a` and
with the scaled `b`. If `u` and `v` differ in the bit of weight 4, then the
pose hash of `[a, b]` differs from the pose hash of `[b, a]`. -/
theorem pose_hash_swap_differs_of_third_bit (hashString : String → Nat)
    (hashDouble : ℚ → Nat) (t : String) (a b : ℚ)
    (hbit : HdUtils.hash_combine hashDouble (hashString t) (a * FLOATING_POINT_HASH_FIX_SCALE)
        / 4 % 2
      ≠ HdUtils.hash_combine hashDouble (hashString t) (b * FLOATING_POINT_HASH_FIX_SCALE)
        / 4 % 2) :
    (⟨t, [a, b]⟩ : HdPose).hash hashString hashDouble
      ≠ (⟨t, [b, a]⟩ : HdPose).hash hashString hashDouble := by
  intro heq
  have h := toString_nat_injective _ _ heq
  simp only [HdPose.hashValue, List.foldl_cons, List.foldl_nil] at h
  have h2 := congrArg (fun n => n % 2) h
  simp only [HdUtils.hash_combine_mod_two] at h2
  have ha := HdUtils.hash_combine_mod_two hashDouble (hashString t)
    (a * FLOATING_POINT_HASH_FIX_SCALE)
  have hb := HdUtils.hash_combine_mod_two hashDouble (hashString t)
    (b * FLOATING_POINT_HASH_FIX_SCALE)
  omega

/-- C12 (witness): under the rig tag `rig` and the library hashes of the GNU
C++ library, the running hashes after the value 1 and after the value 2 differ
in the bit of weight 4, and the two orders get different pose hashes. -/
theorem pose_hash_swap_differs_of_third_bit_witness :
    HdUtils.hash_combine gnuHashDouble (gnuHashString "rig") (1 * FLOATING_POINT_HASH_FIX_SCALE)
      / 4 % 2 = 1 ∧
    HdUtils.hash_combine gnuHashDouble (gnuHashString "rig") (2 * FLOATING_POINT_HASH_FIX_SCALE)
      / 4 % 2 = 0 ∧
    (⟨"rig", [1, 2]⟩ : HdPose).hash gnuHashString gnuHashDouble
      ≠ (⟨"rig", [2, 1]⟩ : HdPose).hash gnuHashString gnuHashDouble :=
  ⟨by decide!, by decide!,
    pose_hash_swap_differs_of_third_bit gnuHashString gnuHashDouble "rig" 1 2 (by decide!)⟩

/-- C12 (counterexample): the control values 3672965310341375 / 2^51
(1.6311242624761912) and 4810270139665125 / 2^65 (0.00013038263339167698) are
different doubles, and with the library hashes of the GNU C++ library the pose
hash of the two orders under the rig tag `ctl10` is the same text. -/
theorem pose_hash_swap_collision :
    (3672965310341375 / 2251799813685248 : ℚ) ≠ 4810270139665125 / 36893488147419103232 ∧
    (⟨"ctl10", [3672965310341375 / 2251799813685248,
        4810270139665125 / 36893488147419103232]⟩ : HdPose).hash gnuHashString gnuHashDouble
      = "10982964501023581366" ∧
    (⟨"ctl10", [4810270139665125 / 36893488147419103232,
        3672965310341375 / 2251799813685248]⟩ : HdPose).hash gnuHashString gnuHashDouble
      = "10982964501023581366" := by
  refine ⟨by norm_num, by decide!, by decide!⟩

/-! ## Control values below the resolution of the scale -/

theorem HdPose.hash_single_eq_iff (hashString : String → Nat) (hashDouble : ℚ → Nat)
    (t : String) (a b : ℚ) :
    (⟨t, [a]⟩ : HdPose).hash hashString hashDouble
        = (⟨t, [b]⟩ : HdPose).hash hashString hashDouble ↔
      hashDouble (a * FLOATING_POINT_HASH_FIX_SCALE) % 2 ^ 64
        = hashDouble (b * FLOATING_POINT_HASH_FIX_SCALE) % 2 ^ 64 := by
  simp only [HdPose.hash, HdPose.hashValue, List.foldl_cons, List.foldl_nil]
  rw [← HdUtils.hash_combine_eq_iff]
  constructor
  · exact toString_nat_injective _ _
  · intro h; rw [h]

/-- C24: the control values 1/2 and 1/2 + 1/8192 differ by less than 1/4096.
`std::hash<HdPose>` multiplies each value by 4096 and hands the product to
`std::hash<double>` as it is, here the different doubles 2048 and 2048.5, so
under every rig tag and with any library hashes the two poses have the same
pose id only if `std::hash<double>` gives these two doubles the same 64-bit
value. With the library hashes of the GNU C++ library the two pose ids under
the rig tag `rig` are different texts. -/
theorem pose_hash_not_quantized :
    |(1 / 2 : ℚ) - (1 / 2 + 1 / 8192)| < 1 / 4096 ∧
    (∀ (hashString : String → Nat) (hashDouble : ℚ → Nat) (t : String),
      ((⟨t, [1 / 2]⟩ : HdPose).hash hashString hashDouble
          = (⟨t, [1 / 2 + 1 / 8192]⟩ : HdPose).hash hashString hashDouble ↔
        hashDouble 2048 % 2 ^ 64 = hashDouble (4097 / 2) % 2 ^ 64)) ∧
    gnuHashDouble 2048 = 3761158987514101056 ∧
    gnuHashDouble (4097 / 2) = 3783758876677785138 ∧
    (⟨"rig", [1 / 2]⟩ : HdPose).hash gnuHashString gnuHashDouble = "7327290260307631712" ∧
    (⟨"rig", [1 / 2 + 1 / 8192]⟩ : HdPose).hash gnuHashString gnuHashDouble
      = "7385784842627536766" := by
  refine ⟨?_, ?_, by decide!, by decide!, by decide!, by decide!⟩
  · rw [abs_lt]; constructor <;> norm_num
  · intro hashString hashDouble t
    have h := HdPose.hash_single_eq_iff hashString hashDouble t (1 / 2) (1 / 2 + 1 / 8192)
    have h1 : (1 / 2 : ℚ) * FLOATING_POINT_HASH_FIX_SCALE = 2048 := by
      unfold FLOATING_POINT_HASH_FIX_SCALE; norm_num
    have h2 : (1 / 2 + 1 / 8192 : ℚ) * FLOATING_POINT_HASH_FIX_SCALE = 4097 / 2 := by
      unfold FLOATING_POINT_HASH_FIX_SCALE; norm_num
    rw [h1, h2] at h
    exact h

/-! ## Cluster decisions after a reset -/

theorem HdEvaluator.callAll_append_preEvaluate (e : HdEvaluator) (before later : List HostCall)
    (anim : MAnimControl) (read : MNode → PosePlugs) :
    e.callAll (before ++ HostCall.preEvaluate anim read :: later)
      = ((e.callAll before).preEvaluate anim read).callAll later := by
  simp [HdEvaluator.callAll, List.foldl_append, HdEvaluator.call]

/-- C27: `HdEvaluator::evaluatorReset` empties the pose-node set, the
mesh-output set, the whitelist set and the cached-pose set and makes the gate
not initialized and not available. After the reset, as long as no
`markIfSupported` has initialised the gate again, every `clusterEvaluate`
executes the whole cluster. The host begins each pass with `preEvaluate` and
makes the cluster decisions of the pass after it: for host calls `before`,
then `preEvaluate`, then calls `later` without another `preEvaluate`, a
`clusterEvaluate` that does not execute the whole cluster implies that this
`preEvaluate`, the latest since the reset, found the pass fully cached, on a
gate that a `markIfSupported` after the reset has made available again. -/
theorem evaluatorReset_no_skip_until_fully_cached (e : HdEvaluator)
    (before later : List HostCall) (anim : MAnimControl) (read : MNode → PosePlugs)
    (cluster : MCustomEvaluatorClusterNode) :
    (e.evaluatorReset.poseNodes = [] ∧ e.evaluatorReset.outputMeshes = [] ∧
      e.evaluatorReset.whitelistNodes = [] ∧ e.evaluatorReset.cachedPoses = [] ∧
      e.evaluatorReset.evaluatorInitialized = false ∧ e.evaluatorReset.hdAvailable = false) ∧
    e.evaluatorReset.clusterEvaluate cluster = cluster.nodes ∧
    ((∀ c ∈ before, c.isMark = false) →
      (e.evaluatorReset.callAll before).clusterEvaluate cluster = cluster.nodes) ∧
    ((∀ c ∈ later, c.isPreEvaluate = false) →
      (e.evaluatorReset.callAll (before ++ HostCall.preEvaluate anim read :: later)).clusterEvaluate
          cluster ≠ cluster.nodes →
        ((e.evaluatorReset.callAll before).preEvaluate anim read).fullyCached = true ∧
        (e.evaluatorReset.callAll before).hdAvailable = true ∧
        HdUtils.playbackActive anim = true ∧
        (∀ oNode ∈ (e.evaluatorReset.callAll before).poseNodes,
          readsFrozen oNode (read oNode) = true) ∧
        ∃ c ∈ before ++ HostCall.preEvaluate anim read :: later, c.isMark = true) := by
  have hnomark : ∀ calls : List HostCall, (∀ c ∈ calls, c.isMark = false) →
      (e.evaluatorReset.callAll calls).clusterEvaluate cluster = cluster.nodes := by
    intro calls h
    exact HdEvaluator.clusterEvaluate_normal _ cluster
      (Or.inr (HdEvaluator.callAll_unavailable calls _ rfl h))
  refine ⟨⟨rfl, rfl, rfl, rfl, rfl, rfl⟩, ?_, hnomark before, ?_⟩
  · exact HdEvaluator.clusterEvaluate_normal _ cluster (Or.inr rfl)
  · intro hlater hskip
    have hsel := HdEvaluator.clusterEvaluate_selective _ cluster hskip
    have hflag : ((e.evaluatorReset.callAll before).preEvaluate anim read).fullyCached = true := by
      rw [HdEvaluator.callAll_append_preEvaluate] at hsel
      rw [← HdEvaluator.callAll_fullyCached later _ hlater]
      exact hsel.2
    have hiff := (HdEvaluator.fullyCached_after_preEvaluate
      (e.evaluatorReset.callAll before) anim read).1 hflag
    refine ⟨hflag, hiff.1, hiff.2.1, hiff.2.2.1, ?_⟩
    by_contra hno
    apply hskip
    apply hnomark
    intro c hc
    cases hm : c.isMark
    · rfl
    · exact absurd ⟨c, hc, hm⟩ hno

end Hyperdrive
